import Mathlib

/-!
# a4091-software: RDB mounter (`mounter.c`) and command handler (`cmdhandler.c`)

A shallow embedding of the boot-time volume loader: the checked block reader,
the LSEG word stream, the hunk relocator, the FileSystem.resource registry, the
partition walk and the target and LUN loop of `MountDrive`; and of the block
number computation of `cmd_do_iorequest`.  The properties proved about them
follow the definitions.

Conventions of the embedding.

* `ULONG`/`UWORD`/`UBYTE` values are natural numbers; every operation that can
  leave the range is followed by an explicit `%`.
* A byte buffer is a function from the byte index to the byte stored there.
* A routine whose loop may run for ever takes a `fuel` argument and returns
  `Run.fuel` when it is used up; an access outside an allocation or a signed
  overflow (undefined behaviour in C) gives `Run.fault`.
-/

namespace Mounter

/-! ## Definitions -/

/-- Outcome of a modelled routine: a value, fuel used up, or undefined behaviour. -/
inductive Run (α : Type) where
  | ok (a : α)
  | fuel
  | fault
  deriving DecidableEq

/-- Sequencing of outcomes. -/
def Run.bind {α β : Type} (x : Run α) (f : α → Run β) : Run β :=
  match x with
  | .ok a => f a
  | .fuel => .fuel
  | .fault => .fault

instance : Monad Run where
  pure := Run.ok
  bind := Run.bind

/-- Byte buffer: index to byte. -/
abbrev Buf := Nat → Nat

/-- The expression `(p[i+0] << 24) | (p[i+1] << 16) | (p[i+2] << 8) | (p[i+3] << 0)`
as a `ULONG`. -/
def be32 (buf : Buf) (i : Nat) : Nat :=
  ((buf (i + 0) <<< 24) ||| (buf (i + 1) <<< 16) ||| (buf (i + 2) <<< 8)
    ||| (buf (i + 3) <<< 0)) % 4294967296

/-- The block device behind `md->request`.  `err k off` is the code `DoIO` returns for
the attempt number `k` of one `readblock` call at byte offset `off`; `byte a` is the
byte stored at byte address `a` of the medium.  `ERROR_NOT_READY` is the value of the
header constant of that name (its header is not part of the sources at hand). -/
structure Device where
  ERROR_NOT_READY : Int
  err : Nat → Nat → Int
  byte : Nat → Nat

/-- The fields of `struct MountData` used by the loader.  `lsegbuf` holds the bytes
`md->lsegbuf` points to; `iolog` is a ghost list of the `io_Offset` of every `CMD_READ`
issued so far, most recent first. -/
structure MountData where
  request : Device
  lsegblock : Nat
  lseglongs : Nat
  lsegoffset : Nat
  lsegbuf : Buf
  lsegwordbuf : Nat
  lseghasword : Bool
  ret : Int
  wasLastDev : Bool
  wasLastLun : Bool
  slowSpinup : Bool
  blocksize : Nat
  iolog : List Nat

/-- The loop of `checksum`: `for (UWORD i = 0; i < md->blocksize; i += 4) chk += v`.
`i` wraps at 16 bits, so a run that has not left the loop after 16384 rounds never
does; `fuel` counts the rounds still allowed. -/
def checksumLoop (buf : Buf) (blocksize : Nat) : Nat → Nat → Nat → Run Nat
  | 0, _, _ => .fuel
  | fuel + 1, i, chk =>
    if i < blocksize then
      checksumLoop buf blocksize fuel ((i + 4) % 65536) ((chk + be32 buf i) % 4294967296)
    else .ok chk

/-- Model of `checksum(buf, md)`: `FALSE` when the 32-bit sum is non-zero. -/
def checksum (buf : Buf) (md : MountData) : Run Bool :=
  match checksumLoop buf md.blocksize 16385 0 0 with
  | .ok chk => .ok (if chk ≠ 0 then false else true)
  | .fuel => .fuel
  | .fault => .fault

/-- The buffer `buf` after `len` bytes of the medium, from byte address `off` on, have
been transferred to its start. -/
def xfer (dev : Device) (off len : Nat) (buf : Buf) : Buf :=
  fun k => if k < len then dev.byte (off + k) % 256 else buf k

/-- Model of `DoIO` for `CMD_READ` with `io_Data = buf`: on success the first
`io_Length` bytes of `buf` are replaced by the medium's bytes from `io_Offset` on. -/
def DoIO (dev : Device) (attempt io_Offset io_Length : Nat) (buf : Buf) : Int × Buf :=
  if dev.err attempt io_Offset = 0 then (0, xfer dev io_Offset io_Length buf)
  else (dev.err attempt io_Offset, buf)

/-- The retry loop of `readblock`:
`for (i = 0; i < max_retries; i++) { err = DoIO(..); if (!err) break;
 if (err != ERROR_NOT_READY) { i = max_retries; break; } delay(..); }`.
The first argument is `max_retries - i`, so it is zero exactly when the loop
condition fails.  Returns the final `i`, the buffer and the log. -/
def retryLoop (dev : Device) (off len max_retries : Nat) :
    Nat → Nat → Buf → List Nat → Nat × Buf × List Nat
  | 0, i, buf, log => (i, buf, log)
  | rest + 1, i, buf, log =>
    let r := DoIO dev i off len buf
    if r.1 = 0 then (i, r.2, off :: log)
    else if r.1 ≠ dev.ERROR_NOT_READY then (max_retries, r.2, off :: log)
    else retryLoop dev off len max_retries rest (i + 1) r.2 (off :: log)

/-- The retry budget `max_retries` of `readblock`: `MAX_RETRIES`, or 15 with
`md->slowSpinup`. -/
def maxRetries (md : MountData) : Nat := if md.slowSpinup then 15 else 3

/-- The value of `block << 9` stored in `io_Offset`. -/
def blockOffset (block : Nat) : Nat := (block <<< 9) % 4294967296

/-- Model of `readblock(buf, block, id, md)`: the flag returned, the bytes at `buf`
afterwards and the updated `MountData`. -/
def readblock (buf : Buf) (block id : Nat) (md : MountData) : Run (Bool × Buf × MountData) :=
  let max_retries := maxRetries md
  let io_Offset := blockOffset block
  let r := retryLoop md.request io_Offset md.blocksize max_retries max_retries 0 buf md.iolog
  let md1 := { md with iolog := r.2.2 }
  if r.1 = max_retries then .ok (false, r.2.1, md1)
  else
    let v := be32 r.2.1 0
    if id ≠ 4294967295 ∧ v ≠ id then .ok (false, r.2.1, md1)
    else
      match checksum r.2.1 md1 with
      | .ok true => .ok (true, r.2.1, md1)
      | .ok false => .ok (false, r.2.1, md1)
      | .fuel => .fuel
      | .fault => .fault

/-! ### The LSEG word stream -/

/-- Modelled from the spec: the signature "LSEG" (`IDNAME_LOADSEG` of
`devices/hardblocks.h`, a header that is not among the sources). -/
def IDNAME_LOADSEG : Nat := 0x4C534547

/-- Number of data longs of one LSEG block: `#define LSEG_DATASIZE (512 / 4 - 5)`. -/
def LSEG_DATASIZE : Nat := 512 / 4 - 5

/-- The block `if (!md->lseglongs) { ... }` of `lseg_read_longs`.  The flag is `false`
when the routine returns FALSE from inside it (end of chain or failed fetch).
`lsb_Next` is the long at byte 16 of the block. -/
def lsegRefill (md : MountData) : Run (Bool × MountData) :=
  if md.lseglongs = 0 then
    if md.lsegblock = 4294967295 then .ok (false, md)
    else
      match readblock md.lsegbuf md.lsegblock IDNAME_LOADSEG md with
      | .ok (false, b, md2) => .ok (false, { md2 with lsegbuf := b })
      | .ok (true, b, md2) =>
        .ok (true, { md2 with lsegbuf := b, lseglongs := LSEG_DATASIZE, lsegoffset := 0,
                               lsegblock := be32 b 16 })
      | .fuel => .fuel
      | .fault => .fault
  else .ok (true, md)

/-- The state after `md->lsegoffset++; md->lseglongs--;`. -/
def lsegAdvance (md : MountData) : MountData :=
  { md with lsegoffset := (md.lsegoffset + 1) % 4294967296, lseglongs := md.lseglongs - 1 }

/-- The loop `while (longs > cnt)` of `lseg_read_longs`; `out` collects the longs stored
to `data[0]`, `data[1]`, ... so far.  `lsb_LoadData[k]` is the long at byte `20 + 4 * k`
of the block. -/
def lsegLoop (longs : Nat) : Nat → MountData → Nat → List Nat → Run (Bool × List Nat × MountData)
  | 0, _, _, _ => .fuel
  | fuel + 1, md, cnt, out =>
    if longs > cnt then
      if md.lseglongs > 0 then
        let out1 := out ++ [be32 md.lsegbuf (20 + 4 * md.lsegoffset)]
        let md1 := lsegAdvance md
        if longs = cnt + 1 then .ok (true, out1, md1)
        else
          match lsegRefill md1 with
          | .ok (true, md2) => lsegLoop longs fuel md2 (cnt + 1) out1
          | .ok (false, md2) => .ok (false, out1, md2)
          | .fuel => .fuel
          | .fault => .fault
      else
        match lsegRefill md with
        | .ok (true, md2) => lsegLoop longs fuel md2 cnt out
        | .ok (false, md2) => .ok (false, out, md2)
        | .fuel => .fuel
        | .fault => .fault
    else .ok (true, out, md)

/-- Model of `lseg_read_longs(md, longs, data)`: the flag, the longs stored to `data`
in order, and the state.  Every round of the loop stores a long or fetches a block, and
a fetch is followed by a store, so `2 * longs + 1` rounds are never used up. -/
def lseg_read_longs (md : MountData) (longs : Nat) : Run (Bool × List Nat × MountData) :=
  lsegLoop longs (2 * longs + 1) { md with lseghasword := false } 0 []

/-- Model of `lseg_read_long(md, data)`: the flag, the value stored to `*data` (if any)
and the state.  `temp` is the indeterminate initial content of the local `temp`, which
the first branch uses when the inner read fails. -/
def lseg_read_long (md : MountData) (temp : Nat) : Run (Bool × Option Nat × MountData) :=
  if md.lseghasword then
    match lseg_read_longs md 1 with
    | .ok (v, out, md1) =>
      let t := out.headD temp
      .ok (v, some (((md.lsegwordbuf <<< 16) ||| (t >>> 16)) % 4294967296),
           { md1 with lsegwordbuf := t % 65536, lseghasword := true })
    | .fuel => .fuel
    | .fault => .fault
  else
    match lseg_read_longs md 1 with
    | .ok (v, out, md1) => .ok (v, out.head?, md1)
    | .fuel => .fuel
    | .fault => .fault

/-- Model of `lseg_read_word(md, data)`. -/
def lseg_read_word (md : MountData) : Run (Bool × Option Nat × MountData) :=
  if md.lseghasword then
    .ok (true, some md.lsegwordbuf, { md with lseghasword := false })
  else
    match lseg_read_longs md 1 with
    | .ok (true, out, md1) =>
      let t := out.headD 0
      .ok (true, some (t >>> 16), { md1 with lseghasword := true, lsegwordbuf := t % 65536 })
    | .ok (false, _, md1) => .ok (false, none, md1)
    | .fuel => .fuel
    | .fault => .fault

/-! ### The hunk relocator -/

/-- Modelled from the spec: the CODE token (`HUNK_CODE`; the tokens and flag bits are
those of `dos/doshunks.h`, a header that is not among the sources). -/
def HUNK_CODE : Nat := 1001

/-- Modelled from the spec: the DATA token (`HUNK_DATA`). -/
def HUNK_DATA : Nat := 1002

/-- Modelled from the spec: the BSS token (`HUNK_BSS`). -/
def HUNK_BSS : Nat := 1003

/-- Modelled from the spec: the RELOC32 token (`HUNK_RELOC32`). -/
def HUNK_RELOC32 : Nat := 1004

/-- Modelled from the spec: the END token (`HUNK_END`). -/
def HUNK_END : Nat := 1010

/-- Modelled from the spec: the HEADER token (`HUNK_HEADER`). -/
def HUNK_HEADER : Nat := 1011

/-- Modelled from the spec: the RELOC32SHORT token (`HUNK_RELOC32SHORT`). -/
def HUNK_RELOC32SHORT : Nat := 1020

/-- Modelled from the spec: the "chip" class bit of a size-and-flags long (`HUNKF_CHIP`,
bit 30). -/
def HUNKF_CHIP : Nat := 1073741824

/-- Modelled from the spec: the "fast" class bit of a size-and-flags long (`HUNKF_FAST`,
bit 31). -/
def HUNKF_FAST : Nat := 2147483648

/-- Modelled from the spec: the generic/public memory class (`MEMF_PUBLIC` of
`exec/memory.h`, a header that is not among the sources). -/
def MEMF_PUBLIC : Nat := 1

/-- Modelled from the spec: the chip memory class (`MEMF_CHIP`). -/
def MEMF_CHIP : Nat := 2

/-- Modelled from the spec: the request for zero-filled memory (`MEMF_CLEAR`). -/
def MEMF_CLEAR : Nat := 65536

/-- A `ULONG` bit pattern read as a `LONG`. -/
def toLONG (x : Nat) : Int := if x < 2147483648 then (x : Int) else (x : Int) - 4294967296

/-- Conversion of an `int` to `WORD` (wraps, as the compiler at hand does). -/
def toWORD (i : Int) : Int := (i + 32768) % 65536 - 32768

/-- An entry of the scratch table, `struct RelocHunk`, together with the allocation its
pointer refers to: `msize` is the byte size passed to `AllocMem` and `mem` holds the
bytes of the allocation, indexed from its base (so the data area starts at index 8).
`hunkData` is the pointer value, 0 for NULL. -/
structure RelocHunk where
  hunkSize : Nat
  hunkData : Nat
  msize : Nat
  mem : Buf

/-- An entry as `MEMF_CLEAR` leaves it. -/
def RelocHunk.zero : RelocHunk := { hunkSize := 0, hunkData := 0, msize := 0, mem := fun _ => 0 }

/-- Store of one byte: `p[i] = b` with `p` a `UBYTE` pointer. -/
def setByte (mem : Buf) (i b : Nat) : Buf := fun j => if j = i then b % 256 else mem j

/-- The long the processor reads at byte index `p` (big-endian). -/
def loadLong (mem : Buf) (p : Nat) : Nat :=
  mem p * 16777216 + mem (p + 1) * 65536 + mem (p + 2) * 256 + mem (p + 3)

/-- The memory after the processor stores the long `v` at byte index `p` (big-endian). -/
def storeLong (mem : Buf) (p v : Nat) : Buf :=
  fun j =>
    if j = p then v / 16777216 % 256
    else if j = p + 1 then v / 65536 % 256
    else if j = p + 2 then v / 256 % 256
    else if j = p + 3 then v % 256
    else mem j

/-- Stores of consecutive longs from byte index `p` on: `data[0] = ..; data[1] = ..`. -/
def storeLongs (mem : Buf) (p : Nat) : List Nat → Buf
  | [] => mem
  | w :: ws => storeLongs (storeLong mem p w) (p + 4) ws

/-- The fix-up for an odd offset: the long is assembled from four bytes, the target
address added, and the four bytes stored one by one. -/
def relocOdd (mem : Buf) (p target : Nat) : Buf :=
  let v := (be32 mem p + target) % 4294967296
  setByte (setByte (setByte (setByte mem p (v >>> 24)) (p + 1) (v >>> 16)) (p + 2) (v >>> 8))
    (p + 3) (v >>> 0)

/-- The fix-up for an even offset: `*((ULONG*)hData) += (ULONG)rhr->hunkData`. -/
def relocEven (mem : Buf) (p target : Nat) : Buf :=
  storeLong mem p ((loadLong mem p + target) % 4294967296)

/-- One round of `while (relocCnt != 0)` after the offset has been read: `none` for
`goto end` (offset refused), else the current hunk with the long at `relocOffset` fixed
up by the address `target` of the target hunk's data.  The bound is
`(rh->hunkSize - 1) * sizeof(ULONG)` in `ULONG` arithmetic.  A write that leaves the
allocation is undefined behaviour. -/
def relocOne (rh : RelocHunk) (target relocOffset : Nat) : Run (Option RelocHunk) :=
  if relocOffset > ((rh.hunkSize + 4294967295) % 4294967296 * 4) % 4294967296 then .ok none
  else if 8 + relocOffset + 4 ≤ rh.msize then
    if relocOffset &&& 1 ≠ 0 then
      .ok (some { rh with mem := relocOdd rh.mem (8 + relocOffset) target })
    else .ok (some { rh with mem := relocEven rh.mem (8 + relocOffset) target })
  else .fault

/-- Ghost record of what the load pass did: the header of a relocation group as read
from the stream (count, target-hunk index), and a fix-up applied (index of the hunk
written, index of the target hunk, offset). -/
inductive LoadEv where
  | group (cnt idx : Nat)
  | fix (cur tgt off : Nat)
  deriving DecidableEq

/-- The state the loops of `fsrelocate` work on: the reader state, the scratch table
`relocHunks` (entry `i` for `i < tlen`), and two ghost lists: the hunk buffers obtained
from `AllocMem` (base address, byte size) and the trace of the load pass. -/
structure Loader where
  md : MountData
  tbl : Nat → RelocHunk
  tlen : Nat
  allocs : List (Nat × Nat)
  trace : List LoadEv

/-- The entry `relocHunks[i]`; an index outside the table is undefined behaviour. -/
def hunkAt (ld : Loader) (i : Int) : Run RelocHunk :=
  if i < 0 then .fault
  else if i.toNat < ld.tlen then .ok (ld.tbl i.toNat)
  else .fault

/-- The table with entry `i` replaced. -/
def setHunk (tbl : Nat → RelocHunk) (i : Nat) (rh : RelocHunk) : Nat → RelocHunk :=
  fun j => if j = i then rh else tbl j

/-- The memory-class part of a pre-allocation round: with both class bits set an
explicit `memoryFlags` long follows and is read, else `MEMF_CHIP` is added for the chip
bit.  The flag is `false` for `goto end`. -/
def readMemoryFlags (temp hunkHeadSize : Nat) (md : MountData) : Run (Bool × Nat × MountData) :=
  if hunkHeadSize &&& (HUNKF_CHIP ||| HUNKF_FAST) = (HUNKF_CHIP ||| HUNKF_FAST) then
    match lseg_read_long md temp with
    | .ok (v, om, md1) => .ok (v, om.getD MEMF_PUBLIC, md1)
    | .fuel => .fuel
    | .fault => .fault
  else if hunkHeadSize &&& HUNKF_CHIP ≠ 0 then .ok (true, MEMF_PUBLIC ||| MEMF_CHIP, md)
  else .ok (true, MEMF_PUBLIC, md)

/-- Modelled from the spec: the macro `MKBADDR` (its header is not among the sources),
the BPTR of an address, `address >> 2`. -/
def MKBADDR (x : Nat) : Nat := x >>> 2

/-- The loop `while (hunkCnt < totalHunks)` that pre-allocates the hunks.  `alloc k size
flags` is what the `k`-th `AllocMem` call of this load returns (0 for NULL); a block
too small for the two header longs, or so high that `rh->hunkData += 2` would wrap, makes
the header stores or the pointer arithmetic undefined.  Returns
`ret`-so-far (`false` for `goto end`), `firstProcessedHunk` and the state.  `hunkCnt` is
a `WORD`: the loop leaves or faults within 32769 rounds. -/
def preAlloc (alloc : Nat → Nat → Nat → Nat) (temp totalHunks : Nat) :
    Nat → Int → Nat → Nat → Loader → Run (Bool × Nat × Loader)
  | 0, _, _, _, _ => .fuel
  | fuel + 1, hunkCnt, prevChunk, fph, ld =>
    if hunkCnt < (totalHunks : Int) then
      match hunkAt ld hunkCnt with
      | .ok rh =>
        match lseg_read_long ld.md temp with
        | .ok (false, _, md1) => .ok (false, fph, { ld with md := md1 })
        | .ok (true, oh, md1) =>
          let hunkHeadSize := oh.getD temp
          match readMemoryFlags temp hunkHeadSize md1 with
          | .ok (false, _, md2) => .ok (false, fph, { ld with md := md2 })
          | .ok (true, memoryFlags, md2) =>
            let hs := hunkHeadSize &&& 1073741823
            let msize := ((hs + 2) * 4) % 4294967296
            let a := alloc (ld.allocs.length + 1) msize (memoryFlags ||| MEMF_CLEAR)
            if a = 0 then
              .ok (false, fph,
                { ld with md := md2,
                          tbl := setHunk ld.tbl hunkCnt.toNat { rh with hunkSize := hs, hunkData := 0 } })
            else if msize < 8 ∨ 4294967296 ≤ a + 8 then .fault
            else
              let mem := storeLong (storeLong (fun _ => 0) 0 ((hs + 2) % 4294967296)) 4
                (MKBADDR prevChunk)
              let hunkData := (a + 8) % 4294967296
              let fph1 := if fph = 0 then (hunkData + 4294967296 - 4) % 4294967296 else fph
              preAlloc alloc temp totalHunks fuel (toWORD (hunkCnt + 1))
                ((a + 4) % 4294967296) fph1
                { ld with md := md2,
                          tbl := setHunk ld.tbl hunkCnt.toNat
                            { hunkSize := hs, hunkData := hunkData, msize := msize, mem := mem },
                          allocs := ld.allocs ++ [(a, msize)] }
          | .fuel => .fuel
          | .fault => .fault
        | .fuel => .fuel
        | .fault => .fault
      | .fuel => .fuel
      | .fault => .fault
    else .ok (true, fph, ld)

/-- The loop `while (relocCnt != 0)`: for each offset (a half-word for RELOC32SHORT, a
long else) one fix-up of hunk number `cur` by `target`, the address of the data of hunk
number `tgt`.  The flag is `false` for `goto end`. -/
def relocOffsets (short : Bool) (temp cur tgt target : Nat) : Nat → Loader → Run (Bool × Loader)
  | 0, ld => .ok (true, ld)
  | relocCnt + 1, ld =>
    match (if short then lseg_read_word ld.md else lseg_read_long ld.md temp) with
    | .ok (false, _, md1) => .ok (false, { ld with md := md1 })
    | .ok (true, oo, md1) =>
      let relocOffset := oo.getD temp
      match relocOne (ld.tbl cur) target relocOffset with
      | .ok none => .ok (false, { ld with md := md1 })
      | .ok (some rh) =>
        relocOffsets short temp cur tgt target relocCnt
          { ld with md := md1, tbl := setHunk ld.tbl cur rh,
                    trace := ld.trace ++ [LoadEv.fix cur tgt relocOffset] }
      | .fuel => .fuel
      | .fault => .fault
    | .fuel => .fuel
    | .fault => .fault

/-- The loop `for (;;)` over the relocation groups of hunk number `cur`: a count (0 ends
the table), a target-hunk index, `relocHunk -= firstHunk`, the range check against
`totalHunks`, then the offsets.  The flag is `false` for `goto end`. -/
def relocGroups (short : Bool) (temp firstHunk totalHunks cur : Nat) :
    Nat → Loader → Run (Bool × Loader)
  | 0, _ => .fuel
  | fuel + 1, ld =>
    match lseg_read_long ld.md temp with
    | .ok (false, _, md1) => .ok (false, { ld with md := md1 })
    | .ok (true, oc, md1) =>
      let relocCnt := oc.getD temp
      if relocCnt = 0 then .ok (true, { ld with md := md1 })
      else
        match lseg_read_long md1 temp with
        | .ok (false, _, md2) => .ok (false, { ld with md := md2 })
        | .ok (true, oh, md2) =>
          let idx := oh.getD temp
          let relocHunk := (idx + 4294967296 - firstHunk) % 4294967296
          let ld2 := { ld with md := md2, trace := ld.trace ++ [LoadEv.group relocCnt idx] }
          if relocHunk ≥ totalHunks then .ok (false, ld2)
          else
            match hunkAt ld2 relocHunk with
            | .ok rhr =>
              match relocOffsets short temp cur relocHunk rhr.hunkData relocCnt ld2 with
              | .ok (true, ld3) => relocGroups short temp firstHunk totalHunks cur fuel ld3
              | .ok (false, ld3) => .ok (false, ld3)
              | .fuel => .fuel
              | .fault => .fault
            | .fuel => .fuel
            | .fault => .fault
        | .fuel => .fuel
        | .fault => .fault
    | .fuel => .fuel
    | .fault => .fault

/-- The case `HUNK_CODE`, `HUNK_DATA`, `HUNK_BSS` for the entry `rh = &relocHunks[cur]`:
the word count is read and checked against `rh->hunkSize`, then (except for BSS) that
many longs are loaded to the data area.  The flag is `false` for `goto end`. -/
def loadHunk (temp hunkType cur : Nat) (ld : Loader) : Run (Bool × Loader) :=
  match lseg_read_long ld.md temp with
  | .ok (false, _, md1) => .ok (false, { ld with md := md1 })
  | .ok (true, os, md1) =>
    let hunkSize := os.getD temp
    if hunkSize > (ld.tbl cur).hunkSize then .ok (false, { ld with md := md1 })
    else if hunkType ≠ HUNK_BSS then
      match lseg_read_longs md1 hunkSize with
      | .ok (v, out, md2) =>
        if out = [] ∨ 8 + 4 * out.length ≤ (ld.tbl cur).msize then
          .ok (v, { ld with md := md2,
                            tbl := setHunk ld.tbl cur
                              { ld.tbl cur with mem := storeLongs (ld.tbl cur).mem 8 out } })
        else .fault
      | .fuel => .fuel
      | .fault => .fault
    else .ok (true, { ld with md := md1 })
  | .fuel => .fuel
  | .fault => .fault

/-- The loop `while (hunkCnt <= totalHunks)` that loads and relocates.  `rh` is the
index of the entry `rh` points to (`none` for NULL).  Returns `ret` and the state. -/
def loadLoop (temp firstHunk totalHunks : Nat) :
    Nat → Int → Option Nat → Loader → Run (Bool × Loader)
  | 0, _, _, _ => .fuel
  | fuel + 1, hunkCnt, rh, ld =>
    if hunkCnt ≤ (totalHunks : Int) then
      match lseg_read_long ld.md temp with
      | .ok (false, _, md1) =>
        if hunkCnt ≥ (totalHunks : Int) then .ok (true, { ld with md := md1 })
        else .ok (false, { ld with md := md1 })
      | .ok (true, ot, md1) =>
        let hunkType := ot.getD temp
        let ld1 := { ld with md := md1 }
        if hunkType = HUNK_CODE ∨ hunkType = HUNK_DATA ∨ hunkType = HUNK_BSS then
          if hunkCnt ≥ (totalHunks : Int) then .ok (false, ld1)
          else
            match hunkAt ld1 hunkCnt with
            | .ok _ =>
              match loadHunk temp hunkType hunkCnt.toNat ld1 with
              | .ok (true, ld2) =>
                loadLoop temp firstHunk totalHunks fuel (toWORD (hunkCnt + 1))
                  (some hunkCnt.toNat) ld2
              | .ok (false, ld2) => .ok (false, ld2)
              | .fuel => .fuel
              | .fault => .fault
            | .fuel => .fuel
            | .fault => .fault
        else if hunkType = HUNK_RELOC32 ∨ hunkType = HUNK_RELOC32SHORT then
          match rh with
          | none => .ok (false, ld1)
          | some cur =>
            match relocGroups (decide (hunkType = HUNK_RELOC32SHORT)) temp firstHunk totalHunks
                cur fuel ld1 with
            | .ok (true, ld2) => loadLoop temp firstHunk totalHunks fuel hunkCnt rh ld2
            | .ok (false, ld2) => .ok (false, ld2)
            | .fuel => .fuel
            | .fault => .fault
        else if hunkType = HUNK_END then
          if hunkCnt ≥ (totalHunks : Int) then .ok (true, ld1)
          else loadLoop temp firstHunk totalHunks fuel hunkCnt rh ld1
        else .ok (false, ld1)
      | .fuel => .fuel
      | .fault => .fault
    else .ok (true, ld)

/-- The clean-up loop at `end:` for `ret == 0`: `FreeMem(rh->hunkData - 2,
(rh->hunkSize + 2) * sizeof(ULONG))` for every entry with a non-NULL pointer.  Returns
the `FreeMem` calls made, in order. -/
def freeLoop (totalHunks : Nat) (ld : Loader) : Nat → Int → List (Nat × Nat) → Run (List (Nat × Nat))
  | 0, _, _ => .fuel
  | fuel + 1, hunkCnt, frees =>
    if hunkCnt < (totalHunks : Int) then
      match hunkAt ld hunkCnt with
      | .ok rh =>
        freeLoop totalHunks ld fuel (toWORD (hunkCnt + 1))
          (if rh.hunkData ≠ 0 then
            frees ++ [((rh.hunkData + 4294967296 - 8) % 4294967296,
                       ((rh.hunkSize + 2) * 4) % 4294967296)]
           else frees)
      | .fuel => .fuel
      | .fault => .fault
    else .ok frees

/-- What a call of `fsrelocate` leaves behind: the pointer returned (0 for NULL), the
reader state, and as ghost data the hunk range of the header, the scratch table
allocation (address, byte size) if the call got that far, the final table, the hunk
buffers obtained, the `FreeMem` calls in order, and the trace of the load pass. -/
structure FsResult where
  seg : Nat
  md : MountData
  firstHunk : Nat
  totalHunks : Nat
  table : Option (Nat × Nat)
  tbl : Nat → RelocHunk
  allocs : List (Nat × Nat)
  frees : List (Nat × Nat)
  trace : List LoadEv

/-- The result of a `return NULL` before the scratch table exists. -/
def FsResult.early (md : MountData) : FsResult :=
  { seg := 0, md := md, firstHunk := 0, totalHunks := 0, table := none,
    tbl := fun _ => RelocHunk.zero, allocs := [], frees := [], trace := [] }

/-- The part of `fsrelocate` from the label `end:` on. -/
def fsFinish (firstHunk totalHunks taddr tsize : Nat) (ret : Bool) (fph : Nat) (ld : Loader) :
    Run FsResult :=
  if ret then
    .ok { seg := fph, md := ld.md, firstHunk := firstHunk, totalHunks := totalHunks,
          table := some (taddr, tsize), tbl := ld.tbl, allocs := ld.allocs,
          frees := [(taddr, tsize)], trace := ld.trace }
  else
    match freeLoop totalHunks ld 32770 0 [] with
    | .ok frees =>
      .ok { seg := 0, md := ld.md, firstHunk := firstHunk, totalHunks := totalHunks,
            table := some (taddr, tsize), tbl := ld.tbl, allocs := ld.allocs,
            frees := frees ++ [(taddr, tsize)], trace := ld.trace }
    | .fuel => .fuel
    | .fault => .fault

/-- The part of `fsrelocate` after the header: the scratch table, the two passes and
the clean-up.  `firstHunk` and `lastHunk` have passed the sign and order checks. -/
def fsBody (fuel : Nat) (alloc : Nat → Nat → Nat → Nat) (temp firstHunk lastHunk : Nat)
    (md : MountData) : Run FsResult :=
  if lastHunk - firstHunk + 1 > 2147483647 then .fault
  else
    let totalHunks := lastHunk - firstHunk + 1
    let tsize := (totalHunks * 8) % 4294967296
    let taddr := alloc 0 tsize MEMF_CLEAR
    if taddr = 0 then .ok (FsResult.early md)
    else
      let ld0 : Loader :=
        { md := md, tbl := fun _ => RelocHunk.zero, tlen := tsize / 8, allocs := [], trace := [] }
      match preAlloc alloc temp totalHunks 32770 0 0 0 ld0 with
      | .ok (false, fph, ld1) => fsFinish firstHunk totalHunks taddr tsize false fph ld1
      | .ok (true, fph, ld1) =>
        match loadLoop temp firstHunk totalHunks fuel 0 none ld1 with
        | .ok (ret, ld2) => fsFinish firstHunk totalHunks taddr tsize ret fph ld2
        | .fuel => .fuel
        | .fault => .fault
      | .fuel => .fuel
      | .fault => .fault

/-- Model of `fsrelocate(md)`.  `fuel` bounds the rounds of the load pass, `alloc` is
the allocator's behaviour and `temp` the indeterminate content of uninitialised locals.
The four reads after the token are not checked by the code: a failed one leaves the
variable as it was (`firstHunk` and `lastHunk` are preset to -1). -/
def fsrelocate (fuel : Nat) (alloc : Nat → Nat → Nat → Nat) (temp : Nat) (md : MountData) :
    Run FsResult :=
  match lseg_read_long md temp with
  | .ok (false, _, md1) => .ok (FsResult.early md1)
  | .ok (true, od, md1) =>
    if od.getD temp ≠ HUNK_HEADER then .ok (FsResult.early md1)
    else
      match lseg_read_long md1 temp with
      | .ok (_, _, md2) =>
        match lseg_read_long md2 temp with
        | .ok (_, _, md3) =>
          match lseg_read_long md3 temp with
          | .ok (_, o1, md4) =>
            match lseg_read_long md4 temp with
            | .ok (_, o2, md5) =>
              let firstHunk := toLONG (o1.getD 4294967295)
              let lastHunk := toLONG (o2.getD 4294967295)
              if firstHunk < 0 ∨ lastHunk < 0 ∨ firstHunk > lastHunk then
                .ok (FsResult.early md5)
              else fsBody fuel alloc temp firstHunk.toNat lastHunk.toNat md5
            | .fuel => .fuel
            | .fault => .fault
          | .fuel => .fuel
          | .fault => .fault
        | .fuel => .fuel
        | .fault => .fault
      | .fuel => .fuel
      | .fault => .fault
  | .fuel => .fuel
  | .fault => .fault

/-! ### The FileSystem.resource registry -/

/-- Modelled from the spec: a registry entry, with the fields of `struct FileSysEntry`
(`resources/filesysres.h`, a header that is not among the sources): the name of the
node (the creator string), the three key longs, and `fields`, the nine longs from
`fse_Type` to `fse_GlobalVec` in order (`fse_SegList` is number 7). -/
structure FileSysEntry where
  ln_Name : List Nat
  fse_DosType : Nat
  fse_Version : Nat
  fse_PatchFlags : Nat
  fields : List Nat
  deriving DecidableEq

/-- The field `fse_SegList`. -/
def FileSysEntry.fse_SegList (e : FileSysEntry) : Nat := e.fields.getD 7 0

/-- The pointer a registry routine hands back: NULL, the entry number `i` of the
registry list, the tail node of the list header (what the scan pointer holds when the
loop runs off the end), a newly allocated entry that is in no list, or the address of
an entry that has been passed to `FreeMem`. -/
inductive FseRef where
  | null
  | linked (i : Nat)
  | tail
  | fresh (e : FileSysEntry)
  | freed (e : FileSysEntry)
  deriving DecidableEq

/-- Modelled from the spec: the dostype of an on-disk filesystem header, the field
`fhb_DosType` of `struct FileSysHeaderBlock` (`devices/hardblocks.h`), at byte 32. -/
def fhb_DosType (fshb : Buf) : Nat := loadLong fshb 32

/-- The field `fhb_Version`. -/
def fhb_Version (fshb : Buf) : Nat := loadLong fshb 36

/-- The field `fhb_PatchFlags`. -/
def fhb_PatchFlags (fshb : Buf) : Nat := loadLong fshb 40

/-- The long number `k` counted from `fhb_Type`. -/
def fhb_Field (fshb : Buf) (k : Nat) : Nat := loadLong fshb (44 + 4 * k)

/-- The scan `while (fse->fse_Node.ln_Succ)` of `FSHDProcess` over the entries from
number `i` on: the pointer at `goto end`, or `none` when the loop runs off the end. -/
def fsScan (dostype version : Nat) (newOnly : Bool) : List FileSysEntry → Nat → Option FseRef
  | [], _ => none
  | e :: es, i =>
    if e.fse_DosType = dostype ∧ e.fse_Version ≥ version then
      some (if newOnly then FseRef.null else FseRef.linked i)
    else fsScan dostype version newOnly es (i + 1)

/-- The loop `while (patchFlags) { *dstPatch++ = *srcPatch++; patchFlags >>= 1; }`.
Long number `k` of the destination is a field of the entry for `k < 9`; beyond that it
lies in the bytes allocated for the creator string behind the entry (which `strcpy`
overwrites afterwards), and past those outside the allocation, where the store is
undefined behaviour. -/
def patchLoop (fshb : Buf) (creatorLen : Nat) : Nat → Nat → Nat → List Nat → Run (List Nat)
  | 0, _, _, _ => .fuel
  | fuel + 1, k, patchFlags, fields =>
    if patchFlags ≠ 0 then
      if k < 9 then
        patchLoop fshb creatorLen fuel (k + 1) (patchFlags >>> 1) (fields.set k (fhb_Field fshb k))
      else if 4 * (k - 8) ≤ creatorLen + 1 then
        patchLoop fshb creatorLen fuel (k + 1) (patchFlags >>> 1) fields
      else .fault
    else .ok fields

/-- The first part of `FSHDProcess`: `OpenResource(FSRNAME)`, and when the resource does
not exist its creation (with an empty entry list) if `AllocMem` succeeds. -/
def openFsr (reg : Option (List FileSysEntry)) (okFsr : Bool) : Option (List FileSysEntry) :=
  match reg with
  | some l => some l
  | none => if okFsr then some [] else none

/-- Model of `FSHDProcess(fshb, dostype, version, newOnly, md)`.  `reg` is the entry list
of FileSystem.resource, `none` while the resource does not exist; `okFsr` and `okFse`
tell whether the `AllocMem` call for the resource and for a new entry succeed; `creator`
is the creator string.  Returns the pointer and the registry afterwards. -/
def FSHDProcess (reg : Option (List FileSysEntry)) (okFsr okFse : Bool) (creator : List Nat)
    (fshb : Option Buf) (dostype version : Nat) (newOnly : Bool) :
    Run (FseRef × Option (List FileSysEntry)) :=
  match openFsr reg okFsr with
  | none => .ok (FseRef.null, none)
  | some l =>
    match fsScan dostype version newOnly l 0 with
    | some ref => .ok (ref, some l)
    | none =>
      match fshb with
      | some hb =>
        if newOnly then
          if okFse then
            match patchLoop hb creator.length 33 0 (fhb_PatchFlags hb) (List.replicate 9 0) with
            | .ok fields =>
              .ok (FseRef.fresh
                    { ln_Name := creator, fse_DosType := fhb_DosType hb,
                      fse_Version := fhb_Version hb, fse_PatchFlags := fhb_PatchFlags hb,
                      fields := fields }, some l)
            | .fuel => .fuel
            | .fault => .fault
          else .ok (FseRef.null, some l)
        else .ok (FseRef.tail, some l)
      | none => .ok (FseRef.tail, some l)

/-- Model of `FSHDAdd(fse, md)`: the registry afterwards and the byte size passed to
`FreeMem` when the entry is freed (`sizeof(struct FileSysEntry)`, which is 62). -/
def FSHDAdd (reg : Option (List FileSysEntry)) (fse : FileSysEntry) :
    Option (List FileSysEntry) × Option Nat :=
  if fse.fse_SegList ≠ 0 then
    match reg with
    | some l => (some (fse :: l), none)
    | none => (none, some 62)
  else (reg, some 62)

/-- The entries of the registry, none while the resource does not exist. -/
def regEntries (reg : Option (List FileSysEntry)) : List FileSysEntry := reg.getD []

/-! ### The partition walk -/

/-- Modelled from the spec: the signature "RDSK" of the RDB (`IDNAME_RIGIDDISK` of
`devices/hardblocks.h`, a header that is not among the sources). -/
def IDNAME_RIGIDDISK : Nat := 0x5244534B

/-- Modelled from the spec: the signature "PART" (`IDNAME_PARTITION`). -/
def IDNAME_PARTITION : Nat := 0x50415254

/-- Modelled from the spec: the signature "FSHD" (`IDNAME_FILESYSHEADER`). -/
def IDNAME_FILESYSHEADER : Nat := 0x46534844

/-- Modelled from the spec: the number LIMIT of blocks searched for the RDB
(`RDB_LOCATION_LIMIT` of `devices/hardblocks.h`). -/
def RDB_LOCATION_LIMIT : Nat := 16

/-- Modelled from the spec: the "no-mount" flag of a partition (`PBFF_NOMOUNT`, bit 1 of
`pb_Flags`). -/
def PBFF_NOMOUNT : Nat := 2

/-- Modelled from the spec: the "last device" flag of the RDB (`RDBFF_LAST`). -/
def RDBFF_LAST : Nat := 1

/-- Modelled from the spec: the "last LUN" flag of the RDB (`RDBFF_LASTLUN`). -/
def RDBFF_LASTLUN : Nat := 2

/-- What the surroundings decide: whether the `AllocMem` calls for the parameter packet
of the `n`-th mountable partition, for the resource and for a registry entry succeed;
the allocator behaviour during the `n`-th load; the content of uninitialised locals;
whether `MakeDosNode` succeeds; the names (as BSTRs, length byte first) of the device
nodes on the mount list at the `n`-th name check; the creator string; and the
configuration flag `asave->ignore_last`. -/
structure Env where
  okPP : Nat → Bool
  okFsr : Nat → Bool
  okFse : Nat → Bool
  hunkAlloc : Nat → Nat → Nat → Nat → Nat
  temp : Nat
  makeDosNode : Nat → Bool
  mountList : Nat → List (List Nat)
  creator : List Nat
  ignore_last : Bool

/-- The state outside `MountData` that the walk changes: the registry, the number of
mountable partitions handled so far, and as ghost data, for every partition mounted, the
pointer `ParseFSHD` handed back for it. -/
structure Sys where
  reg : Option (List FileSysEntry)
  calls : Nat
  mounted : List FseRef

/-- Model of `ToUpper(c)`, with the condition as written: `c >= 'a' || c <= 'z'`. -/
def ToUpper (c : Nat) : Nat := if c ≥ 97 ∨ c ≤ 122 then (c ||| 32) % 256 else c

/-- The loop of `CompareBSTRNoCase` over the characters from number `i` on; the first
argument is `len1 - i`.  `src1` is the BSTR at `base` of the buffer, `src2` a BSTR. -/
def compareChars (buf : Buf) (base : Nat) (src2 : List Nat) : Nat → Nat → Bool
  | 0, _ => true
  | rest + 1, i =>
    if ToUpper (buf (base + 1 + i)) ≠ ToUpper (src2.getD (1 + i) 0) then false
    else compareChars buf base src2 rest (i + 1)

/-- Model of `CompareBSTRNoCase(src1, src2)`. -/
def CompareBSTRNoCase (buf : Buf) (base : Nat) (src2 : List Nat) : Bool :=
  if buf base ≠ src2.getD 0 0 then false
  else compareChars buf base src2 (buf base) 0

/-- The renaming step of `CheckAndFixDevName` on the BSTR at `base`: a final digit below
9 after a dot is increased, else ".1" is appended (`len` is a `UBYTE` and wraps). -/
def fixDevName (buf : Buf) (base : Nat) : Buf :=
  let len := buf base
  if len > 2 ∧ buf (base + 1 + (len - 2)) = 46 ∧ buf (base + 1 + (len - 1)) ≥ 48 ∧
      buf (base + 1 + (len - 1)) < 57 then
    setByte buf (base + 1 + (len - 1)) (buf (base + 1 + (len - 1)) + 1)
  else
    let b1 := setByte buf (base + 1 + len) 46
    let b2 := setByte b1 (base + 1 + (len + 1) % 256) 49
    let b3 := setByte b2 (base + 1 + (len + 2) % 256) 0
    setByte b3 base (b3 base + 2)

/-- Model of `CheckAndFixDevName(md, bname)` for the BSTR at `base`: the walk over the
mount list `names`, restarted from the head after every renaming; `todo` are the nodes
still ahead. -/
def CheckAndFixDevName (names : List (List Nat)) (base : Nat) :
    Nat → List (List Nat) → Buf → Run Buf
  | 0, _, _ => .fuel
  | _ + 1, [], buf => .ok buf
  | fuel + 1, bname2 :: todo, buf =>
    if CompareBSTRNoCase buf base bname2 then
      CheckAndFixDevName names base fuel names (fixDevName buf base)
    else CheckAndFixDevName names base fuel todo buf

/-- The last statement of `ParseFSHD`: `if (!fse) fse = FSHDProcess(NULL, dostype, 0,
FALSE, md)`, for `fse == NULL`. -/
def fsFallback (env : Env) (n dostype : Nat) (reg : Option (List FileSysEntry)) :
    Run (FseRef × Option (List FileSysEntry)) :=
  FSHDProcess reg (env.okFsr (2 * n + 1)) (env.okFse (2 * n + 1)) env.creator none dostype 0 false

/-- Model of `ParseFSHD(buf, block, dostype, md)` in the `n`-th mountable partition:
the pointer handed back, the FSHD buffer, the reader state and the registry.
`md->lsegbuf` always points to the third part of `md->buf`, whose bytes `lsegbuf` holds,
so the assignment to it leaves the model state as it is.  `FSHDAdd` receives the pointer
by value: after it the local `fse` still holds the address, also when the entry was
freed. -/
def ParseFSHD (env : Env) (n dostype : Nat) :
    Nat → Buf → Nat → MountData → Option (List FileSysEntry) →
      Run (FseRef × Buf × MountData × Option (List FileSysEntry))
  | 0, _, _, _, _ => .fuel
  | fuel + 1, buf, block, md, reg =>
    if block = 4294967295 then
      match fsFallback env n dostype reg with
      | .ok (ref, reg1) => .ok (ref, buf, md, reg1)
      | .fuel => .fuel
      | .fault => .fault
    else
      match readblock buf block IDNAME_FILESYSHEADER md with
      | .ok (false, buf1, md1) =>
        match fsFallback env n dostype reg with
        | .ok (ref, reg1) => .ok (ref, buf1, md1, reg1)
        | .fuel => .fuel
        | .fault => .fault
      | .ok (true, buf1, md1) =>
        if fhb_DosType buf1 = dostype then
          match FSHDProcess reg (env.okFsr (2 * n)) (env.okFse (2 * n)) env.creator (some buf1)
              dostype (fhb_Version buf1) true with
          | .ok (FseRef.fresh e, reg1) =>
            match fsrelocate fuel (env.hunkAlloc n) env.temp
                { md1 with lsegblock := fhb_Field buf1 7, lseglongs := 0 } with
            | .ok r =>
              let e1 := { e with fields := e.fields.set 7 (MKBADDR r.seg) }
              match FSHDAdd reg1 e1 with
              | (reg2, none) => .ok (FseRef.linked 0, buf1, r.md, reg2)
              | (reg2, some _) => .ok (FseRef.freed e1, buf1, r.md, reg2)
            | .fuel => .fuel
            | .fault => .fault
          | .ok (FseRef.null, reg1) =>
            match fsFallback env n dostype reg1 with
            | .ok (ref, reg2) => .ok (ref, buf1, md1, reg2)
            | .fuel => .fuel
            | .fault => .fault
          | .ok (_, _) => .fault
          | .fuel => .fuel
          | .fault => .fault
        else ParseFSHD env n dostype fuel buf1 (loadLong buf1 16) md1 reg
      | .fuel => .fuel
      | .fault => .fault

/-- The buffers and states the partition walk threads through: the first part of
`md->buf` (RDB and PART blocks), its second part (FSHD blocks), `MountData` and `Sys`. -/
structure Walk where
  pbuf : Buf
  fbuf : Buf
  md : MountData
  sys : Sys

/-- Model of `ParsePART(buf, block, filesysblock, md)`: the next partition block and the
state.  `pb_Next` is the long at byte 16 of the block, `pb_Flags` at 20, the BSTR
`pb_DriveName` starts at 36 and `de_DosType` is the long at 192.  `md->ret++` on a
`LONG` that cannot grow is undefined. -/
def ParsePART (env : Env) (fuel : Nat) (block filesysblock : Nat) (w : Walk) : Run (Nat × Walk) :=
  match readblock w.pbuf block IDNAME_PARTITION w.md with
  | .ok (false, buf1, md1) => .ok (4294967295, { w with pbuf := buf1, md := md1 })
  | .ok (true, buf1, md1) =>
    let nextpartblock := loadLong buf1 16
    if loadLong buf1 20 &&& PBFF_NOMOUNT = 0 then
      let n := w.sys.calls
      let sys1 := { w.sys with calls := n + 1 }
      if env.okPP n then
        match ParseFSHD env n (loadLong buf1 192) fuel w.fbuf filesysblock md1 sys1.reg with
        | .ok (fse, fbuf1, md2, reg1) =>
          let buf2 := setByte buf1 (36 + (buf1 36 + 1)) 0
          match CheckAndFixDevName (env.mountList n) 36 fuel (env.mountList n) buf2 with
          | .ok buf3 =>
            if env.makeDosNode n then
              if md2.ret = 2147483647 then .fault
              else
                .ok (nextpartblock,
                  { pbuf := buf3, fbuf := fbuf1, md := { md2 with ret := md2.ret + 1 },
                    sys := { sys1 with reg := reg1, mounted := sys1.mounted ++ [fse] } })
            else
              .ok (nextpartblock,
                { pbuf := buf3, fbuf := fbuf1, md := md2, sys := { sys1 with reg := reg1 } })
          | .fuel => .fuel
          | .fault => .fault
        | .fuel => .fuel
        | .fault => .fault
      else .ok (nextpartblock, { w with pbuf := buf1, md := md1, sys := sys1 })
    else .ok (nextpartblock, { w with pbuf := buf1, md := md1 })
  | .fuel => .fuel
  | .fault => .fault

/-- The loop `for (;;)` of `ParseRDSK` over the partition list. -/
def partLoop (env : Env) (filesysblock : Nat) : Nat → Nat → Walk → Run Walk
  | 0, _, _ => .fuel
  | fuel + 1, partblock, w =>
    if partblock = 4294967295 then .ok w
    else
      match ParsePART env fuel partblock filesysblock w with
      | .ok (next, w1) => partLoop env filesysblock fuel next w1
      | .fuel => .fuel
      | .fault => .fault

/-- Model of `ParseRDSK(buf, md)`: `rdb_Flags` is the long at byte 20 of the RDB,
`rdb_PartitionList` at 28 and `rdb_FileSysHeaderList` at 32.  Returns `md->ret`. -/
def ParseRDSK (env : Env) (fuel : Nat) (w : Walk) : Run (Int × Walk) :=
  let partblock := loadLong w.pbuf 28
  let filesysblock := loadLong w.pbuf 32
  let flags := loadLong w.pbuf 20
  match partLoop env filesysblock fuel partblock w with
  | .ok w1 =>
    let md2 := { w1.md with wasLastDev := !env.ignore_last && decide (flags &&& RDBFF_LAST ≠ 0),
                            wasLastLun := decide (flags &&& RDBFF_LASTLUN ≠ 0) }
    .ok (md2.ret, { w1 with md := md2 })
  | .fuel => .fuel
  | .fault => .fault

/-- The loop `for (UWORD i = 0; i < RDB_LOCATION_LIMIT; i++)` of `ScanRDSK`; the first
argument is `RDB_LOCATION_LIMIT - i`.  Returns `ret` (-1 when no RDB is found). -/
def scanLoop (env : Env) (fuel : Nat) : Nat → Nat → Walk → Run (Int × Walk)
  | 0, _, w => .ok (-1, w)
  | rest + 1, i, w =>
    match readblock w.pbuf i 4294967295 w.md with
    | .ok (true, buf1, md1) =>
      if loadLong buf1 0 = IDNAME_RIGIDDISK then
        ParseRDSK env fuel { w with pbuf := buf1, md := md1 }
      else scanLoop env fuel rest (i + 1) { w with pbuf := buf1, md := md1 }
    | .ok (false, buf1, md1) => scanLoop env fuel rest (i + 1) { w with pbuf := buf1, md := md1 }
    | .fuel => .fuel
    | .fault => .fault

/-- Model of `ScanRDSK(md)`; the closing `TD_MOTOR` request does not touch the state
modelled. -/
def ScanRDSK (env : Env) (fuel : Nat) (w : Walk) : Run (Int × Walk) :=
  scanLoop env fuel RDB_LOCATION_LIMIT 0 w

/-! ### Vocabulary of the block-level properties -/

/-- Big-endian 32-bit word number `k` of a buffer. -/
def wordBE (buf : Buf) (k : Nat) : Nat :=
  buf (4 * k) * 16777216 + buf (4 * k + 1) * 65536 + buf (4 * k + 2) * 256 + buf (4 * k + 3)

/-- The first `n` consecutive big-endian 32-bit words of a buffer. -/
def beWords (buf : Buf) (n : Nat) : List Nat := (List.range n).map (wordBE buf)

/-- The bytes of the medium from byte address `off` on, seen as a buffer. -/
def diskBuf (dev : Device) (off : Nat) : Buf := fun k => dev.byte (off + k) % 256

/-- Some attempt within the budget of `max` returns 0 and every earlier attempt
returned `ERROR_NOT_READY`: the transfer takes place. -/
def ReadSucceeds (dev : Device) (off max : Nat) : Prop :=
  ∃ j, j < max ∧ dev.err j off = 0 ∧
    ∀ j2, j2 < j → dev.err j2 off ≠ 0 ∧ dev.err j2 off = dev.ERROR_NOT_READY

/-- The block `block` is one that `readblock` accepts under identifier `id`: the transfer
takes place, the first long is `id` (unless `id` is the wildcard) and the words of the
block sum to 0 modulo 2^32. -/
def BlockGood (dev : Device) (blocksize maxr block id : Nat) : Prop :=
  ReadSucceeds dev (blockOffset block) maxr ∧
  (id ≠ 4294967295 → wordBE (diskBuf dev (blockOffset block)) 0 = id) ∧
  (beWords (diskBuf dev (blockOffset block)) (blocksize / 4)).sum % 4294967296 = 0

/-- The 123 data longs `lsb_LoadData` of the LSEG block number `block`. -/
def lsegData (dev : Device) (block : Nat) : List Nat :=
  (List.range 123).map (fun k => wordBE (diskBuf dev (blockOffset block)) (5 + k))

/-- The field `lsb_Next` of the LSEG block number `block`. -/
def lsegNext (dev : Device) (block : Nat) : Nat := wordBE (diskBuf dev (blockOffset block)) 4

/-- `LsegChain dev blocksize maxr b blocks e`: following `lsb_Next` from block `b` visits
exactly `blocks`, each of them accepted as an LSEG block and none the sentinel, and
arrives at `e`. -/
def LsegChain (dev : Device) (blocksize maxr : Nat) : Nat → List Nat → Nat → Prop
  | b, [], e => b = e
  | b, x :: xs, e =>
    b = x ∧ b ≠ 4294967295 ∧ BlockGood dev blocksize maxr b IDNAME_LOADSEG ∧
      LsegChain dev blocksize maxr (lsegNext dev b) xs e

/-- The chain stops at `e`: the sentinel, or a block that is not accepted. -/
def ChainEnds (dev : Device) (blocksize maxr e : Nat) : Prop :=
  e = 4294967295 ∨ ¬ BlockGood dev blocksize maxr e IDNAME_LOADSEG

/-- Concatenation, in order, of the data longs of the listed blocks. -/
def chainWords (dev : Device) : List Nat → List Nat
  | [] => []
  | b :: bs => lsegData dev b ++ chainWords dev bs

/-- The longs of the current block not handed out yet. -/
def lsegBuffered (md : MountData) : List Nat :=
  (List.range md.lseglongs).map (fun k => be32 md.lsegbuf (20 + 4 * (md.lsegoffset + k)))

/-- The unread part of the word stream: buffered longs, then the rest of the chain. -/
def lsegUnread (md : MountData) (blocks : List Nat) : List Nat :=
  lsegBuffered md ++ chainWords md.request blocks

/-- How the reader state `md2` after handing out `r` longs relates to the state `md`
before, when `blocks` is the chain ahead of `md` ending at `e`: the blocks `fetched` were
read and `rest` is the chain ahead of `md2`; the unread stream lost its first `r` longs;
the fields other than the reader's are untouched; fewer than 123 of the `r` longs come
from the last fetched block beyond what was buffered; every `CMD_READ` issued addresses
a fetched block. -/
def LsegPost (md md2 : MountData) (blocks : List Nat) (e r : Nat) : Prop :=
  ∃ fetched rest, blocks = fetched ++ rest ∧
    LsegChain md.request md.blocksize (maxRetries md) md2.lsegblock rest e ∧
    lsegUnread md2 rest = (lsegUnread md blocks).drop r ∧
    md2.lsegoffset + md2.lseglongs ≤ 123 ∧
    md2.request = md.request ∧ md2.blocksize = md.blocksize ∧
    md2.slowSpinup = md.slowSpinup ∧ md2.lseghasword = md.lseghasword ∧
    md2.lsegwordbuf = md.lsegwordbuf ∧ md2.ret = md.ret ∧
    123 * fetched.length < (r - md.lseglongs) + 123 ∧
    ∀ o, o ∈ md2.iolog → o ∈ md.iolog ∨ o ∈ fetched.map blockOffset

/-- The scratch table agrees with the list of hunk buffers obtained: for `i` below the
number of buffers, entry `i` points 8 bytes past the base of buffer `i`, whose byte
size is `(hunkSize + 2) * 4` with the flag bits stripped from `hunkSize`, and the
buffer holds bytes; every later entry holds NULL. -/
def TableOK (ld : Loader) : Prop :=
  ∀ i, (i < ld.allocs.length →
      (ld.tbl i).hunkData = (ld.allocs.getD i (0, 0)).1 + 8 ∧
      (ld.allocs.getD i (0, 0)).1 + 8 < 4294967296 ∧
      (ld.allocs.getD i (0, 0)).2 = ((ld.tbl i).hunkSize + 2) * 4 ∧
      (ld.tbl i).msize = ((ld.tbl i).hunkSize + 2) * 4 ∧
      ((ld.tbl i).hunkSize + 2) * 4 < 4294967296 ∧
      ∀ j, (ld.tbl i).mem j < 256) ∧
    (ld.allocs.length ≤ i → (ld.tbl i).hunkData = 0)

/-- The range check of a relocation group fails for the index `idx` read from the
stream: `relocHunk -= firstHunk; if (relocHunk >= totalHunks)` in `ULONG` arithmetic. -/
def BadTarget (firstHunk totalHunks idx : Nat) : Prop :=
  (idx + 4294967296 - firstHunk) % 4294967296 ≥ totalHunks

/-- No relocation group recorded in the trace fails the range check. -/
def TraceGood (firstHunk totalHunks : Nat) (tr : List LoadEv) : Prop :=
  ∀ c idx, LoadEv.group c idx ∈ tr → ¬ BadTarget firstHunk totalHunks idx

/-- The trace ends with a group that fails the range check, and holds no other such
group. -/
def TraceEnds (firstHunk totalHunks : Nat) (tr : List LoadEv) : Prop :=
  ∃ pre c idx, tr = pre ++ [LoadEv.group c idx] ∧ TraceGood firstHunk totalHunks pre ∧
    BadTarget firstHunk totalHunks idx

/-- What a step of the load pass with flag `v` (`false` for `goto end`) keeps: the list
of hunk buffers, the table size, the agreement of table and buffers, and the shape of
the trace. -/
def LoadPost (firstHunk totalHunks : Nat) (ld : Loader) (v : Bool) (ld2 : Loader) : Prop :=
  ld2.allocs = ld.allocs ∧ ld2.tlen = ld.tlen ∧ (TableOK ld → TableOK ld2) ∧
  (TraceGood firstHunk totalHunks ld.trace →
    (v = true → TraceGood firstHunk totalHunks ld2.trace) ∧
    (v = false →
      TraceGood firstHunk totalHunks ld2.trace ∨ TraceEnds firstHunk totalHunks ld2.trace))

/-- The final table and buffer list of a result, as a `Loader` (for `TableOK`). -/
def FsResult.loader (r : FsResult) : Loader :=
  { md := r.md, tbl := r.tbl, tlen := r.totalHunks, allocs := r.allocs, trace := r.trace }

/-- The reader state `md` stands before the chain `blocks`, which stops at `e`: the
block size is one of the two `MountDrive` sets, the buffered longs lie inside the data
area, and the buffered half-word is a `UWORD`. -/
def LsegInv (md : MountData) (blocks : List Nat) (e : Nat) : Prop :=
  (md.blocksize = 512 ∨ md.blocksize = 2048) ∧
  md.lsegoffset + md.lseglongs ≤ 123 ∧
  md.lsegwordbuf < 65536 ∧
  LsegChain md.request md.blocksize (maxRetries md) md.lsegblock blocks e ∧
  ChainEnds md.request md.blocksize (maxRetries md) e

/-- The 16-bit half-words of a list of longs, the high half of each long first. -/
def halves : List Nat → List Nat
  | [] => []
  | w :: ws => (w / 65536) :: (w % 65536) :: halves ws

/-- The unread half-word stream: the buffered half-word, if any, then the halves of the
unread longs. -/
def halfUnread (md : MountData) (blocks : List Nat) : List Nat :=
  (if md.lseghasword then [md.lsegwordbuf] else []) ++ halves (lsegUnread md blocks)

/-- A single-unit read: `lseg_read_word` or `lseg_read_long`. -/
inductive UnitRead where
  | word
  | long
  deriving DecidableEq

/-- One single-unit read. -/
def readUnit (temp : Nat) (op : UnitRead) (md : MountData) : Run (Bool × Option Nat × MountData) :=
  match op with
  | .word => lseg_read_word md
  | .long => lseg_read_long md temp

/-- A sequence of single-unit reads, each on the state the previous one left; `none`
as soon as one of them returns FALSE, else the values stored and the final state. -/
def readUnits (temp : Nat) : List UnitRead → MountData → Run (Option (List Nat × MountData))
  | [], md => .ok (some ([], md))
  | op :: ops, md =>
    match readUnit temp op md with
    | .ok (true, some v, md1) =>
      match readUnits temp ops md1 with
      | .ok (some (vs, md2)) => .ok (some (v :: vs, md2))
      | .ok none => .ok none
      | .fuel => .fuel
      | .fault => .fault
    | .ok _ => .ok none
    | .fuel => .fuel
    | .fault => .fault

/-- The half-words a sequence of returned values stands for: one per `lseg_read_word`,
high then low half per `lseg_read_long`. -/
def unitHalves : List UnitRead → List Nat → List Nat
  | .word :: ops, v :: vs => v :: unitHalves ops vs
  | .long :: ops, v :: vs => (v / 65536) :: (v % 65536) :: unitHalves ops vs
  | _, _ => []

/-- A `MountData` as `MountDrive` prepares it for a unit: zeroed by `MEMF_CLEAR`, then
`request`, `slowSpinup` and `blocksize` set. -/
def MountData.fresh (dev : Device) (slowSpinup : Bool) (blocksize : Nat) : MountData :=
  { request := dev, lsegblock := 0, lseglongs := 0, lsegoffset := 0, lsegbuf := fun _ => 0,
    lsegwordbuf := 0, lseghasword := false, ret := 0, wasLastDev := false,
    wasLastLun := false, slowSpinup := slowSpinup, blocksize := blocksize, iolog := [] }

/-- A medium that is always ready and holds a single non-zero byte, at byte address 3. -/
def devOneByte : Device :=
  { ERROR_NOT_READY := 1, err := fun _ _ => 0, byte := fun a => if a = 3 then 1 else 0 }

/-- The field `pb_Next` of the partition block number `block`. -/
def partNext (dev : Device) (block : Nat) : Nat := wordBE (diskBuf dev (blockOffset block)) 4

/-- `PartChain dev blocksize maxr b blocks`: following `pb_Next` from block `b` visits
exactly `blocks`, each of them accepted as a PART block and none the sentinel, and
arrives at the sentinel. -/
def PartChain (dev : Device) (blocksize maxr : Nat) : Nat → List Nat → Prop
  | b, [] => b = 4294967295
  | b, x :: xs =>
    b = x ∧ b ≠ 4294967295 ∧ BlockGood dev blocksize maxr b IDNAME_PARTITION ∧
      PartChain dev blocksize maxr (partNext dev b) xs

/-- Block number `i` is accepted by `readblock` under the wildcard and carries the
signature of the RDB. -/
def RdbAt (dev : Device) (blocksize maxr i : Nat) : Prop :=
  BlockGood dev blocksize maxr i 4294967295 ∧
    wordBE (diskBuf dev (blockOffset i)) 0 = IDNAME_RIGIDDISK

/-- The data area of a hunk buffer (the bytes from index 8 on) is all zero. -/
def DataZero (rh : RelocHunk) : Prop := ∀ j, 8 ≤ j → rh.mem j = 0

/-- No hunk numbered `k` or higher has received data: their data areas are all zero. -/
def Unloaded (ld : Loader) (k : Nat) : Prop := ∀ i, k ≤ i → DataZero (ld.tbl i)

/-- What a step of the load pass that works on hunk number `cur` keeps: every other
entry of the table, and of entry `cur` the size, the pointer and the two header longs. -/
def StepKeeps (cur : Nat) (ld ld2 : Loader) : Prop :=
  (∀ i, i ≠ cur → ld2.tbl i = ld.tbl i) ∧
  (∀ j, j < 8 → (ld2.tbl cur).mem j = (ld.tbl cur).mem j) ∧
  (ld2.tbl cur).hunkSize = (ld.tbl cur).hunkSize ∧
  (ld2.tbl cur).hunkData = (ld.tbl cur).hunkData

/-- The two header longs, the size and the pointer of every table entry are kept. -/
def HeadKeep (ld ld2 : Loader) : Prop :=
  ∀ i, (∀ j, j < 8 → (ld2.tbl i).mem j = (ld.tbl i).mem j) ∧
    (ld2.tbl i).hunkSize = (ld.tbl i).hunkSize ∧ (ld2.tbl i).hunkData = (ld.tbl i).hunkData

/-- The address of the link field of the hunk buffer allocated before buffer number `i`
(allocation base plus 4), 0 for the first buffer: the value of `prevChunk` when buffer
`i` is set up. -/
def linkBefore (allocs : List (Nat × Nat)) (i : Nat) : Nat :=
  if i = 0 then 0 else (allocs.getD (i - 1) (0, 0)).1 + 4

/-- The two bookkeeping longs of every hunk buffer obtained: long 0 holds the declared
size plus 2, long 1 the BPTR of the link field of the buffer before it. -/
def HeadersOK (ld : Loader) : Prop :=
  ∀ i, i < ld.allocs.length →
    loadLong (ld.tbl i).mem 0 = (ld.tbl i).hunkSize + 2 ∧
    loadLong (ld.tbl i).mem 4 = MKBADDR (linkBefore ld.allocs i)

/-- A buffer that holds the BSTR of the name `nm` at index 0: the length byte, then the
characters. -/
def nameBuf (nm : List Nat) : Buf := fun i => (nm.length :: nm).getD i 0

/-- One completed round of the load pass that is followed by another round, from the
state (`hunkCnt`, `rh`, loader) before the token read to the state after: a CODE, DATA
or BSS token whose load succeeds starts the next hunk; a relocation table for the
current hunk that is worked off keeps the count; an END read before the last hunk has
been started is skipped. -/
inductive LoopStep (temp firstHunk totalHunks : Nat) :
    Int × Option Nat × Loader → Int × Option Nat × Loader → Prop where
  | load (hunkCnt : Int) (rh : Option Nat) (ld ld2 : Loader) (ot : Option Nat)
      (mdT : MountData) :
      lseg_read_long ld.md temp = .ok (true, ot, mdT) →
      (ot.getD temp = HUNK_CODE ∨ ot.getD temp = HUNK_DATA ∨ ot.getD temp = HUNK_BSS) →
      0 ≤ hunkCnt → hunkCnt < (totalHunks : Int) →
      loadHunk temp (ot.getD temp) hunkCnt.toNat { ld with md := mdT } = .ok (true, ld2) →
      LoopStep temp firstHunk totalHunks (hunkCnt, rh, ld)
        (toWORD (hunkCnt + 1), some hunkCnt.toNat, ld2)
  | reloc (hunkCnt : Int) (cur : Nat) (ld ld2 : Loader) (ot : Option Nat) (mdT : MountData)
      (fuel : Nat) :
      lseg_read_long ld.md temp = .ok (true, ot, mdT) →
      (ot.getD temp = HUNK_RELOC32 ∨ ot.getD temp = HUNK_RELOC32SHORT) →
      relocGroups (decide (ot.getD temp = HUNK_RELOC32SHORT)) temp firstHunk totalHunks cur
          fuel { ld with md := mdT } = .ok (true, ld2) →
      LoopStep temp firstHunk totalHunks (hunkCnt, some cur, ld) (hunkCnt, some cur, ld2)
  | skip (hunkCnt : Int) (rh : Option Nat) (ld : Loader) (ot : Option Nat)
      (mdT : MountData) :
      lseg_read_long ld.md temp = .ok (true, ot, mdT) →
      ot.getD temp = HUNK_END → hunkCnt < (totalHunks : Int) →
      LoopStep temp firstHunk totalHunks (hunkCnt, rh, ld) (hunkCnt, rh, { ld with md := mdT })

/-- The state `t` is reached from the state `s` by completed rounds of the load pass. -/
inductive LoopReach (temp firstHunk totalHunks : Nat) :
    Int × Option Nat × Loader → Int × Option Nat × Loader → Prop where
  | here (s : Int × Option Nat × Loader) : LoopReach temp firstHunk totalHunks s s
  | next (s m t : Int × Option Nat × Loader) :
      LoopStep temp firstHunk totalHunks s m → LoopReach temp firstHunk totalHunks m t →
      LoopReach temp firstHunk totalHunks s t

/-! ### The target and LUN loop of `MountDrive` -/

/-- What `MountDrive` finds outside `mounter.c`: whether `expansion.library` opens and
the allocations of `MountData`, of the message port and of the I/O request succeed; the
setting `asave->cdrom_boot`; for every unit number whether `OpenDevice` succeeds, the
byte `inq_res.device` that `dev_scsi_inquiry` delivers (`none` when it fails) and the
medium behind the unit; whether `MakeDosNode` succeeds in `ScanCDROM` on that unit; and
the value of the header constant `SID_TYPE` (its header is not among the sources). -/
structure Host where
  okExpansion : Bool
  okMd : Bool
  okPort : Bool
  okRequest : Bool
  cdrom_boot : Bool
  openOK : Nat → Bool
  inquiry : Nat → Option Nat
  medium : Nat → Device
  cdNode : Nat → Bool
  SID_TYPE : Nat

/-- The fields of `struct MountStruct` that steer the loop of `MountDrive`. -/
structure MountStruct where
  luns : Bool
  slowSpinup : Bool

/-- The loop of `scan_filesystems()` over the registry entries from number `i` on: the
number of the first entry with the dostype "CD01" (the loop leaves at the first hit,
`ALL_FILESYSTEMS` not being defined). -/
def cdScan : List FileSysEntry → Nat → Option Nat
  | [], _ => none
  | e :: es, i => if e.fse_DosType = 0x43443031 then some i else cdScan es (i + 1)

/-- Model of `scan_filesystems()`: `OpenResource` does not create the resource. -/
def scan_filesystems (reg : Option (List FileSysEntry)) : Option Nat :=
  match reg with
  | none => none
  | some l => cdScan l 0

/-- Model of `ScanCDROM(md)` on the unit `unitNum`: -1 when no filesystem for "CD01" is
registered or `MakeDosNode` fails, else the node is added and 1 is returned.  The
contents of the device node are not part of the state; the entry the node is patched
from is recorded in `mounted`. -/
def ScanCDROM (h : Host) (unitNum : Nat) (w : Walk) : Int × Walk :=
  match scan_filesystems w.sys.reg with
  | none => (-1, w)
  | some i =>
    if h.cdNode unitNum then
      (1, { w with sys := { w.sys with mounted := w.sys.mounted ++ [FseRef.linked i] } })
    else (-1, w)

/-- The body of `if (err == 0)` after `OpenDevice` in `MountDrive`, up to `CloseDevice`,
for the unit `unitNum`: the value of the local `ret`, which is set to -1 first, and the
state.  `md` is the one `MountData` of the whole call. -/
def scanUnit (env : Env) (h : Host) (fuel unitNum : Nat) (w : Walk) : Run (Int × Walk) :=
  let w0 := { w with md := { w.md with request := h.medium unitNum } }
  match h.inquiry unitNum with
  | none => .ok (-1, w0)
  | some device =>
    if device &&& h.SID_TYPE = 5 then
      if h.cdrom_boot then
        match ScanRDSK env fuel { w0 with md := { w0.md with blocksize := 2048 } } with
        | .ok (ret, w1) => if ret = -1 then .ok (ScanCDROM h unitNum w1) else .ok (ret, w1)
        | .fuel => .fuel
        | .fault => .fault
      else .ok (-1, w0)
    else if device &&& h.SID_TYPE = 0 then
      ScanRDSK env fuel { w0 with md := { w0.md with blocksize := 512 } }
    else .ok (-1, w0)

/-- The state of the loop of `MountDrive`: the local `ret`, the walk state behind `md`,
and as ghost data the unit numbers passed to `OpenDevice` so far, in order. -/
structure Drive where
  ret : Int
  w : Walk
  tried : List Nat

/-- The statements from the label `next_lun` to the end of the loop body of `MountDrive`
for one `target`: the units `target + lun * 10` are opened one after the other through
`goto next_lun`.  The first argument is `9 - lun`; it is never 0 at a jump, since the
jump needs `lun < 8`.  The Boolean tells whether the body left the `for` loop through
`break`. -/
def lunLoop (env : Env) (h : Host) (ms : MountStruct) (fuel target : Nat) :
    Nat → Nat → Drive → Run (Drive × Bool)
  | 0, _, _ => .fuel
  | rest + 1, lun, d =>
    let unitNum := target + lun * 10
    if h.openOK unitNum then
      match scanUnit env h fuel unitNum d.w with
      | .ok (ret, w1) =>
        let d1 : Drive := { ret := ret, w := w1, tried := d.tried ++ [unitNum] }
        if ms.luns && decide (lun < 8) && !w1.md.wasLastLun then
          lunLoop env h ms fuel target rest (lun + 1) d1
        else .ok (d1, w1.md.wasLastDev)
      | .fuel => .fuel
      | .fault => .fault
    else .ok ({ d with tried := d.tried ++ [unitNum] }, false)

/-- The loop `for (target = 0; target < 8; target++, lun = 0)` of `MountDrive`; the first
argument is `8 - target`. -/
def targetLoop (env : Env) (h : Host) (ms : MountStruct) (fuel : Nat) :
    Nat → Nat → Drive → Run Drive
  | 0, _, d => .ok d
  | rest + 1, target, d =>
    match lunLoop env h ms fuel target 9 0 d with
    | .ok (d1, true) => .ok d1
    | .ok (d1, false) => targetLoop env h ms fuel rest (target + 1) d1
    | .fuel => .fuel
    | .fault => .fault

/-- A unit that is not open: what `md->request` stands for before the first
`OpenDevice`. -/
def noUnit : Device := { ERROR_NOT_READY := 0, err := fun _ _ => 0, byte := fun _ => 0 }

/-- The state in which `MountDrive` enters its loop: `ret = -1`, `md` cleared by
`MEMF_CLEAR` with `slowSpinup` copied from `ms`, and the registry as found. -/
def driveStart (ms : MountStruct) (reg : Option (List FileSysEntry)) : Drive :=
  { ret := -1,
    w := { pbuf := fun _ => 0, fbuf := fun _ => 0, md := MountData.fresh noUnit ms.slowSpinup 0,
           sys := { reg := reg, calls := 0, mounted := [] } },
    tried := [] }

/-- Model of `MountDrive(ms)`: the value returned is the field `ret`.  When a library,
an allocation, the port or the request is missing, the loop is not entered.  The
library bases are not part of the state. -/
def MountDrive (env : Env) (h : Host) (ms : MountStruct) (fuel : Nat)
    (reg : Option (List FileSysEntry)) : Run Drive :=
  if h.okExpansion && h.okMd && h.okPort && h.okRequest then
    targetLoop env h ms fuel 8 0 (driveStart ms reg)
  else .ok (driveStart ms reg)

/-! ### The read and write commands of `cmd_do_iorequest` (`cmdhandler.c`) -/

/-- The case label of the `switch` in `cmd_do_iorequest` that `io_Command` selects.  The
model covers the requests that select one of the read, write and format labels; the
numeric values of the labels come from headers that are not among the sources. -/
inductive Cmd where
  | ETD_READ
  | CMD_READ
  | ETD_WRITE
  | CMD_WRITE
  | ETD_FORMAT
  | TD_FORMAT
  | NSCMD_TD_READ64
  | TD_READ64
  | NSCMD_TD_FORMAT64
  | NSCMD_TD_WRITE64
  | TD_FORMAT64
  | TD_WRITE64
  deriving DecidableEq

/-- The fields of the request `struct IOExtTD` that these cases use.  `io_Offset`,
`io_Actual` and `io_Length` are `ULONG`, `io_Error` is a `BYTE`. -/
structure IOExtTD where
  io_Command : Cmd
  io_Offset : Nat
  io_Actual : Nat
  io_Length : Nat
  io_Error : Int

/-- A call `sd_readwrite(unit, blkno, B_READ or B_WRITE, data, length, ior)`: the value
of the argument expression `blkno`, a `uint64_t`, the direction and the length.  The
prototype of `sd_readwrite` is not among the sources. -/
structure RwCall where
  blkno : Nat
  write : Bool
  length : Nat
  deriving DecidableEq

/-- What `cmd_do_iorequest` does with a request: the call of `sd_readwrite` it makes, if
any, the request fields afterwards, and whether it calls `ReplyMsg` itself. -/
structure IoOutcome where
  call : Option RwCall
  iotd : IOExtTD
  replied : Bool

/-- The statements at the label `io_done`: `io_Actual = 0` and `ReplyMsg`. -/
def io_done (iotd : IOExtTD) : IoOutcome :=
  { call := none, iotd := { iotd with io_Actual := 0 }, replied := true }

/-- The statements from the labels `CMD_READ_continue` and `CMD_WRITE_continue` on: the
call of `sd_readwrite`, which returns `rc`; on 0 `io_Actual` becomes `io_Length` (the
reply comes later from `cmd_complete`), else `io_Error` becomes `rc` (stored to a
`BYTE`), `io_Actual` 0 and the request is replied. -/
def rwContinue (write : Bool) (rc : Int) (blkno : Nat) (iotd : IOExtTD) : IoOutcome :=
  let call : RwCall := { blkno := blkno, write := write, length := iotd.io_Length }
  if rc = 0 then
    { call := some call, iotd := { iotd with io_Actual := iotd.io_Length }, replied := false }
  else
    { call := some call,
      iotd := { iotd with io_Error := (rc + 128) % 256 - 128, io_Actual := 0 },
      replied := true }

/-- The cases `CMD_READ`, `CMD_WRITE`, `TD_FORMAT` and their `ETD_` forms:
`blkno = io_Offset >> blkshift`.  A shift of the `ULONG` by 32 or more is undefined. -/
def rw32 (write : Bool) (blkshift : Nat) (rc : Int) (iotd : IOExtTD) : Run IoOutcome :=
  if iotd.io_Length = 0 then .ok (io_done iotd)
  else if 32 ≤ blkshift then .fault
  else .ok (rwContinue write rc (iotd.io_Offset >>> blkshift) iotd)

/-- The cases `TD_READ64`, `TD_WRITE64`, `TD_FORMAT64` and their `NSCMD_` forms:
`blkno = ((uint64_t) io_Actual << (32 - blkshift)) | (io_Offset >> blkshift)`. -/
def rw64 (write : Bool) (blkshift : Nat) (rc : Int) (iotd : IOExtTD) : Run IoOutcome :=
  if iotd.io_Length = 0 then .ok (io_done iotd)
  else if 32 ≤ blkshift then .fault
  else
    .ok (rwContinue write rc
      ((iotd.io_Actual <<< (32 - blkshift)) % 18446744073709551616
        ||| (iotd.io_Offset >>> blkshift)) iotd)

/-- Model of `cmd_do_iorequest(ior)` for the read, write and format commands.
`blkshift` is `periph_blkshift` of the unit, `rc` the value `sd_readwrite` returns when
it is called.  `io_Error` is cleared first. -/
def cmd_do_iorequest (blkshift : Nat) (rc : Int) (iotd : IOExtTD) : Run IoOutcome :=
  let ior := { iotd with io_Error := 0 }
  match iotd.io_Command with
  | Cmd.ETD_READ => rw32 false blkshift rc ior
  | Cmd.CMD_READ => rw32 false blkshift rc ior
  | Cmd.ETD_WRITE => rw32 true blkshift rc ior
  | Cmd.CMD_WRITE => rw32 true blkshift rc ior
  | Cmd.ETD_FORMAT => rw32 true blkshift rc ior
  | Cmd.TD_FORMAT => rw32 true blkshift rc ior
  | Cmd.NSCMD_TD_READ64 => rw64 false blkshift rc ior
  | Cmd.TD_READ64 => rw64 false blkshift rc ior
  | Cmd.NSCMD_TD_FORMAT64 => rw64 true blkshift rc ior
  | Cmd.NSCMD_TD_WRITE64 => rw64 true blkshift rc ior
  | Cmd.TD_FORMAT64 => rw64 true blkshift rc ior
  | Cmd.TD_WRITE64 => rw64 true blkshift rc ior

/-- The label belongs to a 64-bit command: `io_Actual` carries the upper 32 bits of the
byte offset. -/
def Cmd.wide : Cmd → Bool
  | Cmd.NSCMD_TD_READ64 => true
  | Cmd.TD_READ64 => true
  | Cmd.NSCMD_TD_FORMAT64 => true
  | Cmd.NSCMD_TD_WRITE64 => true
  | Cmd.TD_FORMAT64 => true
  | Cmd.TD_WRITE64 => true
  | _ => false

/-- The label belongs to a write or format command. -/
def Cmd.writes : Cmd → Bool
  | Cmd.ETD_READ => false
  | Cmd.CMD_READ => false
  | Cmd.NSCMD_TD_READ64 => false
  | Cmd.TD_READ64 => false
  | _ => true

/-! ### Concrete inputs used by the witnesses -/

/-- The result of a run with a function applied to its value. -/
def Run.map {α β : Type} (f : α → β) : Run α → Run β
  | .ok a => .ok (f a)
  | .fuel => .fuel
  | .fault => .fault

/-- The comparable part of an `FsResult`. -/
structure FsSummary where
  seg : Nat
  firstHunk : Nat
  totalHunks : Nat
  table : Option (Nat × Nat)
  allocs : List (Nat × Nat)
  frees : List (Nat × Nat)
  trace : List LoadEv
  deriving DecidableEq

/-- The comparable part of a result. -/
def FsResult.summary (r : FsResult) : FsSummary :=
  { seg := r.seg, firstHunk := r.firstHunk, totalHunks := r.totalHunks, table := r.table,
    allocs := r.allocs, frees := r.frees, trace := r.trace }

/-- The 128 longs (zero-padded) of an LSEG block with the given `lsb_Next` and data:
identifier, `lsb_SummedLongs`, the checksum long that makes the block sum to zero,
`lsb_HostID`, `lsb_Next`, data. -/
def lsegBlockWords (next : Nat) (words : List Nat) : List Nat :=
  [IDNAME_LOADSEG, 128,
    (4294967296 - (IDNAME_LOADSEG + 128 + 7 + next + words.sum) % 4294967296) % 4294967296,
    7, next] ++ words

/-- A medium that is always ready and whose block 1 is the single LSEG block holding
`words`; every other byte is zero. -/
def lsegDisk (words : List Nat) : Device :=
  { ERROR_NOT_READY := 1, err := fun _ _ => 0,
    byte := fun a =>
      if 512 ≤ a ∧ a < 1024 then
        ((lsegBlockWords 4294967295 words).getD ((a - 512) / 4) 0 >>> (8 * (3 - a % 4))) % 256
      else 0 }

/-- A load file with hunks numbered 1 and 2 (one long each): a code hunk whose only
long is relocated against hunk number 2, and a data hunk. -/
def imageA : List Nat :=
  [1011, 0, 0, 1, 2, 1, 1, 1001, 1, 16, 1004, 1, 2, 0, 0, 1010, 1002, 1, 305419896, 1010]

/-- The same load file with the relocation group naming hunk number 3, which does not
exist. -/
def imageB : List Nat :=
  [1011, 0, 0, 1, 2, 1, 1, 1001, 1, 16, 1004, 1, 3, 0, 0, 1010, 1002, 1, 305419896, 1010]

/-- An allocator that never fails: call `k` returns the start of page `k % 16 + 1`. -/
def allocPages : Nat → Nat → Nat → Nat := fun k _ _ => 4096 * (k % 16 + 1)

/-- The reader state `ParseFSHD` sets up before `fsrelocate`: 512-byte blocks, empty
buffer, `lsegblock` the head of the segment list. -/
def loadState (dev : Device) (block : Nat) : MountData :=
  { MountData.fresh dev false 512 with lsegblock := block }

/-- A hunk of one long at address 8192, zero-filled. -/
def hunkOne : RelocHunk := { hunkSize := 1, hunkData := 8200, msize := 12, mem := fun _ => 0 }

/-- A loader state whose table holds `hunkOne` only. -/
def ldOne : Loader :=
  { md := MountData.fresh devOneByte false 512,
    tbl := fun i => if i = 0 then hunkOne else RelocHunk.zero,
    tlen := 1, allocs := [(8192, 12)], trace := [] }


/-- The 128 longs (zero-padded) of a block with the given identifier and body: identifier,
size in longs, the checksum long that makes the block sum to zero, then the body. -/
def sumBlock (id : Nat) (body : List Nat) : List Nat :=
  [id, 128, (4294967296 - (id + 128 + body.sum) % 4294967296) % 4294967296] ++ body

/-- A medium that is always ready and whose 512-byte block number `k` holds the longs
`blocks[k]`; every other byte is zero. -/
def blockDisk (blocks : List (List Nat)) : Device :=
  { ERROR_NOT_READY := 1, err := fun _ _ => 0,
    byte := fun a => ((blocks.getD (a / 512) []).getD (a % 512 / 4) 0 >>> (8 * (3 - a % 4))) % 256 }

/-- A disk with the RDB in block 0 (partition list from block 1, no filesystem headers),
the partition "DH0" in block 1 and a no-mount partition "DH0" in block 2. -/
def diskTwoParts : Device :=
  blockDisk
    [sumBlock IDNAME_RIGIDDISK [7, 512, 0, 4294967295, 1, 4294967295],
     sumBlock IDNAME_PARTITION [7, 2, 1, 0, 0, 0, 54806576],
     sumBlock IDNAME_PARTITION [7, 4294967295, 2, 0, 0, 0, 54806576]]

/-- Surroundings in which every allocation and every `MakeDosNode` call succeeds and the
mount list is empty. -/
def envAllOK : Env :=
  { okPP := fun _ => true, okFsr := fun _ => true, okFse := fun _ => true,
    hunkAlloc := fun _ => allocPages, temp := 0, makeDosNode := fun _ => true,
    mountList := fun _ => [], creator := [], ignore_last := false }

/-- The state in which `MountDrive` starts the scan of a unit: cleared buffers, a zeroed
`MountData` and no FileSystem.resource. -/
def walkStart (dev : Device) : Walk :=
  { pbuf := fun _ => 0, fbuf := fun _ => 0, md := MountData.fresh dev false 512,
    sys := { reg := none, calls := 0, mounted := [] } }

/-- A registry entry for the dostype DOS\1, version 1, whose `fse_SegList` is set. -/
def fseLoaded : FileSysEntry :=
  { ln_Name := [], fse_DosType := 1146049281, fse_Version := 1, fse_PatchFlags := 0,
    fields := [0, 0, 0, 0, 0, 0, 0, 5, 0] }

/-- The number of `DoIO` calls of `readblock(buf, block, id, md)`: the entries its retry
loop adds to the log of reads. -/
def readAttempts (buf : Buf) (block : Nat) (md : MountData) : Nat :=
  (retryLoop md.request (blockOffset block) md.blocksize (maxRetries md) (maxRetries md) 0 buf
    md.iolog).2.2.length - md.iolog.length

/-- A medium whose drive never becomes ready: every request returns `ERROR_NOT_READY`. -/
def devNotReady : Device :=
  { ERROR_NOT_READY := 1, err := fun _ _ => 1, byte := fun _ => 0 }

/-- The medium `dev` with the byte at byte address `a` replaced by `v`. -/
def pokeByte (dev : Device) (a v : Nat) : Device :=
  { dev with byte := fun x => if x = a then v else dev.byte x }

/-- A disk with the RDB in block 0, one mountable partition "DH0" of dostype DOS\1 in
block 1, and in block 2 a filesystem header of that dostype (version 40.1, patch flags
0x180) whose segment list is empty (`fhb_SegListBlocks` is the sentinel), so that the
load of its image fails. -/
def diskBadImage : Device :=
  blockDisk
    [sumBlock IDNAME_RIGIDDISK [7, 512, 0, 4294967295, 1, 2],
     sumBlock IDNAME_PARTITION
       ([7, 4294967295, 1, 0, 0, 0, 54806576] ++ List.replicate 38 0 ++ [1146049281]),
     sumBlock IDNAME_FILESYSHEADER
       [7, 4294967295, 0, 0, 0, 1146049281, 2621441, 384, 0, 0, 0, 0, 0, 0, 0, 4294967295,
        4294967295]]

/-- The provisional entry `FSHDProcess` fabricates from the header of `diskBadImage`,
after `ParseFSHD` has stored the BPTR of the failed load in `fse_SegList`. -/
def fseFailed : FileSysEntry :=
  { ln_Name := [], fse_DosType := 1146049281, fse_Version := 2621441, fse_PatchFlags := 384,
    fields := [0, 0, 0, 0, 0, 0, 0, 0, 4294967295] }

/-- The loader state `ldOne` with the reader standing before a stream that starts with
the word count 1 and the data long 0x12345678. -/
def ldCount : Loader :=
  { ldOne with md := loadState (lsegDisk [1, 305419896]) 1 }

/-- A bus with two disks and nothing else: unit 0 holds `diskTwoParts`, unit 1 a blank
disk; both answer the inquiry as direct-access devices. -/
def hostTwoDisks : Host :=
  { okExpansion := true, okMd := true, okPort := true, okRequest := true,
    cdrom_boot := false, openOK := fun u => decide (u < 2), inquiry := fun _ => some 0,
    medium := fun u => if u = 0 then diskTwoParts else blockDisk [],
    cdNode := fun _ => true, SID_TYPE := 31 }

/-- A `MountStruct` without LUN scanning and with the short spin-up. -/
def msPlain : MountStruct := { luns := false, slowSpinup := false }

/-- A disk with a valid RDB in block 0 and nothing else: no partition, no filesystem
header. -/
def diskNoParts : Device :=
  blockDisk [sumBlock IDNAME_RIGIDDISK [7, 512, 0, 4294967295, 4294967295, 4294967295]]

/-- A bus with two disks and nothing else: unit 0 holds `diskTwoParts`, unit 1 the disk
`diskNoParts`; both answer the inquiry as direct-access devices. -/
def hostSecondEmpty : Host :=
  { okExpansion := true, okMd := true, okPort := true, okRequest := true,
    cdrom_boot := false, openOK := fun u => decide (u < 2), inquiry := fun _ => some 0,
    medium := fun u => if u = 0 then diskTwoParts else diskNoParts,
    cdNode := fun _ => true, SID_TYPE := 31 }

/-- A disk like `diskNoParts` whose RDB carries the flag `RDBFF_LAST` (and not
`RDBFF_LASTLUN`). -/
def diskLastDev : Device :=
  blockDisk [sumBlock IDNAME_RIGIDDISK [7, 512, 1, 4294967295, 4294967295, 4294967295]]

/-- A bus with the disk `diskLastDev` on unit 0 and the disk `diskTwoParts` on unit 1;
no other unit opens, in particular no further LUN of either target. -/
def hostLastDev : Host :=
  { okExpansion := true, okMd := true, okPort := true, okRequest := true,
    cdrom_boot := false, openOK := fun u => decide (u < 2), inquiry := fun _ => some 0,
    medium := fun u => if u = 0 then diskLastDev else diskTwoParts,
    cdNode := fun _ => true, SID_TYPE := 31 }

/-- A `MountStruct` with LUN scanning and the short spin-up. -/
def msLuns : MountStruct := { luns := true, slowSpinup := false }

/-- A bus on which target 0 accepts `OpenDevice` on every unit number `10 * lun` and
answers every inquiry with the device byte 0x7f (no device of a known type behind the
LUN); no other target opens. -/
def hostAllLuns : Host :=
  { okExpansion := true, okMd := true, okPort := true, okRequest := true,
    cdrom_boot := false, openOK := fun u => decide (u % 10 = 0), inquiry := fun _ => some 127,
    medium := fun _ => blockDisk [], cdNode := fun _ => true, SID_TYPE := 31 }

/-- A load file with one hunk of 115 longs whose data fill the LSEG block to its last
long: HEADER, the hunk range 0..0, the size, a CODE token with 115 longs, and no END. -/
def imageNoEnd : List Nat := [1011, 0, 0, 0, 0, 115, 1001, 115] ++ List.replicate 115 7

/-- A load file with one hunk of declared size 0 and a RELOC32 table that names offset 0
of that hunk. -/
def imageZeroHunk : List Nat := [1011, 0, 0, 0, 0, 0, 1001, 0, 1004, 1, 0, 0, 0, 1010]

/-- A hunk of declared size 0: its allocation holds the two header longs only. -/
def hunkZero : RelocHunk := { hunkSize := 0, hunkData := 8200, msize := 8, mem := fun _ => 0 }

/-- A registry entry for the dostype DOS\3 with the given version. -/
def fseOther (version : Nat) : FileSysEntry :=
  { ln_Name := [], fse_DosType := 1145304067, fse_Version := version, fse_PatchFlags := 0,
    fields := [0, 0, 0, 0, 0, 0, 0, 5, 0] }

/-- The bytes of a filesystem header block of dostype DOS\3, version 1, with
`fhb_PatchFlags` 4 (bit 2 alone) and the field longs 17, 18, 19, 20 from `fhb_Type` on. -/
def hdrFlagsFour : Buf :=
  diskBuf (blockDisk
    [sumBlock IDNAME_FILESYSHEADER [7, 4294967295, 0, 0, 0, 1145304067, 1, 4, 17, 18, 19, 20]]) 0

/-- A `TD_READ64` request for 512 bytes at byte offset 2^32 + 512. -/
def reqRead64 : IOExtTD :=
  { io_Command := Cmd.TD_READ64, io_Offset := 512, io_Actual := 1, io_Length := 512,
    io_Error := 0 }

/-- The bytes of a filesystem header block of dostype DOS\3, version 1, with
`fhb_PatchFlags` 512 (bit 9 alone, one position above the last field of the entry) and
zero field longs. -/
def hdrFlagsHigh : Buf :=
  diskBuf (blockDisk
    [sumBlock IDNAME_FILESYSHEADER [7, 4294967295, 0, 0, 0, 1145304067, 1, 512]]) 0

theorem be32_eq (buf : Buf) (i : Nat) (h0 : buf i < 256) (h1 : buf (i + 1) < 256)
    (h2 : buf (i + 2) < 256) (h3 : buf (i + 3) < 256) :
    be32 buf i = buf i * 16777216 + buf (i + 1) * 65536 + buf (i + 2) * 256 + buf (i + 3) := by
  unfold be32
  simp only [Nat.add_zero, Nat.shiftLeft_eq, Nat.pow_zero, Nat.mul_one]
  have e1 : buf i * 2 ^ 24 ||| buf (i + 1) * 2 ^ 16 = buf i * 2 ^ 24 + buf (i + 1) * 2 ^ 16 := by
    have := Nat.mul_add_lt_is_or (i := 24) (b := buf (i + 1) * 2 ^ 16) (by omega) (buf i)
    rw [Nat.mul_comm] at this
    exact this.symm
  have e2 : (buf i * 2 ^ 24 + buf (i + 1) * 2 ^ 16) ||| buf (i + 2) * 2 ^ 8
      = buf i * 2 ^ 24 + buf (i + 1) * 2 ^ 16 + buf (i + 2) * 2 ^ 8 := by
    have := Nat.mul_add_lt_is_or (i := 16) (b := buf (i + 2) * 2 ^ 8) (by omega)
      (buf i * 2 ^ 8 + buf (i + 1))
    have e : 2 ^ 16 * (buf i * 2 ^ 8 + buf (i + 1)) = buf i * 2 ^ 24 + buf (i + 1) * 2 ^ 16 := by
      ring
    rw [e] at this
    exact this.symm
  have e3 : (buf i * 2 ^ 24 + buf (i + 1) * 2 ^ 16 + buf (i + 2) * 2 ^ 8) ||| buf (i + 3)
      = buf i * 2 ^ 24 + buf (i + 1) * 2 ^ 16 + buf (i + 2) * 2 ^ 8 + buf (i + 3) := by
    have := Nat.mul_add_lt_is_or (i := 8) (b := buf (i + 3)) (by omega)
      (buf i * 2 ^ 16 + buf (i + 1) * 2 ^ 8 + buf (i + 2))
    have e : 2 ^ 8 * (buf i * 2 ^ 16 + buf (i + 1) * 2 ^ 8 + buf (i + 2))
        = buf i * 2 ^ 24 + buf (i + 1) * 2 ^ 16 + buf (i + 2) * 2 ^ 8 := by ring
    rw [e] at this
    exact this.symm
  rw [e1, e2, e3]
  omega

theorem be32_lt (buf : Buf) (i : Nat) : be32 buf i < 4294967296 := by
  unfold be32; omega

theorem checksumLoop_spec (buf : Buf) (bs : Nat) (hb : ∀ i, i < bs → buf i < 256) :
    ∀ (n k fuel chk : Nat), n < fuel → 4 * (k + n) = bs → bs ≤ 65532 → chk < 4294967296 →
      checksumLoop buf bs fuel (4 * k) chk
        = .ok ((chk + ((List.range' k n).map (wordBE buf)).sum) % 4294967296) := by
  intro n
  induction n with
  | zero =>
    intro k fuel chk hf hbs _ hc
    obtain ⟨f, rfl⟩ : ∃ f, fuel = f + 1 := ⟨fuel - 1, by omega⟩
    simp only [checksumLoop]
    rw [if_neg (by omega)]
    simp [Nat.mod_eq_of_lt hc]
  | succ n ih =>
    intro k fuel chk hf hbs hle hc
    obtain ⟨f, rfl⟩ : ∃ f, fuel = f + 1 := ⟨fuel - 1, by omega⟩
    simp only [checksumLoop]
    rw [if_pos (by omega)]
    have hi : (4 * k + 4) % 65536 = 4 * (k + 1) := by omega
    rw [hi, ih (k + 1) f _ (by omega) (by omega) hle (Nat.mod_lt _ (by norm_num))]
    have hw : be32 buf (4 * k) = wordBE buf k := by
      rw [be32_eq buf (4 * k) (hb _ (by omega)) (hb _ (by omega)) (hb _ (by omega))
        (hb _ (by omega))]
      rfl
    rw [hw, List.range'_succ, List.map_cons, List.sum_cons]
    congr 1
    omega


theorem checksum_eq (buf : Buf) (md : MountData) (hbs : md.blocksize = 512 ∨ md.blocksize = 2048)
    (hb : ∀ i, i < md.blocksize → buf i < 256) :
    checksum buf md
      = .ok (decide ((beWords buf (md.blocksize / 4)).sum % 4294967296 = 0)) := by
  have h := checksumLoop_spec buf md.blocksize hb (md.blocksize / 4) 0 16385 0
    (by omega) (by omega) (by omega) (by omega)
  unfold checksum
  rw [Nat.mul_zero] at h
  rw [h]
  simp only [Nat.zero_add, beWords, List.range_eq_range']
  by_cases hz : ((List.range' 0 (md.blocksize / 4)).map (wordBE buf)).sum % 4294967296 = 0
  · simp [hz]
  · simp [hz]

theorem retryLoop_spec (dev : Device) (off len max : Nat) :
    ∀ (rest i : Nat) (buf : Buf) (log : List Nat), i + rest = max →
      (∀ j, j < i → dev.err j off ≠ 0 ∧ dev.err j off = dev.ERROR_NOT_READY) →
      (ReadSucceeds dev off max →
        (retryLoop dev off len max rest i buf log).1 < max ∧
        (retryLoop dev off len max rest i buf log).2.1 = xfer dev off len buf) ∧
      (¬ ReadSucceeds dev off max →
        (retryLoop dev off len max rest i buf log).1 = max ∧
        (retryLoop dev off len max rest i buf log).2.1 = buf) := by
  intro rest
  induction rest with
  | zero =>
    intro i buf log h hp
    have hno : ¬ ReadSucceeds dev off max := by
      rintro ⟨j, hj, hj0, _⟩
      exact (hp j (by omega)).1 hj0
    simp only [retryLoop]
    exact ⟨fun hs => absurd hs hno, fun _ => ⟨by omega, trivial⟩⟩
  | succ rest ih =>
    intro i buf log h hp
    simp only [retryLoop, DoIO]
    by_cases h0 : dev.err i off = 0
    · have hyes : ReadSucceeds dev off max := ⟨i, by omega, h0, hp⟩
      simp only [h0, if_true]
      exact ⟨fun _ => ⟨by omega, trivial⟩, fun hn => absurd hyes hn⟩
    · simp only [h0, if_false]
      by_cases h1 : dev.err i off = dev.ERROR_NOT_READY
      · simp only [h1, ne_eq, not_true_eq_false, if_false]
        apply ih (i + 1) buf (off :: log) (by omega)
        intro j hj
        rcases Nat.lt_succ_iff_lt_or_eq.mp hj with hlt | heq
        · exact hp j hlt
        · rw [heq]
          exact ⟨h0, h1⟩
      · have hno : ¬ ReadSucceeds dev off max := by
          rintro ⟨j, hj, hj0, hjp⟩
          rcases Nat.lt_trichotomy j i with hlt | heq | hgt
          · exact (hp j hlt).1 hj0
          · rw [heq] at hj0
            exact h0 hj0
          · exact h1 (hjp i hgt).2
        simp only [ne_eq, h1, not_false_eq_true, if_true]
        exact ⟨fun hs => absurd hs hno, fun _ => ⟨trivial, trivial⟩⟩

theorem beWords_congr (a b : Buf) (n : Nat) (h : ∀ i, i < 4 * n → a i = b i) :
    beWords a n = beWords b n := by
  unfold beWords
  apply List.map_congr_left
  intro k hk
  have hk2 : k < n := List.mem_range.mp hk
  unfold wordBE
  rw [h _ (by omega), h _ (by omega), h _ (by omega), h _ (by omega)]

/-- A block whose words do not sum to zero is never accepted.  The buffer afterwards
holds the transferred block when the transfer took place and is the one passed in
otherwise. -/
theorem readblock_bad_sum (buf : Buf) (block id : Nat) (md : MountData)
    (hbs : md.blocksize = 512 ∨ md.blocksize = 2048)
    (hsum : (beWords (diskBuf md.request (blockOffset block)) (md.blocksize / 4)).sum
      % 4294967296 ≠ 0) :
    ∃ b md2, readblock buf block id md = .ok (false, b, md2) ∧
      (ReadSucceeds md.request (blockOffset block) (maxRetries md) →
        b = xfer md.request (blockOffset block) md.blocksize buf) ∧
      (¬ ReadSucceeds md.request (blockOffset block) (maxRetries md) → b = buf) := by
  unfold readblock
  simp only
  have hspec := retryLoop_spec md.request (blockOffset block) md.blocksize (maxRetries md)
    (maxRetries md) 0 buf md.iolog (by omega) (fun j hj => absurd hj (by omega))
  by_cases hs : ReadSucceeds md.request (blockOffset block) (maxRetries md)
  · obtain ⟨h1, h2⟩ := hspec.1 hs
    rw [if_neg (by omega)]
    split
    · exact ⟨_, _, rfl, fun _ => h2, fun hn => absurd hs hn⟩
    · have hb : ∀ i, i < md.blocksize →
          (retryLoop md.request (blockOffset block) md.blocksize (maxRetries md)
            (maxRetries md) 0 buf md.iolog).2.1 i < 256 := by
        intro i hi
        rw [h2]
        simp only [xfer]
        rw [if_pos hi]
        exact Nat.mod_lt _ (by norm_num)
      have hw : beWords (retryLoop md.request (blockOffset block) md.blocksize (maxRetries md)
          (maxRetries md) 0 buf md.iolog).2.1 (md.blocksize / 4)
          = beWords (diskBuf md.request (blockOffset block)) (md.blocksize / 4) := by
        apply beWords_congr
        intro i hi
        rw [h2]
        simp only [xfer, diskBuf]
        rw [if_pos (by omega)]
      have key : ∀ md1 : MountData, md1.blocksize = md.blocksize →
          checksum (retryLoop md.request (blockOffset block) md.blocksize (maxRetries md)
            (maxRetries md) 0 buf md.iolog).2.1 md1 = .ok false := by
        intro md1 h
        rw [checksum_eq _ md1 (by rw [h]; exact hbs) (by rw [h]; exact hb), h, hw]
        simp only [hsum, decide_False]
      rw [key _ (by rfl)]
      exact ⟨_, _, rfl, fun _ => h2, fun hn => absurd hs hn⟩
  · obtain ⟨h1, h2⟩ := hspec.2 hs
    rw [if_pos h1]
    exact ⟨_, _, rfl, fun h => absurd h hs, fun _ => h2⟩

set_option maxRecDepth 100000 in
theorem devOneByte_sum :
    (beWords (diskBuf devOneByte (blockOffset 0)) (512 / 4)).sum % 4294967296 ≠ 0 := by
  decide

theorem devOneByte_reads (off max : Nat) (h : 0 < max) : ReadSucceeds devOneByte off max :=
  ⟨0, h, rfl, fun j hj => absurd hj (by omega)⟩

/-- C9: for a block size of 512 or 2048 and a buffer of bytes, `checksum` returns, and
returns TRUE exactly when the buffer's consecutive big-endian 32-bit words sum to 0
modulo 2^32. -/
theorem checksum_true_iff_words_sum_zero (buf : Buf) (md : MountData)
    (hbs : md.blocksize = 512 ∨ md.blocksize = 2048)
    (hb : ∀ i, i < md.blocksize → buf i < 256) :
    ∃ r, checksum buf md = .ok r ∧
      (r = true ↔ (beWords buf (md.blocksize / 4)).sum % 4294967296 = 0) :=
  ⟨_, checksum_eq buf md hbs hb, by simp⟩

theorem checksum_true_iff_words_sum_zero_witness :
    ((MountData.fresh devOneByte false 512).blocksize = 512 ∨
        (MountData.fresh devOneByte false 512).blocksize = 2048) ∧
      (∀ i, i < (MountData.fresh devOneByte false 512).blocksize →
        diskBuf devOneByte 0 i < 256) ∧
      ∃ r, checksum (diskBuf devOneByte 0) (MountData.fresh devOneByte false 512) = .ok r ∧
        (r = true ↔ (beWords (diskBuf devOneByte 0)
          ((MountData.fresh devOneByte false 512).blocksize / 4)).sum % 4294967296 = 0) :=
  ⟨Or.inl rfl, fun _ _ => Nat.mod_lt _ (by norm_num),
    checksum_true_iff_words_sum_zero (diskBuf devOneByte 0) (MountData.fresh devOneByte false 512)
      (Or.inl rfl) (fun _ _ => Nat.mod_lt _ (by norm_num))⟩

set_option maxRecDepth 100000 in
/-- C10 (as stated, refuted): block 0 of `devOneByte` has a non-zero word sum, yet
`readblock` does not hand back the zero-filled buffer it was given. -/
theorem readblock_bad_sum_changes_buffer :
    (beWords (diskBuf devOneByte (blockOffset 0)) (512 / 4)).sum % 4294967296 ≠ 0 ∧
      ¬ ∃ md2, readblock (fun _ => 0) 0 4294967295 (MountData.fresh devOneByte false 512)
        = .ok (false, fun _ => 0, md2) := by
  refine ⟨devOneByte_sum, ?_⟩
  rintro ⟨md2, h⟩
  obtain ⟨b, md3, hr, hx, _⟩ := readblock_bad_sum (fun _ => 0) 0 4294967295
    (MountData.fresh devOneByte false 512) (Or.inl rfl) devOneByte_sum
  rw [hr] at h
  have hb : b = fun _ => 0 := by
    injection h with h
    injection h with _ h
    injection h
  have hb3 := congrFun ((hx (devOneByte_reads _ _ (by decide))).symm.trans hb) 3
  revert hb3
  decide

/-- C10 (amended): a block whose big-endian words do not sum to 0 modulo 2^32 makes
`readblock` return FALSE; bytes of the caller's buffer from `blocksize` on keep their
values, and when the transfer took place the first `blocksize` bytes hold the bytes of
that block (the buffer is the transfer target, so it is overwritten). -/
theorem readblock_bad_sum_returns_false (buf : Buf) (block id : Nat) (md : MountData)
    (hbs : md.blocksize = 512 ∨ md.blocksize = 2048)
    (hsum : (beWords (diskBuf md.request (blockOffset block)) (md.blocksize / 4)).sum
      % 4294967296 ≠ 0) :
    ∃ b md2, readblock buf block id md = .ok (false, b, md2) ∧
      (∀ k, md.blocksize ≤ k → b k = buf k) ∧
      (ReadSucceeds md.request (blockOffset block) (maxRetries md) →
        ∀ k, k < md.blocksize → b k = diskBuf md.request (blockOffset block) k) ∧
      (¬ ReadSucceeds md.request (blockOffset block) (maxRetries md) → b = buf) := by
  obtain ⟨b, md2, hr, hx, hn⟩ := readblock_bad_sum buf block id md hbs hsum
  refine ⟨b, md2, hr, ?_, ?_, hn⟩
  · intro k hk
    by_cases hs : ReadSucceeds md.request (blockOffset block) (maxRetries md)
    · rw [hx hs]
      simp only [xfer]
      rw [if_neg (by omega)]
    · rw [hn hs]
  · intro hs k hk
    rw [hx hs]
    simp only [xfer, diskBuf]
    rw [if_pos hk]

set_option maxRecDepth 100000 in
theorem readblock_bad_sum_returns_false_witness :
    ((MountData.fresh devOneByte false 512).blocksize = 512 ∨
        (MountData.fresh devOneByte false 512).blocksize = 2048) ∧
      (beWords (diskBuf (MountData.fresh devOneByte false 512).request (blockOffset 0))
        ((MountData.fresh devOneByte false 512).blocksize / 4)).sum % 4294967296 ≠ 0 ∧
      ∃ b md2, readblock (fun _ => 0) 0 4294967295 (MountData.fresh devOneByte false 512)
          = .ok (false, b, md2) ∧
        (∀ k, (MountData.fresh devOneByte false 512).blocksize ≤ k → b k = (fun _ => 0) k) ∧
        (ReadSucceeds (MountData.fresh devOneByte false 512).request (blockOffset 0)
            (maxRetries (MountData.fresh devOneByte false 512)) →
          ∀ k, k < (MountData.fresh devOneByte false 512).blocksize →
            b k = diskBuf (MountData.fresh devOneByte false 512).request (blockOffset 0) k) ∧
        (¬ ReadSucceeds (MountData.fresh devOneByte false 512).request (blockOffset 0)
            (maxRetries (MountData.fresh devOneByte false 512)) → b = fun _ => 0) :=
  ⟨Or.inl rfl, devOneByte_sum,
    readblock_bad_sum_returns_false (fun _ => 0) 0 4294967295
      (MountData.fresh devOneByte false 512) (Or.inl rfl) devOneByte_sum⟩

theorem retryLoop_log (dev : Device) (off len max : Nat) :
    ∀ (rest i : Nat) (buf : Buf) (log : List Nat),
      ∀ o, o ∈ (retryLoop dev off len max rest i buf log).2.2 → o = off ∨ o ∈ log := by
  intro rest
  induction rest with
  | zero =>
    intro i buf log o ho
    exact Or.inr ho
  | succ rest ih =>
    intro i buf log o
    simp only [retryLoop]
    split
    · intro ho
      rcases List.mem_cons.mp ho with h | h
      · exact Or.inl h
      · exact Or.inr h
    · split
      · intro ho
        rcases List.mem_cons.mp ho with h | h
        · exact Or.inl h
        · exact Or.inr h
      · intro ho
        rcases ih _ _ _ o ho with h | h
        · exact Or.inl h
        · rcases List.mem_cons.mp h with h | h
          · exact Or.inl h
          · exact Or.inr h

theorem xfer_lt (dev : Device) (off len : Nat) (buf : Buf) (i : Nat) (h : i < len) :
    xfer dev off len buf i < 256 := by
  simp only [xfer]
  rw [if_pos h]
  exact Nat.mod_lt _ (by norm_num)

theorem be32_xfer (dev : Device) (off len : Nat) (buf : Buf) (k : Nat) (h : 4 * k + 3 < len) :
    be32 (xfer dev off len buf) (4 * k) = wordBE (diskBuf dev off) k := by
  rw [be32_eq _ _ (xfer_lt _ _ _ _ _ (by omega)) (xfer_lt _ _ _ _ _ (by omega))
    (xfer_lt _ _ _ _ _ (by omega)) (xfer_lt _ _ _ _ _ (by omega))]
  simp only [xfer, wordBE, diskBuf]
  rw [if_pos (by omega), if_pos (by omega), if_pos (by omega), if_pos (by omega)]

theorem readblock_cases (buf : Buf) (block id : Nat) (md : MountData)
    (hbs : md.blocksize = 512 ∨ md.blocksize = 2048) :
    (BlockGood md.request md.blocksize (maxRetries md) block id →
      ∃ L, readblock buf block id md
          = .ok (true, xfer md.request (blockOffset block) md.blocksize buf,
              { md with iolog := L }) ∧
        ∀ o, o ∈ L → o = blockOffset block ∨ o ∈ md.iolog) ∧
    (¬ BlockGood md.request md.blocksize (maxRetries md) block id →
      ∃ b L, readblock buf block id md = .ok (false, b, { md with iolog := L }) ∧
        ∀ o, o ∈ L → o = blockOffset block ∨ o ∈ md.iolog) := by
  have hspec := retryLoop_spec md.request (blockOffset block) md.blocksize (maxRetries md)
    (maxRetries md) 0 buf md.iolog (by omega) (fun j hj => absurd hj (by omega))
  have hlog := retryLoop_log md.request (blockOffset block) md.blocksize (maxRetries md)
    (maxRetries md) 0 buf md.iolog
  by_cases hs : ReadSucceeds md.request (blockOffset block) (maxRetries md)
  · obtain ⟨h1, h2⟩ := hspec.1 hs
    have hv : be32 (retryLoop md.request (blockOffset block) md.blocksize (maxRetries md)
        (maxRetries md) 0 buf md.iolog).2.1 0
        = wordBE (diskBuf md.request (blockOffset block)) 0 := by
      rw [h2]
      exact be32_xfer _ _ _ _ 0 (by omega)
    have hw : beWords (retryLoop md.request (blockOffset block) md.blocksize (maxRetries md)
        (maxRetries md) 0 buf md.iolog).2.1 (md.blocksize / 4)
        = beWords (diskBuf md.request (blockOffset block)) (md.blocksize / 4) := by
      apply beWords_congr
      intro i hi
      rw [h2]
      simp only [xfer, diskBuf]
      rw [if_pos (by omega)]
    have key : ∀ md1 : MountData, md1.blocksize = md.blocksize →
        checksum (retryLoop md.request (blockOffset block) md.blocksize (maxRetries md)
          (maxRetries md) 0 buf md.iolog).2.1 md1
        = .ok (decide ((beWords (diskBuf md.request (blockOffset block))
            (md.blocksize / 4)).sum % 4294967296 = 0)) := by
      intro md1 h
      rw [checksum_eq _ md1 (by rw [h]; exact hbs) (by
        rw [h, h2]
        intro i hi
        exact xfer_lt _ _ _ _ _ hi), h, hw]
    constructor
    · rintro ⟨_, hid, hsum⟩
      unfold readblock
      simp only
      rw [if_neg (by omega), hv, if_neg (by
        rintro ⟨ha, hb⟩
        exact hb (hid ha)), key _ (by rfl)]
      simp only [hsum, decide_True]
      exact ⟨_, by rw [h2], hlog⟩
    · intro hng
      unfold readblock
      simp only
      rw [if_neg (by omega), hv]
      split
      · exact ⟨_, _, rfl, hlog⟩
      · rename_i hidn
        rw [key _ (by rfl)]
        have hsum : ¬ (beWords (diskBuf md.request (blockOffset block))
            (md.blocksize / 4)).sum % 4294967296 = 0 := by
          intro hsum
          apply hng
          refine ⟨hs, ?_, hsum⟩
          intro ha
          by_contra hb
          exact hidn ⟨ha, hb⟩
        simp only [hsum, decide_False]
        exact ⟨_, _, rfl, hlog⟩
  · obtain ⟨h1, h2⟩ := hspec.2 hs
    constructor
    · rintro ⟨hs2, _⟩
      exact absurd hs2 hs
    · intro _
      unfold readblock
      simp only
      rw [if_pos h1]
      exact ⟨_, _, rfl, hlog⟩

theorem lsegBuffered_zero (md : MountData) (h : md.lseglongs = 0) : lsegBuffered md = [] := by
  simp [lsegBuffered, h]

theorem lsegBuffered_length (md : MountData) : (lsegBuffered md).length = md.lseglongs := by
  simp [lsegBuffered]

theorem lsegBuffered_pos (md : MountData) (h : 0 < md.lseglongs)
    (hwf : md.lsegoffset + md.lseglongs ≤ 123) :
    lsegBuffered md = be32 md.lsegbuf (20 + 4 * md.lsegoffset) ::
      lsegBuffered (lsegAdvance md) := by
  obtain ⟨l, hl⟩ : ∃ l, md.lseglongs = l + 1 := ⟨md.lseglongs - 1, by omega⟩
  have hmod : (md.lsegoffset + 1) % 4294967296 = md.lsegoffset + 1 := by omega
  show List.map (fun k => be32 md.lsegbuf (20 + 4 * (md.lsegoffset + k)))
      (List.range md.lseglongs)
    = be32 md.lsegbuf (20 + 4 * md.lsegoffset) ::
      List.map (fun k => be32 md.lsegbuf (20 + 4 * ((md.lsegoffset + 1) % 4294967296 + k)))
        (List.range (md.lseglongs - 1))
  rw [hmod, hl, Nat.add_sub_cancel, List.range_succ_eq_map, List.map_cons, List.map_map,
    Nat.add_zero]
  refine congrArg _ ?_
  apply List.map_congr_left
  intro k _
  show be32 md.lsegbuf (20 + 4 * (md.lsegoffset + (k + 1)))
    = be32 md.lsegbuf (20 + 4 * (md.lsegoffset + 1 + k))
  rw [Nat.add_assoc, Nat.add_comm 1 k]

theorem lsegData_length (dev : Device) (b : Nat) : (lsegData dev b).length = 123 := by
  simp [lsegData]

theorem lsegRefill_pos (md : MountData) (h : 0 < md.lseglongs) :
    lsegRefill md = .ok (true, md) := by
  unfold lsegRefill
  rw [if_neg (by omega)]

theorem lsegRefill_fetch (md : MountData) (b e : Nat) (rest : List Nat)
    (hbs : md.blocksize = 512 ∨ md.blocksize = 2048) (h : md.lseglongs = 0)
    (hch : LsegChain md.request md.blocksize (maxRetries md) md.lsegblock (b :: rest) e) :
    ∃ md2, lsegRefill md = .ok (true, md2) ∧ md2.lseglongs = 123 ∧ md2.lsegoffset = 0 ∧
      LsegChain md.request md.blocksize (maxRetries md) md2.lsegblock rest e ∧
      lsegBuffered md2 = lsegData md.request b ∧
      md2.request = md.request ∧ md2.blocksize = md.blocksize ∧
      md2.slowSpinup = md.slowSpinup ∧ md2.lseghasword = md.lseghasword ∧
      md2.lsegwordbuf = md.lsegwordbuf ∧ md2.ret = md.ret ∧
      ∀ o, o ∈ md2.iolog → o ∈ md.iolog ∨ o = blockOffset b := by
  obtain ⟨hb, hns, hg, hrest⟩ := hch
  obtain ⟨L, hr, hlog⟩ := (readblock_cases md.lsegbuf md.lsegblock IDNAME_LOADSEG md hbs).1 hg
  unfold lsegRefill
  rw [if_pos h, if_neg hns, hr]
  refine ⟨_, rfl, rfl, rfl, ?_, ?_, rfl, rfl, rfl, rfl, rfl, rfl, ?_⟩
  · have hn : be32 (xfer md.request (blockOffset md.lsegblock) md.blocksize md.lsegbuf) 16
        = lsegNext md.request md.lsegblock :=
      be32_xfer _ _ _ _ 4 (by omega)
    simp only [hn]
    exact hrest
  · simp only [lsegBuffered, lsegData, LSEG_DATASIZE, ← hb]
    apply List.map_congr_left
    intro k hk
    have hk2 : k < 123 := List.mem_range.mp hk
    have := be32_xfer md.request (blockOffset md.lsegblock) md.blocksize md.lsegbuf (5 + k)
      (by omega)
    rw [← this]
    have e : 20 + 4 * (0 + k) = 4 * (5 + k) := by omega
    rw [e]
  · intro o ho
    rcases hlog o ho with h1 | h1
    · exact Or.inr (by rw [h1, hb])
    · exact Or.inl h1

theorem lsegRefill_end (md : MountData)
    (hbs : md.blocksize = 512 ∨ md.blocksize = 2048) (h : md.lseglongs = 0)
    (hend : ChainEnds md.request md.blocksize (maxRetries md) md.lsegblock) :
    ∃ md2, lsegRefill md = .ok (false, md2) := by
  unfold lsegRefill
  rw [if_pos h]
  rcases hend with he | he
  · rw [if_pos he]
    exact ⟨_, rfl⟩
  · by_cases hs : md.lsegblock = 4294967295
    · rw [if_pos hs]
      exact ⟨_, rfl⟩
    · obtain ⟨b, L, hr, _⟩ :=
        (readblock_cases md.lsegbuf md.lsegblock IDNAME_LOADSEG md hbs).2 he
      rw [if_neg hs, hr]
      exact ⟨_, rfl⟩

theorem lsegUnread_copy (md : MountData) (blocks : List Nat) (h : 0 < md.lseglongs)
    (hwf : md.lsegoffset + md.lseglongs ≤ 123) :
    lsegUnread md blocks = be32 md.lsegbuf (20 + 4 * md.lsegoffset) ::
      lsegUnread (lsegAdvance md) blocks := by
  unfold lsegUnread
  rw [lsegBuffered_pos md h hwf]
  rfl

theorem LsegPost.refl (md : MountData) (blocks : List Nat) (e : Nat)
    (hwf : md.lsegoffset + md.lseglongs ≤ 123)
    (hch : LsegChain md.request md.blocksize (maxRetries md) md.lsegblock blocks e) :
    LsegPost md md blocks e 0 :=
  ⟨[], blocks, rfl, hch, rfl, hwf, rfl, rfl, rfl, rfl, rfl, rfl, by simp, fun o ho => Or.inl ho⟩

theorem LsegPost.copy (md md2 : MountData) (blocks : List Nat) (e r : Nat)
    (hL : 0 < md.lseglongs) (hwf : md.lsegoffset + md.lseglongs ≤ 123)
    (h : LsegPost (lsegAdvance md) md2 blocks e r) :
    LsegPost md md2 blocks e (r + 1) := by
  obtain ⟨fetched, rest, h1, h2, h3, h4, h5, h6, h7, h8, h9, h10, h11, h12⟩ := h
  refine ⟨fetched, rest, h1, h2, ?_, h4, h5, h6, h7, h8, h9, h10, ?_, h12⟩
  · rw [lsegUnread_copy md blocks hL hwf, List.drop_succ_cons]
    exact h3
  · have e1 : 123 * fetched.length < r - (md.lseglongs - 1) + 123 := h11
    omega

theorem LsegPost.fetch (md mdf md2 : MountData) (b : Nat) (rest : List Nat) (e r : Nat)
    (h0 : md.lseglongs = 0) (hr : 0 < r)
    (f1 : mdf.lseglongs = 123) (f2 : lsegBuffered mdf = lsegData md.request b)
    (f3 : mdf.request = md.request) (f4 : mdf.blocksize = md.blocksize)
    (f5 : mdf.slowSpinup = md.slowSpinup) (f6 : mdf.lseghasword = md.lseghasword)
    (f7 : mdf.lsegwordbuf = md.lsegwordbuf) (f8 : mdf.ret = md.ret)
    (f9 : ∀ o, o ∈ mdf.iolog → o ∈ md.iolog ∨ o = blockOffset b)
    (h : LsegPost mdf md2 rest e r) :
    LsegPost md md2 (b :: rest) e r := by
  obtain ⟨fetched, rest2, h1, h2, h3, h4, h5, h6, h7, h8, h9, h10, h11, h12⟩ := h
  have hmax : maxRetries mdf = maxRetries md := by
    unfold maxRetries
    rw [f5]
  refine ⟨b :: fetched, rest2, by rw [h1]; rfl, ?_, ?_, h4, h5.trans f3, h6.trans f4,
    h7.trans f5, h8.trans f6, h9.trans f7, h10.trans f8, ?_, ?_⟩
  · rw [f3, f4, hmax] at h2
    exact h2
  · rw [h3]
    unfold lsegUnread
    rw [f2, f3, lsegBuffered_zero md h0]
    rfl
  · rw [f1] at h11
    rw [h0, List.length_cons]
    omega
  · intro o ho
    rcases h12 o ho with h | h
    · rcases f9 o h with h | h
      · exact Or.inl h
      · right
        rw [h, List.map_cons]
        exact List.mem_cons_self _ _
    · right
      rw [List.map_cons]
      exact List.mem_cons_of_mem _ h

theorem lsegLoop_spec (n e : Nat) :
    ∀ (r : Nat) (md : MountData) (blocks : List Nat) (cnt : Nat) (out : List Nat) (fuel : Nat),
      cnt + r = n → 2 * r + 1 ≤ fuel →
      (md.blocksize = 512 ∨ md.blocksize = 2048) →
      md.lsegoffset + md.lseglongs ≤ 123 →
      LsegChain md.request md.blocksize (maxRetries md) md.lsegblock blocks e →
      (r ≤ (lsegUnread md blocks).length →
        ∃ md2, lsegLoop n fuel md cnt out
            = .ok (true, out ++ (lsegUnread md blocks).take r, md2) ∧
          LsegPost md md2 blocks e r) ∧
      ((lsegUnread md blocks).length < r →
        ChainEnds md.request md.blocksize (maxRetries md) e →
        ∃ md2, lsegLoop n fuel md cnt out = .ok (false, out ++ lsegUnread md blocks, md2)) := by
  intro r
  induction r with
  | zero =>
    intro md blocks cnt out fuel hc hf hbs hwf hch
    obtain ⟨f, rfl⟩ : ∃ f, fuel = f + 1 := ⟨fuel - 1, by omega⟩
    constructor
    · intro _
      refine ⟨md, ?_, LsegPost.refl md blocks e hwf hch⟩
      rw [lsegLoop, if_neg (by omega), List.take_zero, List.append_nil]
    · intro h
      omega
  | succ r ih =>
    have caseA : ∀ (md : MountData) (blocks : List Nat) (cnt : Nat) (out : List Nat)
        (f : Nat), cnt + (r + 1) = n → 2 * r + 1 ≤ f →
        (md.blocksize = 512 ∨ md.blocksize = 2048) →
        md.lsegoffset + md.lseglongs ≤ 123 →
        LsegChain md.request md.blocksize (maxRetries md) md.lsegblock blocks e →
        0 < md.lseglongs →
        (r + 1 ≤ (lsegUnread md blocks).length →
          ∃ md2, lsegLoop n (f + 1) md cnt out
              = .ok (true, out ++ (lsegUnread md blocks).take (r + 1), md2) ∧
            LsegPost md md2 blocks e (r + 1)) ∧
        ((lsegUnread md blocks).length < r + 1 →
          ChainEnds md.request md.blocksize (maxRetries md) e →
          ∃ md2, lsegLoop n (f + 1) md cnt out
            = .ok (false, out ++ lsegUnread md blocks, md2)) := by
      intro md blocks cnt out f hc hf hbs hwf hch hL
      have hU := lsegUnread_copy md blocks hL hwf
      have hwf1 : (md.lsegoffset + 1) % 4294967296 + (md.lseglongs - 1) ≤ 123 := by omega
      rw [lsegLoop, if_pos (by omega), if_pos hL]
      simp only
      by_cases hr0 : r = 0
      · -- the last long of the request
        subst hr0
        rw [if_pos (by omega)]
        constructor
        · intro _
          refine ⟨_, ?_, LsegPost.copy md _ blocks e 0 hL hwf
            (LsegPost.refl _ blocks e hwf1 hch)⟩
          rw [hU]
          rfl
        · intro hlt _
          rw [hU, List.length_cons] at hlt
          omega
      · rw [if_neg (by omega)]
        by_cases hL1 : md.lseglongs - 1 = 0
        · -- the buffer is empty after this long: fetch or fail
          have hb0 : lsegBuffered (lsegAdvance md) = [] := lsegBuffered_zero _ hL1
          cases blocks with
          | nil =>
            constructor
            · intro hle
              rw [hU, List.length_cons] at hle
              unfold lsegUnread at hle
              rw [hb0] at hle
              simp only [chainWords, List.append_nil, List.length_nil] at hle
              omega
            · intro _ hend
              have hee : md.lsegblock = e := hch
              obtain ⟨md2, h2⟩ := lsegRefill_end
                (lsegAdvance md) hbs hL1 (by rw [← hee] at hend; exact hend)
              rw [h2]
              refine ⟨md2, ?_⟩
              rw [hU]
              unfold lsegUnread
              rw [hb0]
              simp only [chainWords, List.append_nil, List.nil_append]
          | cons b rest =>
            obtain ⟨mdf, h2, f1, f0, fch, f2, f3, f4, f5, f6, f7, f8, f9⟩ := lsegRefill_fetch
              (lsegAdvance md) b e rest hbs hL1 hch
            rw [h2]
            simp only
            have f3 : mdf.request = md.request := f3
            have f4 : mdf.blocksize = md.blocksize := f4
            have f5 : mdf.slowSpinup = md.slowSpinup := f5
            have fch : LsegChain md.request md.blocksize (maxRetries md) mdf.lsegblock rest e :=
              fch
            have f2 : lsegBuffered mdf = lsegData md.request b := f2
            have hmax : maxRetries mdf = maxRetries md := by
              unfold maxRetries
              rw [f5]
            have hih := ih mdf rest (cnt + 1)
              (out ++ [be32 md.lsegbuf (20 + 4 * md.lsegoffset)]) f (by omega) hf
              (by rw [f4]; exact hbs) (by omega) (by rw [f3, f4, hmax]; exact fch)
            have hUf : lsegUnread mdf rest = lsegUnread
                (lsegAdvance md) (b :: rest) := by
              unfold lsegUnread
              rw [f2, f3, hb0]
              rfl
            constructor
            · intro hle
              rw [hU, List.length_cons, ← hUf] at hle
              obtain ⟨md2, hres, hpost⟩ := hih.1 (by omega)
              refine ⟨md2, ?_, LsegPost.copy md md2 (b :: rest) e r hL hwf
                (LsegPost.fetch _ mdf md2 b rest e r hL1 (by omega) f1 f2 f3 f4 f5 f6 f7 f8 f9
                  hpost)⟩
              rw [hres, hU, List.take_succ_cons, ← hUf, List.append_assoc]
              rfl
            · intro hlt hend
              rw [hU, List.length_cons, ← hUf] at hlt
              obtain ⟨md2, hres⟩ := hih.2 (by omega) (by rw [f3, f4, hmax]; exact hend)
              refine ⟨md2, ?_⟩
              rw [hres, hU, ← hUf, List.append_assoc]
              rfl
        · -- longs remain in the buffer
          rw [lsegRefill_pos _ (by
            show 0 < md.lseglongs - 1
            omega)]
          simp only
          have hih := ih (lsegAdvance md) blocks (cnt + 1)
            (out ++ [be32 md.lsegbuf (20 + 4 * md.lsegoffset)]) f (by omega) hf hbs hwf1 hch
          constructor
          · intro hle
            rw [hU, List.length_cons] at hle
            obtain ⟨md2, hres, hpost⟩ := hih.1 (by omega)
            refine ⟨md2, ?_, LsegPost.copy md md2 blocks e r hL hwf hpost⟩
            rw [hres, hU, List.take_succ_cons, List.append_assoc]
            rfl
          · intro hlt hend
            rw [hU, List.length_cons] at hlt
            obtain ⟨md2, hres⟩ := hih.2 (by omega) hend
            refine ⟨md2, ?_⟩
            rw [hres, hU, List.append_assoc]
            rfl
    intro md blocks cnt out fuel hc hf hbs hwf hch
    obtain ⟨f, rfl⟩ : ∃ f, fuel = f + 1 := ⟨fuel - 1, by omega⟩
    by_cases hL : 0 < md.lseglongs
    · exact caseA md blocks cnt out f hc (by omega) hbs hwf hch hL
    · have hL0 : md.lseglongs = 0 := by omega
      have hb0 : lsegBuffered md = [] := lsegBuffered_zero _ hL0
      rw [lsegLoop, if_pos (by omega), if_neg hL]
      cases blocks with
      | nil =>
        constructor
        · intro hle
          unfold lsegUnread at hle
          rw [hb0] at hle
          simp only [chainWords, List.append_nil, List.length_nil] at hle
          omega
        · intro _ hend
          have hee : md.lsegblock = e := hch
          obtain ⟨md2, h2⟩ := lsegRefill_end md hbs hL0 (by rw [← hee] at hend; exact hend)
          rw [h2]
          refine ⟨md2, ?_⟩
          unfold lsegUnread
          rw [hb0]
          simp only [chainWords, List.append_nil]
      | cons b rest =>
        obtain ⟨mdf, h2, f1, f0, fch, f2, f3, f4, f5, f6, f7, f8, f9⟩ :=
          lsegRefill_fetch md b e rest hbs hL0 hch
        rw [h2]
        simp only
        have hmax : maxRetries mdf = maxRetries md := by
          unfold maxRetries
          rw [f5]
        obtain ⟨g, hg⟩ : ∃ g, f = g + 1 := ⟨f - 1, by omega⟩
        have hA := caseA mdf rest cnt out g hc (by omega) (by rw [f4]; exact hbs) (by omega)
          (by rw [f3, f4, hmax]; exact fch) (by omega)
        have hUf : lsegUnread mdf rest = lsegUnread md (b :: rest) := by
          unfold lsegUnread
          rw [f2, f3, hb0]
          rfl
        rw [hg]
        constructor
        · intro hle
          rw [← hUf] at hle
          obtain ⟨md2, hres, hpost⟩ := hA.1 hle
          refine ⟨md2, ?_, LsegPost.fetch md mdf md2 b rest e (r + 1) hL0 (by omega)
            f1 f2 f3 f4 f5 f6 f7 f8 f9 hpost⟩
          rw [hres, hUf]
        · intro hlt hend
          rw [← hUf] at hlt
          obtain ⟨md2, hres⟩ := hA.2 hlt (by rw [f3, f4, hmax]; exact hend)
          refine ⟨md2, ?_⟩
          rw [hres, hUf]

theorem lseg_read_longs_spec (md : MountData) (blocks : List Nat) (e n : Nat)
    (hbs : md.blocksize = 512 ∨ md.blocksize = 2048)
    (hwf : md.lsegoffset + md.lseglongs ≤ 123)
    (hch : LsegChain md.request md.blocksize (maxRetries md) md.lsegblock blocks e) :
    (n ≤ (lsegUnread md blocks).length →
      ∃ md2, lseg_read_longs md n = .ok (true, (lsegUnread md blocks).take n, md2) ∧
        md2.lseghasword = false ∧
        LsegPost { md with lseghasword := false } md2 blocks e n) ∧
    ((lsegUnread md blocks).length < n →
      ChainEnds md.request md.blocksize (maxRetries md) e →
      ∃ md2, lseg_read_longs md n = .ok (false, lsegUnread md blocks, md2)) := by
  have h := lsegLoop_spec n e n { md with lseghasword := false } blocks 0 [] (2 * n + 1)
    (by omega) (by omega) hbs hwf hch
  constructor
  · intro hle
    obtain ⟨md2, hres, hpost⟩ := h.1 hle
    refine ⟨md2, hres, ?_, hpost⟩
    obtain ⟨_, _, _, _, _, _, _, _, _, h8, _⟩ := hpost
    exact h8
  · intro hlt hend
    obtain ⟨md2, hres⟩ := h.2 hlt hend
    exact ⟨md2, hres⟩

theorem shl16_or (a t : Nat) (ha : a < 65536) (ht : t < 4294967296) :
    ((a <<< 16) ||| (t >>> 16)) % 4294967296 = a * 65536 + t / 65536 := by
  rw [Nat.shiftLeft_eq, Nat.shiftRight_eq_div_pow]
  have h1 : t / 2 ^ 16 < 2 ^ 16 := by omega
  have h2 := Nat.mul_add_lt_is_or h1 a
  rw [Nat.mul_comm] at h2
  rw [← h2]
  omega

theorem wordBE_diskBuf_lt (dev : Device) (off k : Nat) :
    wordBE (diskBuf dev off) k < 4294967296 := by
  unfold wordBE diskBuf
  omega

theorem chainWords_lt (dev : Device) : ∀ (blocks : List Nat) (w : Nat),
    w ∈ chainWords dev blocks → w < 4294967296 := by
  intro blocks
  induction blocks with
  | nil =>
    intro w hw
    simp [chainWords] at hw
  | cons b rest ih =>
    intro w hw
    simp only [chainWords, List.mem_append] at hw
    rcases hw with h | h
    · simp only [lsegData, List.mem_map] at h
      obtain ⟨k, _, hk⟩ := h
      rw [← hk]
      exact wordBE_diskBuf_lt _ _ _
    · exact ih w h

theorem lsegUnread_lt (md : MountData) (blocks : List Nat) (w : Nat)
    (hw : w ∈ lsegUnread md blocks) : w < 4294967296 := by
  simp only [lsegUnread, List.mem_append] at hw
  rcases hw with h | h
  · simp only [lsegBuffered, List.mem_map] at h
    obtain ⟨k, _, hk⟩ := h
    rw [← hk]
    exact be32_lt _ _
  · exact chainWords_lt _ _ _ h

/-- One long read from a state standing before a complete chain: when the read
succeeds, the long is the head of the unread stream. -/
theorem lseg_read_one (md : MountData) (blocks : List Nat) (e : Nat)
    (hinv : LsegInv md blocks e) (v : Bool) (out : List Nat) (md1 : MountData)
    (hr : lseg_read_longs md 1 = .ok (v, out, md1)) :
    (v = true → ∃ w rest, out = [w] ∧ lsegUnread md blocks = w :: lsegUnread md1 rest ∧
      w < 4294967296 ∧ md1.lseghasword = false ∧ md1.lsegwordbuf = md.lsegwordbuf ∧
      LsegInv md1 rest e) := by
  obtain ⟨hbs, hwf, hwb, hch, hend⟩ := hinv
  intro hv
  have hs := lseg_read_longs_spec md blocks e 1 hbs hwf hch
  by_cases hlen : 1 ≤ (lsegUnread md blocks).length
  · obtain ⟨md2, hres, hhw, fetched, rest, _, p2, p3, p4, p5, p6, p7, _, p9, _, _, _⟩ :=
      hs.1 hlen
    rw [hres] at hr
    injection hr with hr
    injection hr with _ hr
    injection hr with hout hmd
    subst hmd
    cases hU : lsegUnread md blocks with
    | nil =>
      rw [hU] at hlen
      simp at hlen
    | cons w U2 =>
      have hU2 : lsegUnread { md with lseghasword := false } blocks = w :: U2 := hU
      rw [hU2, List.drop_succ_cons, List.drop_zero] at p3
      rw [hU, List.take_succ_cons, List.take_zero] at hout
      have hmax : maxRetries md2 = maxRetries md := by
        unfold maxRetries
        rw [p7]
      refine ⟨w, rest, hout.symm, by rw [p3], ?_, hhw, p9, ?_⟩
      · apply lsegUnread_lt md blocks
        rw [hU]
        exact List.mem_cons_self _ _
      · refine ⟨by rw [p6]; exact hbs, p4, by rw [p9]; exact hwb, ?_, ?_⟩
        · rw [p5, p6, hmax]
          exact p2
        · rw [p5, p6, hmax]
          exact hend
  · obtain ⟨md2, hres⟩ := hs.2 (by omega) hend
    rw [hres] at hr
    injection hr with hr
    injection hr with hvv _
    rw [hv] at hvv
    exact absurd hvv (by decide)

theorem readUnit_step (temp : Nat) (op : UnitRead) (md md1 : MountData) (blocks : List Nat)
    (e v : Nat) (hinv : LsegInv md blocks e)
    (hr : readUnit temp op md = .ok (true, some v, md1)) :
    ∃ rest, LsegInv md1 rest e ∧
      halfUnread md blocks = unitHalves [op] [v] ++ halfUnread md1 rest ∧
      (md.lseghasword = false → op = UnitRead.word →
        ∃ w, lsegUnread md blocks = w :: lsegUnread md1 rest ∧ v = w / 65536 ∧
          md1.lseghasword = true ∧ md1.lsegwordbuf = w % 65536) ∧
      (md.lseghasword = true → op = UnitRead.word →
        lsegUnread md blocks = lsegUnread md1 rest ∧ v = md.lsegwordbuf ∧
          md1.lseghasword = false) := by
  have hwb : md.lsegwordbuf < 65536 := hinv.2.2.1
  cases op with
  | word =>
    by_cases hhw : md.lseghasword = true
    · simp only [readUnit, lseg_read_word, hhw, if_true] at hr
      injection hr with hr
      injection hr with _ hr
      injection hr with hv hmd
      injection hv with hv
      subst hmd
      subst hv
      refine ⟨blocks, hinv, ?_, ?_, ?_⟩
      · simp only [halfUnread, hhw, if_true, unitHalves]
        rfl
      · intro h
        rw [hhw] at h
        exact absurd h (by decide)
      · intro _ _
        exact ⟨rfl, rfl, rfl⟩
    · have hhw2 : md.lseghasword = false := by
        cases h : md.lseghasword
        · rfl
        · exact absurd h hhw
      simp only [readUnit, lseg_read_word, hhw2] at hr
      cases hrl : lseg_read_longs md 1 with
      | fuel => rw [hrl] at hr; simp at hr
      | fault => rw [hrl] at hr; simp at hr
      | ok x =>
        obtain ⟨vv, out, mdx⟩ := x
        rw [hrl] at hr
        cases vv with
        | false => simp at hr
        | true =>
          obtain ⟨w, rest, hout, hU, hw, h1, h2, hinv1⟩ :=
            lseg_read_one md blocks e hinv true out mdx hrl rfl
          subst hout
          simp only [List.headD_cons, Bool.false_eq_true, if_false] at hr
          injection hr with hr
          injection hr with _ hr
          injection hr with hv hmd
          injection hv with hv
          subst hmd
          rw [Nat.shiftRight_eq_div_pow] at hv
          obtain ⟨i1, i2, _, i4, i5⟩ := hinv1
          refine ⟨rest, ⟨i1, i2, Nat.mod_lt _ (by norm_num), i4, i5⟩, ?_, ?_, ?_⟩
          · simp only [halfUnread, hhw2, Bool.false_eq_true, if_false, unitHalves, if_true,
              List.nil_append]
            rw [hU, ← hv]
            rfl
          · intro _ _
            exact ⟨w, hU, hv.symm, rfl, rfl⟩
          · intro h
            rw [hhw2] at h
            exact absurd h (by decide)
  | long =>
    refine (?_ : ∃ rest, LsegInv md1 rest e ∧
      halfUnread md blocks = unitHalves [UnitRead.long] [v] ++ halfUnread md1 rest ∧ _ ∧ _)
    have hno : ∀ (P : Prop), UnitRead.long = UnitRead.word → P := by
      intro P h
      exact absurd h (by decide)
    cases hrl : lseg_read_longs md 1 with
    | fuel =>
      simp only [readUnit, lseg_read_long, hrl] at hr
      split at hr <;> simp at hr
    | fault =>
      simp only [readUnit, lseg_read_long, hrl] at hr
      split at hr <;> simp at hr
    | ok x =>
      obtain ⟨vv, out, mdx⟩ := x
      by_cases hhw : md.lseghasword = true
      · simp only [readUnit, lseg_read_long, hrl, hhw, if_true] at hr
        injection hr with hr
        injection hr with hvv hr
        injection hr with hv hmd
        injection hv with hv
        subst hvv
        obtain ⟨w, rest, hout, hU, hw, h1, h2, hinv1⟩ :=
          lseg_read_one md blocks e hinv true out mdx hrl rfl
        subst hout
        simp only [List.headD_cons] at hv hmd
        rw [shl16_or _ _ hwb hw] at hv
        subst hmd
        obtain ⟨i1, i2, _, i4, i5⟩ := hinv1
        refine ⟨rest, ⟨i1, i2, Nat.mod_lt _ (by norm_num), i4, i5⟩, ?_,
          fun _ h => hno _ h, fun _ h => hno _ h⟩
        have hq : v / 65536 = md.lsegwordbuf := by omega
        have hm : v % 65536 = w / 65536 := by omega
        simp only [halfUnread, hhw, if_true, unitHalves, List.nil_append]
        rw [hU, hq, hm]
        rfl
      · have hhw2 : md.lseghasword = false := by
          cases h : md.lseghasword
          · rfl
          · exact absurd h hhw
        simp only [readUnit, lseg_read_long, hrl, hhw2, Bool.false_eq_true, if_false] at hr
        injection hr with hr
        injection hr with hvv hr
        injection hr with hv hmd
        subst hvv
        subst hmd
        obtain ⟨w, rest, hout, hU, hw, h1, h2, hinv1⟩ :=
          lseg_read_one md blocks e hinv true out mdx hrl rfl
        subst hout
        simp only [List.head?_cons] at hv
        injection hv with hv
        subst hv
        refine ⟨rest, hinv1, ?_, fun _ h => hno _ h, fun _ h => hno _ h⟩
        simp only [halfUnread, hhw2, h1, Bool.false_eq_true, if_false, unitHalves,
          List.nil_append]
        rw [hU]
        rfl

theorem readUnits_halves (temp : Nat) (e : Nat) :
    ∀ (ops : List UnitRead) (md : MountData) (blocks : List Nat) (vals : List Nat)
      (md2 : MountData), LsegInv md blocks e →
      readUnits temp ops md = .ok (some (vals, md2)) →
      ∃ rest, LsegInv md2 rest e ∧
        halfUnread md blocks = unitHalves ops vals ++ halfUnread md2 rest := by
  intro ops
  induction ops with
  | nil =>
    intro md blocks vals md2 hinv hr
    simp only [readUnits] at hr
    injection hr with hr
    injection hr with hr
    injection hr with hv hmd
    subst hv
    subst hmd
    exact ⟨blocks, hinv, rfl⟩
  | cons op ops ih =>
    intro md blocks vals md2 hinv hr
    simp only [readUnits] at hr
    cases h1 : readUnit temp op md with
    | fuel => rw [h1] at hr; simp at hr
    | fault => rw [h1] at hr; simp at hr
    | ok x =>
      obtain ⟨vv, ov, mdx⟩ := x
      rw [h1] at hr
      cases vv with
      | false => simp at hr
      | true =>
        cases ov with
        | none => simp at hr
        | some v =>
          simp only at hr
          cases h2 : readUnits temp ops mdx with
          | fuel => rw [h2] at hr; simp at hr
          | fault => rw [h2] at hr; simp at hr
          | ok y =>
            rw [h2] at hr
            cases y with
            | none => simp at hr
            | some z =>
              obtain ⟨vs, mdz⟩ := z
              simp only at hr
              injection hr with hr
              injection hr with hr
              injection hr with hv hmd
              subst hv
              subst hmd
              obtain ⟨rest1, hinv1, hh1, _, _⟩ := readUnit_step temp op md mdx blocks e v hinv h1
              obtain ⟨rest2, hinv2, hh2⟩ := ih mdx rest1 vs mdz hinv1 h2
              refine ⟨rest2, hinv2, ?_⟩
              rw [hh1, hh2]
              cases op <;> simp [unitHalves]

theorem half_join (v : Nat) : v = ((v / 65536) <<< 16) ||| (v % 65536) := by
  rw [Nat.shiftLeft_eq]
  have h := Nat.mul_add_lt_is_or (i := 16) (b := v % 65536) (by omega) (v / 65536)
  rw [Nat.mul_comm] at h
  rw [← h]
  omega

theorem lseg_units_spec (temp : Nat) (md : MountData) (blocks : List Nat) (e : Nat)
    (hinv : LsegInv md blocks e) :
    (∀ ops vals md2, readUnits temp ops md = .ok (some (vals, md2)) →
      ∃ rest, LsegInv md2 rest e ∧
        halfUnread md blocks = unitHalves ops vals ++ halfUnread md2 rest) ∧
    (∀ v md1, lseg_read_word md = .ok (true, some v, md1) →
      ∃ rest, LsegInv md1 rest e ∧ halfUnread md blocks = v :: halfUnread md1 rest) ∧
    (∀ v md1, lseg_read_long md temp = .ok (true, some v, md1) →
      ∃ h1 h2 rest, LsegInv md1 rest e ∧
        halfUnread md blocks = h1 :: h2 :: halfUnread md1 rest ∧ v = (h1 <<< 16) ||| h2) ∧
    (md.lseghasword = false → ∀ a b md2,
      readUnits temp [UnitRead.word, UnitRead.word] md = .ok (some ([a, b], md2)) →
      ∃ w rest, LsegInv md2 rest e ∧ lsegUnread md blocks = w :: lsegUnread md2 rest ∧
        a = w / 65536 ∧ b = w % 65536 ∧ md2.lseghasword = false) := by
  refine ⟨fun ops vals md2 h => readUnits_halves temp e ops md blocks vals md2 hinv h, ?_, ?_, ?_⟩
  · intro v md1 h
    obtain ⟨rest, hi, hh, _, _⟩ := readUnit_step temp UnitRead.word md md1 blocks e v hinv h
    exact ⟨rest, hi, hh⟩
  · intro v md1 h
    obtain ⟨rest, hi, hh, _, _⟩ := readUnit_step temp UnitRead.long md md1 blocks e v hinv h
    exact ⟨v / 65536, v % 65536, rest, hi, hh, half_join v⟩
  · intro haligned a b md2 h
    simp only [readUnits] at h
    cases h1 : readUnit temp UnitRead.word md with
    | fuel => rw [h1] at h; simp at h
    | fault => rw [h1] at h; simp at h
    | ok x =>
      obtain ⟨vv, ov, mdx⟩ := x
      rw [h1] at h
      cases vv with
      | false => simp at h
      | true =>
        cases ov with
        | none => simp at h
        | some v =>
          simp only at h
          cases h2 : readUnit temp UnitRead.word mdx with
          | fuel => rw [h2] at h; simp at h
          | fault => rw [h2] at h; simp at h
          | ok y =>
            obtain ⟨vv2, ov2, mdy⟩ := y
            rw [h2] at h
            cases vv2 with
            | false => simp at h
            | true =>
              cases ov2 with
              | none => simp at h
              | some v2 =>
                simp only at h
                injection h with h
                injection h with h
                injection h with hv hmd
                injection hv with ha hv
                injection hv with hb _
                subst ha
                subst hb
                subst hmd
                obtain ⟨rest1, hinv1, _, s1, _⟩ :=
                  readUnit_step temp UnitRead.word md mdx blocks e v hinv h1
                obtain ⟨w, hU, hvw, hw1, hw2⟩ := s1 haligned rfl
                obtain ⟨rest2, hinv2, _, _, s2⟩ :=
                  readUnit_step temp UnitRead.word mdx mdy rest1 e v2 hinv1 h2
                obtain ⟨hU2, hv2, hw3⟩ := s2 hw1 rfl
                refine ⟨w, rest2, hinv2, ?_, hvw, ?_, hw3⟩
                · rw [hU, hU2]
                · rw [hv2, hw2]

theorem storeLong_same (mem : Buf) (p v : Nat) (hv : v < 4294967296) :
    loadLong (storeLong mem p v) p = v := by
  unfold loadLong storeLong
  have h1 : p + 1 ≠ p := by omega
  have h2 : p + 2 ≠ p := by omega
  have h3 : p + 3 ≠ p := by omega
  have h4 : p + 2 ≠ p + 1 := by omega
  have h5 : p + 3 ≠ p + 1 := by omega
  have h6 : p + 3 ≠ p + 2 := by omega
  simp only [if_true, h1, h2, h3, h4, h5, h6, if_false]
  omega

theorem storeLong_other (mem : Buf) (p v j : Nat) (h : j < p ∨ p + 4 ≤ j) :
    storeLong mem p v j = mem j := by
  unfold storeLong
  rw [if_neg (by omega), if_neg (by omega), if_neg (by omega), if_neg (by omega)]

theorem storeLong_lt (mem : Buf) (p v : Nat) (h : ∀ i, mem i < 256) (j : Nat) :
    storeLong mem p v j < 256 := by
  unfold storeLong
  split
  · omega
  · split
    · omega
    · split
      · omega
      · split
        · omega
        · exact h j

theorem loadLong_eq_be32 (mem : Buf) (p : Nat) (h : ∀ i, mem i < 256) :
    be32 mem p = loadLong mem p := by
  rw [be32_eq mem p (h _) (h _) (h _) (h _)]
  rfl

theorem relocOdd_eq_relocEven (mem : Buf) (p target : Nat) (h : ∀ i, mem i < 256) :
    relocOdd mem p target = relocEven mem p target := by
  funext j
  unfold relocOdd relocEven
  rw [loadLong_eq_be32 mem p h]
  simp only [setByte, storeLong, Nat.shiftRight_eq_div_pow]
  by_cases h3 : j = p + 3
  · rw [if_pos h3, if_neg (by omega), if_neg (by omega), if_neg (by omega), if_pos h3]
    simp
  · rw [if_neg h3]
    by_cases h2 : j = p + 2
    · rw [if_pos h2, if_neg (by omega), if_neg (by omega), if_pos h2]
    · rw [if_neg h2]
      by_cases h1 : j = p + 1
      · rw [if_pos h1, if_neg (by omega), if_pos h1]
      · rw [if_neg h1]
        by_cases h0 : j = p
        · rw [if_pos h0, if_pos h0]
        · rw [if_neg h0, if_neg h0, if_neg h1, if_neg h2, if_neg h3]

theorem relocOne_spec (rh rh2 : RelocHunk) (target o : Nat) (hb : ∀ i, rh.mem i < 256)
    (h : relocOne rh target o = .ok (some rh2)) :
    rh2.mem = relocEven rh.mem (8 + o) target ∧ rh2.hunkSize = rh.hunkSize ∧
      rh2.hunkData = rh.hunkData ∧ rh2.msize = rh.msize ∧
      o ≤ ((rh.hunkSize + 4294967295) % 4294967296 * 4) % 4294967296 ∧
      8 + o + 4 ≤ rh.msize := by
  unfold relocOne at h
  split at h
  · simp at h
  · rename_i hle
    split at h
    · rename_i hin
      split at h
      · injection h with h
        injection h with h
        subst h
        exact ⟨relocOdd_eq_relocEven _ _ _ hb, rfl, rfl, rfl, by omega, hin⟩
      · injection h with h
        injection h with h
        subst h
        exact ⟨rfl, rfl, rfl, rfl, by omega, hin⟩
    · simp at h

theorem toWORD_succ (j : Int) (h0 : 0 ≤ j) (h1 : j < 32767) : toWORD (j + 1) = j + 1 := by
  unfold toWORD
  omega

theorem toWORD_wrap : toWORD (32767 + 1) = -32768 := by
  decide

theorem hunkAt_ok (ld : Loader) (i : Int) (rh : RelocHunk) (h : hunkAt ld i = .ok rh) :
    0 ≤ i ∧ i.toNat < ld.tlen ∧ rh = ld.tbl i.toNat := by
  unfold hunkAt at h
  split at h
  · simp at h
  · split at h
    · injection h with h
      exact ⟨by omega, by assumption, h.symm⟩
    · simp at h

theorem and_mask30 (x : Nat) : x &&& 1073741823 = x % 1073741824 := by
  have h := Nat.and_pow_two_sub_one_eq_mod x 30
  norm_num at h
  exact h

theorem TableOK_setHunk_mem (ld : Loader) (md2 : MountData) (tr : List LoadEv) (cur : Nat)
    (rh : RelocHunk) (hok : TableOK ld)
    (h1 : rh.hunkSize = (ld.tbl cur).hunkSize) (h2 : rh.hunkData = (ld.tbl cur).hunkData)
    (h3 : rh.msize = (ld.tbl cur).msize) (h4 : cur < ld.allocs.length → ∀ j, rh.mem j < 256) :
    TableOK { ld with md := md2, tbl := setHunk ld.tbl cur rh, trace := tr } := by
  intro i
  have hi := hok i
  show (i < ld.allocs.length → _) ∧ (ld.allocs.length ≤ i → _)
  simp only [setHunk]
  by_cases hic : i = cur
  · subst hic
    simp only [if_true]
    rw [h1, h2, h3]
    exact ⟨fun hlt => ⟨(hi.1 hlt).1, (hi.1 hlt).2.1, (hi.1 hlt).2.2.1, (hi.1 hlt).2.2.2.1,
      (hi.1 hlt).2.2.2.2.1, h4 hlt⟩, hi.2⟩
  · simp only [hic, if_false]
    exact hi

theorem TableOK_md (ld : Loader) (md2 : MountData) (hok : TableOK ld) :
    TableOK { ld with md := md2 } := hok

theorem TableOK_md_trace (ld : Loader) (md2 : MountData) (tr : List LoadEv) (hok : TableOK ld) :
    TableOK { ld with md := md2, trace := tr } := hok

theorem preAlloc_neg (alloc : Nat → Nat → Nat → Nat) (temp totalHunks : Nat) (fuel : Nat)
    (hunkCnt : Int) (prevChunk fph : Nat) (ld : Loader) (hneg : hunkCnt < 0)
    (x : Bool × Nat × Loader) :
    preAlloc alloc temp totalHunks fuel hunkCnt prevChunk fph ld ≠ .ok x := by
  cases fuel with
  | zero => simp [preAlloc]
  | succ f =>
    rw [preAlloc, if_pos (by omega)]
    have : hunkAt ld hunkCnt = .fault := by
      unfold hunkAt
      rw [if_pos hneg]
    rw [this]
    simp

theorem preAlloc_spec (alloc : Nat → Nat → Nat → Nat) (temp totalHunks : Nat) :
    ∀ (fuel : Nat) (hunkCnt : Int) (prevChunk fph : Nat) (ld : Loader) (v : Bool) (fph2 : Nat)
      (ld2 : Loader),
      preAlloc alloc temp totalHunks fuel hunkCnt prevChunk fph ld = .ok (v, fph2, ld2) →
      TableOK ld → hunkCnt = (ld.allocs.length : Int) → hunkCnt ≤ 32767 →
      ld.allocs.length ≤ totalHunks → (ld.allocs ≠ [] → fph ≠ 0) →
      TableOK ld2 ∧ ld2.tlen = ld.tlen ∧ ld2.trace = ld.trace ∧
        ld2.allocs.length ≤ totalHunks ∧ (v = true → ld2.allocs.length = totalHunks) ∧
        (ld2.allocs ≠ [] → fph2 ≠ 0) := by
  intro fuel
  induction fuel with
  | zero =>
    intro hunkCnt prevChunk fph ld v fph2 ld2 h
    simp [preAlloc] at h
  | succ f ih =>
    intro hunkCnt prevChunk fph ld v fph2 ld2 h hok hcnt hw hlen hfph
    rw [preAlloc] at h
    by_cases hlt : hunkCnt < (totalHunks : Int)
    · rw [if_pos hlt] at h
      cases hat : hunkAt ld hunkCnt with
      | fuel => rw [hat] at h; simp at h
      | fault => rw [hat] at h; simp at h
      | ok rh =>
        rw [hat] at h
        obtain ⟨h0, hin, hrh⟩ := hunkAt_ok ld hunkCnt rh hat
        have hidx : hunkCnt.toNat = ld.allocs.length := by omega
        cases hrd : lseg_read_long ld.md temp with
        | fuel => rw [hrd] at h; simp at h
        | fault => rw [hrd] at h; simp at h
        | ok x =>
          obtain ⟨v1, oh, md1⟩ := x
          rw [hrd] at h
          cases v1 with
          | false =>
            simp only at h
            injection h with h
            injection h with hv h
            injection h with hf hl
            subst hv; subst hf; subst hl
            exact ⟨hok, rfl, rfl, hlen, fun hh => absurd hh (by decide), hfph⟩
          | true =>
            simp only at h
            cases hmf : readMemoryFlags temp (oh.getD temp) md1 with
            | fuel => rw [hmf] at h; simp at h
            | fault => rw [hmf] at h; simp at h
            | ok y =>
              obtain ⟨v2, memoryFlags, md2⟩ := y
              rw [hmf] at h
              cases v2 with
              | false =>
                simp only at h
                injection h with h
                injection h with hv h
                injection h with hf hl
                subst hv; subst hf; subst hl
                exact ⟨hok, rfl, rfl, hlen, fun hh => absurd hh (by decide), hfph⟩
              | true =>
                simp only at h
                by_cases ha0 : alloc (ld.allocs.length + 1)
                    (((oh.getD temp &&& 1073741823) + 2) * 4 % 4294967296)
                    (memoryFlags ||| MEMF_CLEAR) = 0
                · rw [if_pos ha0] at h
                  injection h with h
                  injection h with hv h
                  injection h with hf hl
                  subst hv; subst hf; subst hl
                  refine ⟨?_, rfl, rfl, hlen, fun hh => absurd hh (by decide), hfph⟩
                  intro i
                  have hi := hok i
                  show (i < ld.allocs.length → _) ∧ (ld.allocs.length ≤ i → _)
                  simp only [setHunk, hidx]
                  by_cases hic : i = ld.allocs.length
                  · subst hic
                    simp only [if_true]
                    exact ⟨fun hh => absurd hh (by omega), fun _ => trivial⟩
                  · simp only [hic, if_false]
                    exact hi
                · rw [if_neg ha0] at h
                  by_cases hms : ((oh.getD temp &&& 1073741823) + 2) * 4 % 4294967296 < 8 ∨
                      4294967296 ≤ alloc (ld.allocs.length + 1)
                        (((oh.getD temp &&& 1073741823) + 2) * 4 % 4294967296)
                        (memoryFlags ||| MEMF_CLEAR) + 8
                  · rw [if_pos hms] at h
                    simp at h
                  · rw [if_neg hms] at h
                    by_cases hlt2 : hunkCnt < 32767
                    · rw [toWORD_succ hunkCnt h0 hlt2] at h
                      have hres := ih _ _ _ _ _ _ _ h ?_ ?_ ?_ ?_ ?_
                      · exact hres
                      · intro i
                        have hi := hok i
                        show (i < (ld.allocs ++ [_]).length → _) ∧
                          ((ld.allocs ++ [_]).length ≤ i → _)
                        rw [List.length_append, List.length_singleton]
                        simp only [setHunk, hidx]
                        by_cases hic : i = ld.allocs.length
                        · subst hic
                          simp only [if_true]
                          rw [List.getD_append_right _ _ _ _ (Nat.le_refl _), Nat.sub_self]
                          simp only [List.getD_cons_zero]
                          rw [and_mask30] at hms ⊢
                          refine ⟨fun _ => ⟨by omega, by omega, by omega, by omega, by omega, ?_⟩,
                            fun hh => absurd hh (by omega)⟩
                          intro j
                          exact storeLong_lt _ _ _ (storeLong_lt _ _ _ (fun _ => by decide)) j
                        · simp only [hic, if_false]
                          constructor
                          · intro hlt3
                            have hlt4 : i < ld.allocs.length := by omega
                            rw [List.getD_append _ _ _ _ hlt4]
                            exact hi.1 hlt4
                          · intro hge
                            exact hi.2 (by omega)
                      · show hunkCnt + 1 = ((ld.allocs ++ [_]).length : Int)
                        rw [List.length_append, List.length_singleton]
                        omega
                      · omega
                      · show (ld.allocs ++ [_]).length ≤ totalHunks
                        rw [List.length_append, List.length_singleton]
                        omega
                      · intro _
                        split
                        · omega
                        · assumption
                    · have h32 : hunkCnt = 32767 := by omega
                      rw [h32, toWORD_wrap] at h
                      exact absurd h (preAlloc_neg _ _ _ _ _ _ _ _ (by decide) _)
    · rw [if_neg hlt] at h
      injection h with h
      injection h with hv h
      injection h with hf hl
      subst hv; subst hf; subst hl
      exact ⟨hok, rfl, rfl, hlen, fun _ => by omega, hfph⟩

theorem setByte_lt (mem : Buf) (i b : Nat) (h : ∀ j, mem j < 256) (j : Nat) :
    setByte mem i b j < 256 := by
  unfold setByte
  split
  · exact Nat.mod_lt _ (by norm_num)
  · exact h j

theorem relocOne_keeps (rh rh2 : RelocHunk) (target o : Nat)
    (h : relocOne rh target o = .ok (some rh2)) :
    rh2.hunkSize = rh.hunkSize ∧ rh2.hunkData = rh.hunkData ∧ rh2.msize = rh.msize ∧
      ((∀ j, rh.mem j < 256) → ∀ j, rh2.mem j < 256) := by
  unfold relocOne at h
  by_cases h1 : o > ((rh.hunkSize + 4294967295) % 4294967296 * 4) % 4294967296
  · rw [if_pos h1] at h
    simp at h
  · rw [if_neg h1] at h
    by_cases h2 : 8 + o + 4 ≤ rh.msize
    · rw [if_pos h2] at h
      by_cases h3 : o &&& 1 ≠ 0
      · rw [if_pos h3] at h
        injection h with h
        injection h with h
        subst h
        refine ⟨rfl, rfl, rfl, ?_⟩
        intro hb j
        exact setByte_lt _ _ _ (setByte_lt _ _ _ (setByte_lt _ _ _ (setByte_lt _ _ _ hb))) j
      · rw [if_neg h3] at h
        injection h with h
        injection h with h
        subst h
        refine ⟨rfl, rfl, rfl, ?_⟩
        intro hb j
        exact storeLong_lt _ _ _ hb j
    · rw [if_neg h2] at h
      simp at h

theorem TraceGood_fix (fh th : Nat) (tr : List LoadEv) (a b c : Nat)
    (h : TraceGood fh th tr) : TraceGood fh th (tr ++ [LoadEv.fix a b c]) := by
  intro x idx hm
  rcases List.mem_append.mp hm with h1 | h1
  · exact h x idx h1
  · simp at h1

theorem TraceGood_group (fh th : Nat) (tr : List LoadEv) (c idx : Nat)
    (h : TraceGood fh th tr) (hg : ¬ BadTarget fh th idx) :
    TraceGood fh th (tr ++ [LoadEv.group c idx]) := by
  intro x i hm
  rcases List.mem_append.mp hm with h1 | h1
  · exact h x i h1
  · simp only [List.mem_singleton] at h1
    injection h1 with _ h2
    rw [h2]
    exact hg

theorem LoadPost.md_only (fh th : Nat) (ld : Loader) (md2 : MountData) (v : Bool) :
    LoadPost fh th ld v { ld with md := md2 } :=
  ⟨rfl, rfl, fun h => h, fun h => ⟨fun _ => h, fun _ => Or.inl h⟩⟩

theorem LoadPost.trans (fh th : Nat) (ld ld2 ld3 : Loader) (v : Bool)
    (h1 : LoadPost fh th ld true ld2) (h2 : LoadPost fh th ld2 v ld3) :
    LoadPost fh th ld v ld3 := by
  obtain ⟨a1, a2, a3, a4⟩ := h1
  obtain ⟨b1, b2, b3, b4⟩ := h2
  exact ⟨b1.trans a1, b2.trans a2, fun h => b3 (a3 h), fun h => b4 ((a4 h).1 rfl)⟩

theorem relocOffsets_post (fh th : Nat) (short : Bool) (temp cur tgt target : Nat) :
    ∀ (c : Nat) (ld : Loader) (v : Bool) (ld2 : Loader),
      relocOffsets short temp cur tgt target c ld = .ok (v, ld2) →
      LoadPost fh th ld v ld2 ∧ (TraceGood fh th ld.trace → TraceGood fh th ld2.trace) := by
  intro c
  induction c with
  | zero =>
    intro ld v ld2 h
    simp only [relocOffsets] at h
    injection h with h
    injection h with hv hl
    subst hv; subst hl
    exact ⟨⟨rfl, rfl, fun h => h, fun h => ⟨fun _ => h, fun _ => Or.inl h⟩⟩, fun h => h⟩
  | succ c ih =>
    intro ld v ld2 h
    rw [relocOffsets] at h
    cases hrd : (if short then lseg_read_word ld.md else lseg_read_long ld.md temp) with
    | fuel => rw [hrd] at h; simp at h
    | fault => rw [hrd] at h; simp at h
    | ok x =>
      obtain ⟨v1, oo, md1⟩ := x
      rw [hrd] at h
      cases v1 with
      | false =>
        simp only at h
        injection h with h
        injection h with hv hl
        subst hv; subst hl
        exact ⟨LoadPost.md_only fh th ld md1 false, fun h => h⟩
      | true =>
        simp only at h
        cases hone : relocOne (ld.tbl cur) target (oo.getD temp) with
        | fuel => rw [hone] at h; simp at h
        | fault => rw [hone] at h; simp at h
        | ok y =>
          rw [hone] at h
          cases y with
          | none =>
            simp only at h
            injection h with h
            injection h with hv hl
            subst hv; subst hl
            exact ⟨LoadPost.md_only fh th ld md1 false, fun h => h⟩
          | some rh =>
            simp only at h
            obtain ⟨k1, k2, k3, k4⟩ := relocOne_keeps _ _ _ _ hone
            obtain ⟨⟨p1, p2, p3, p4⟩, p5⟩ := ih _ _ _ h
            have htr : TraceGood fh th ld.trace →
                TraceGood fh th (ld.trace ++ [LoadEv.fix cur tgt (oo.getD temp)]) :=
              TraceGood_fix fh th ld.trace _ _ _
            exact ⟨⟨p1, p2, fun hok => p3 (TableOK_setHunk_mem ld md1 _ cur rh hok k1 k2 k3
                (fun hlt => k4 ((hok cur).1 hlt).2.2.2.2.2)), fun hg => p4 (htr hg)⟩,
              fun hg => p5 (htr hg)⟩

theorem storeLongs_lt (ws : List Nat) : ∀ (mem : Buf) (p : Nat), (∀ j, mem j < 256) →
    ∀ j, storeLongs mem p ws j < 256 := by
  induction ws with
  | nil =>
    intro mem p h j
    exact h j
  | cons w ws ih =>
    intro mem p h j
    simp only [storeLongs]
    exact ih _ _ (storeLong_lt _ _ _ h) j

theorem relocGroups_post (fh th : Nat) (short : Bool) (temp cur : Nat) :
    ∀ (fuel : Nat) (ld : Loader) (v : Bool) (ld2 : Loader),
      relocGroups short temp fh th cur fuel ld = .ok (v, ld2) → LoadPost fh th ld v ld2 := by
  intro fuel
  induction fuel with
  | zero =>
    intro ld v ld2 h
    simp [relocGroups] at h
  | succ f ih =>
    intro ld v ld2 h
    rw [relocGroups] at h
    cases hrd : lseg_read_long ld.md temp with
    | fuel => rw [hrd] at h; simp at h
    | fault => rw [hrd] at h; simp at h
    | ok x =>
      obtain ⟨v1, oc, md1⟩ := x
      rw [hrd] at h
      cases v1 with
      | false =>
        simp only at h
        injection h with h
        injection h with hv hl
        subst hv; subst hl
        exact LoadPost.md_only fh th ld md1 false
      | true =>
        simp only at h
        by_cases hc0 : oc.getD temp = 0
        · rw [if_pos hc0] at h
          injection h with h
          injection h with hv hl
          subst hv; subst hl
          exact LoadPost.md_only fh th ld md1 true
        · rw [if_neg hc0] at h
          cases hrd2 : lseg_read_long md1 temp with
          | fuel => rw [hrd2] at h; simp at h
          | fault => rw [hrd2] at h; simp at h
          | ok y =>
            obtain ⟨v2, oh, md2⟩ := y
            rw [hrd2] at h
            cases v2 with
            | false =>
              simp only at h
              injection h with h
              injection h with hv hl
              subst hv; subst hl
              exact LoadPost.md_only fh th ld md2 false
            | true =>
              simp only at h
              by_cases hbad : (oh.getD temp + 4294967296 - fh) % 4294967296 ≥ th
              · rw [if_pos hbad] at h
                injection h with h
                injection h with hv hl
                subst hv; subst hl
                refine ⟨rfl, rfl, fun hok => hok, fun hg => ⟨fun hh => absurd hh (by decide),
                  fun _ => Or.inr ⟨ld.trace, oc.getD temp, oh.getD temp, rfl, hg, hbad⟩⟩⟩
              · rw [if_neg hbad] at h
                cases hat : hunkAt
                    { ld with md := md2,
                              trace := ld.trace ++ [LoadEv.group (oc.getD temp) (oh.getD temp)] }
                    (((oh.getD temp + 4294967296 - fh) % 4294967296 : Nat) : Int) with
                | fuel => rw [hat] at h; simp at h
                | fault => rw [hat] at h; simp at h
                | ok rhr =>
                  rw [hat] at h
                  simp only at h
                  cases hro : relocOffsets short temp cur
                      ((oh.getD temp + 4294967296 - fh) % 4294967296) rhr.hunkData
                      (oc.getD temp)
                      { ld with md := md2,
                                trace := ld.trace ++
                                  [LoadEv.group (oc.getD temp) (oh.getD temp)] } with
                  | fuel => rw [hro] at h; simp at h
                  | fault => rw [hro] at h; simp at h
                  | ok z =>
                    obtain ⟨v3, ld3⟩ := z
                    rw [hro] at h
                    obtain ⟨⟨p1, p2, p3, p4⟩, p5⟩ := relocOffsets_post fh th _ _ _ _ _ _ _ _ _ hro
                    have hgg : TraceGood fh th ld.trace → TraceGood fh th ld3.trace :=
                      fun hg => p5 (TraceGood_group fh th ld.trace _ _ hg hbad)
                    cases v3 with
                    | false =>
                      simp only at h
                      injection h with h
                      injection h with hv hl
                      subst hv; subst hl
                      exact ⟨p1, p2, fun hok => p3 hok, fun hg =>
                        ⟨fun hh => absurd hh (by decide), fun _ => Or.inl (hgg hg)⟩⟩
                    | true =>
                      simp only at h
                      have hpost := ih _ _ _ h
                      exact LoadPost.trans fh th ld ld3 ld2 v
                        ⟨p1, p2, fun hok => p3 hok, fun hg => ⟨fun _ => hgg hg,
                          fun hh => absurd hh (by decide)⟩⟩ hpost

theorem loadHunk_post (fh th : Nat) (temp hunkType cur : Nat) (ld : Loader) (v : Bool)
    (ld2 : Loader) (h : loadHunk temp hunkType cur ld = .ok (v, ld2)) :
    LoadPost fh th ld v ld2 := by
  unfold loadHunk at h
  cases hrd : lseg_read_long ld.md temp with
  | fuel => rw [hrd] at h; simp at h
  | fault => rw [hrd] at h; simp at h
  | ok x =>
    obtain ⟨v1, os, md1⟩ := x
    rw [hrd] at h
    cases v1 with
    | false =>
      simp only at h
      injection h with h
      injection h with hv hl
      subst hv; subst hl
      exact LoadPost.md_only fh th ld md1 false
    | true =>
      simp only at h
      by_cases hsz : os.getD temp > (ld.tbl cur).hunkSize
      · rw [if_pos hsz] at h
        injection h with h
        injection h with hv hl
        subst hv; subst hl
        exact LoadPost.md_only fh th ld md1 false
      · rw [if_neg hsz] at h
        by_cases hbss : hunkType ≠ HUNK_BSS
        · rw [if_pos hbss] at h
          cases hrl : lseg_read_longs md1 (os.getD temp) with
          | fuel => rw [hrl] at h; simp at h
          | fault => rw [hrl] at h; simp at h
          | ok y =>
            obtain ⟨v2, out, md2⟩ := y
            rw [hrl] at h
            simp only at h
            by_cases hin : out = [] ∨ 8 + 4 * out.length ≤ (ld.tbl cur).msize
            · rw [if_pos hin] at h
              injection h with h
              injection h with hv hl
              subst hv; subst hl
              refine ⟨rfl, rfl, fun hok => ?_, fun hg => ⟨fun _ => hg, fun _ => Or.inl hg⟩⟩
              exact TableOK_setHunk_mem ld md2 ld.trace cur _ hok rfl rfl rfl
                (fun hlt => storeLongs_lt _ _ _ ((hok cur).1 hlt).2.2.2.2.2)
            · rw [if_neg hin] at h
              simp at h
        · rw [if_neg hbss] at h
          injection h with h
          injection h with hv hl
          subst hv; subst hl
          exact LoadPost.md_only fh th ld md1 true

theorem loadLoop_post (fh th temp : Nat) :
    ∀ (fuel : Nat) (hunkCnt : Int) (rh : Option Nat) (ld : Loader) (v : Bool) (ld2 : Loader),
      loadLoop temp fh th fuel hunkCnt rh ld = .ok (v, ld2) → LoadPost fh th ld v ld2 := by
  intro fuel
  induction fuel with
  | zero =>
    intro hunkCnt rh ld v ld2 h
    simp [loadLoop] at h
  | succ f ih =>
    intro hunkCnt rh ld v ld2 h
    rw [loadLoop] at h
    by_cases hle : hunkCnt ≤ (th : Int)
    · rw [if_pos hle] at h
      cases hrd : lseg_read_long ld.md temp with
      | fuel => rw [hrd] at h; simp at h
      | fault => rw [hrd] at h; simp at h
      | ok x =>
        obtain ⟨v1, ot, md1⟩ := x
        rw [hrd] at h
        cases v1 with
        | false =>
          simp only at h
          by_cases hge : hunkCnt ≥ (th : Int)
          · rw [if_pos hge] at h
            injection h with h
            injection h with hv hl
            subst hv; subst hl
            exact LoadPost.md_only fh th ld md1 true
          · rw [if_neg hge] at h
            injection h with h
            injection h with hv hl
            subst hv; subst hl
            exact LoadPost.md_only fh th ld md1 false
        | true =>
          simp only at h
          have hmd : LoadPost fh th ld true { ld with md := md1 } :=
            LoadPost.md_only fh th ld md1 true
          by_cases hcode : ot.getD temp = HUNK_CODE ∨ ot.getD temp = HUNK_DATA ∨
              ot.getD temp = HUNK_BSS
          · rw [if_pos hcode] at h
            by_cases hge : hunkCnt ≥ (th : Int)
            · rw [if_pos hge] at h
              injection h with h
              injection h with hv hl
              subst hv; subst hl
              exact LoadPost.md_only fh th ld md1 false
            · rw [if_neg hge] at h
              cases hat : hunkAt { ld with md := md1 } hunkCnt with
              | fuel => rw [hat] at h; simp at h
              | fault => rw [hat] at h; simp at h
              | ok rhv =>
                rw [hat] at h
                simp only at h
                cases hlh : loadHunk temp (ot.getD temp) hunkCnt.toNat { ld with md := md1 } with
                | fuel => rw [hlh] at h; simp at h
                | fault => rw [hlh] at h; simp at h
                | ok y =>
                  obtain ⟨v2, ld3⟩ := y
                  rw [hlh] at h
                  have hp := loadHunk_post fh th _ _ _ _ _ _ hlh
                  cases v2 with
                  | false =>
                    simp only at h
                    injection h with h
                    injection h with hv hl
                    subst hv; subst hl
                    exact hp
                  | true =>
                    simp only at h
                    exact LoadPost.trans fh th ld ld3 ld2 v hp (ih _ _ _ _ _ h)
          · rw [if_neg hcode] at h
            by_cases hrel : ot.getD temp = HUNK_RELOC32 ∨ ot.getD temp = HUNK_RELOC32SHORT
            · rw [if_pos hrel] at h
              cases rh with
              | none =>
                simp only at h
                injection h with h
                injection h with hv hl
                subst hv; subst hl
                exact LoadPost.md_only fh th ld md1 false
              | some cur =>
                simp only at h
                cases hrg : relocGroups (decide (ot.getD temp = HUNK_RELOC32SHORT)) temp fh th
                    cur f { ld with md := md1 } with
                | fuel => rw [hrg] at h; simp at h
                | fault => rw [hrg] at h; simp at h
                | ok y =>
                  obtain ⟨v2, ld3⟩ := y
                  rw [hrg] at h
                  have hp := relocGroups_post fh th _ _ _ _ _ _ _ hrg
                  cases v2 with
                  | false =>
                    simp only at h
                    injection h with h
                    injection h with hv hl
                    subst hv; subst hl
                    exact hp
                  | true =>
                    simp only at h
                    exact LoadPost.trans fh th ld ld3 ld2 v hp (ih _ _ _ _ _ h)
            · rw [if_neg hrel] at h
              by_cases hend : ot.getD temp = HUNK_END
              · rw [if_pos hend] at h
                by_cases hge : hunkCnt ≥ (th : Int)
                · rw [if_pos hge] at h
                  injection h with h
                  injection h with hv hl
                  subst hv; subst hl
                  exact LoadPost.md_only fh th ld md1 true
                · rw [if_neg hge] at h
                  exact LoadPost.trans fh th ld _ ld2 v hmd (ih _ _ _ _ _ h)
              · rw [if_neg hend] at h
                injection h with h
                injection h with hv hl
                subst hv; subst hl
                exact LoadPost.md_only fh th ld md1 false
    · rw [if_neg hle] at h
      injection h with h
      injection h with hv hl
      subst hv; subst hl
      exact ⟨rfl, rfl, fun h => h, fun h => ⟨fun _ => h, fun _ => Or.inl h⟩⟩

theorem freeLoop_neg (totalHunks : Nat) (ld : Loader) (fuel : Nat) (j : Int)
    (frees res : List (Nat × Nat)) (hneg : j < 0) :
    freeLoop totalHunks ld fuel j frees ≠ .ok res := by
  cases fuel with
  | zero => simp [freeLoop]
  | succ f =>
    rw [freeLoop, if_pos (by omega)]
    have : hunkAt ld j = .fault := by
      unfold hunkAt
      rw [if_pos hneg]
    rw [this]
    simp

theorem freeLoop_spec (totalHunks : Nat) (ld : Loader) (hok : TableOK ld)
    (hlen : ld.allocs.length ≤ totalHunks) :
    ∀ (fuel : Nat) (j : Int) (frees res : List (Nat × Nat)),
      freeLoop totalHunks ld fuel j frees = .ok res → 0 ≤ j → j ≤ 32767 →
      j ≤ (totalHunks : Int) → res = frees ++ ld.allocs.drop j.toNat := by
  intro fuel
  induction fuel with
  | zero =>
    intro j frees res h
    simp [freeLoop] at h
  | succ f ih =>
    intro j frees res h h0 hw hle
    rw [freeLoop] at h
    by_cases hlt : j < (totalHunks : Int)
    · rw [if_pos hlt] at h
      cases hat : hunkAt ld j with
      | fuel => rw [hat] at h; simp at h
      | fault => rw [hat] at h; simp at h
      | ok rh =>
        rw [hat] at h
        simp only at h
        obtain ⟨_, hin, hrh⟩ := hunkAt_ok ld j rh hat
        by_cases hlt2 : j < 32767
        · rw [toWORD_succ j h0 hlt2] at h
          have hres := ih _ _ _ h (by omega) (by omega) (by omega)
          have hj1 : (j + 1).toNat = j.toNat + 1 := by omega
          rw [hj1] at hres
          by_cases hia : j.toNat < ld.allocs.length
          · obtain ⟨t1, t2, t3, t4, t5, _⟩ := (hok j.toNat).1 hia
            rw [← hrh] at t1 t3 t5
            have hne : rh.hunkData ≠ 0 := by omega
            rw [if_pos hne] at hres
            have e1 : (rh.hunkData + 4294967296 - 8) % 4294967296
                = (ld.allocs.getD j.toNat (0, 0)).1 := by omega
            have e2 : (rh.hunkSize + 2) * 4 % 4294967296
                = (ld.allocs.getD j.toNat (0, 0)).2 := by omega
            rw [e1, e2] at hres
            rw [hres, List.append_assoc, List.getD_eq_getElem _ _ hia,
              List.drop_eq_getElem_cons hia, List.singleton_append]
          · have hz : rh.hunkData = 0 := by
              rw [hrh]
              exact (hok j.toNat).2 (by omega)
            rw [if_neg (by
              intro hne
              exact hne hz)] at hres
            rw [hres, List.drop_eq_nil_of_le (by omega), List.drop_eq_nil_of_le (by omega)]
        · have h32 : j = 32767 := by omega
          rw [h32, toWORD_wrap] at h
          exact absurd h (freeLoop_neg _ _ _ _ _ _ (by decide))
    · rw [if_neg hlt] at h
      injection h with h
      rw [← h, List.drop_eq_nil_of_le (by omega), List.append_nil]

theorem fsFinish_spec (fh th ta ts : Nat) (ret : Bool) (fph : Nat) (ld : Loader) (r : FsResult)
    (h : fsFinish fh th ta ts ret fph ld = .ok r) :
    r.table = some (ta, ts) ∧ r.allocs = ld.allocs ∧ r.tbl = ld.tbl ∧ r.trace = ld.trace ∧
      r.firstHunk = fh ∧ r.totalHunks = th ∧ r.md = ld.md ∧
      (ret = true → r.seg = fph ∧ r.frees = [(ta, ts)]) ∧
      (ret = false → r.seg = 0 ∧
        (TableOK ld → ld.allocs.length ≤ th → r.frees = ld.allocs ++ [(ta, ts)])) := by
  unfold fsFinish at h
  cases ret with
  | true =>
    simp only [if_true] at h
    injection h with h
    subst h
    exact ⟨rfl, rfl, rfl, rfl, rfl, rfl, rfl, fun _ => ⟨rfl, rfl⟩,
      fun hh => absurd hh (by decide)⟩
  | false =>
    simp only [Bool.false_eq_true, if_false] at h
    cases hfl : freeLoop th ld 32770 0 [] with
    | fuel => rw [hfl] at h; simp at h
    | fault => rw [hfl] at h; simp at h
    | ok frees =>
      rw [hfl] at h
      simp only at h
      injection h with h
      subst h
      refine ⟨rfl, rfl, rfl, rfl, rfl, rfl, rfl, fun hh => absurd hh (by decide),
        fun _ => ⟨rfl, fun hok hlen => ?_⟩⟩
      have := freeLoop_spec th ld hok hlen _ _ _ _ hfl (by omega) (by omega) (by omega)
      rw [this]
      rfl

theorem preAlloc_trace (alloc : Nat → Nat → Nat → Nat) (temp totalHunks : Nat) :
    ∀ (fuel : Nat) (hunkCnt : Int) (prevChunk fph : Nat) (ld : Loader) (v : Bool) (fph2 : Nat)
      (ld2 : Loader),
      preAlloc alloc temp totalHunks fuel hunkCnt prevChunk fph ld = .ok (v, fph2, ld2) →
      ld2.trace = ld.trace := by
  intro fuel
  induction fuel with
  | zero =>
    intro hunkCnt prevChunk fph ld v fph2 ld2 h
    simp [preAlloc] at h
  | succ f ih =>
    intro hunkCnt prevChunk fph ld v fph2 ld2 h
    rw [preAlloc] at h
    by_cases hlt : hunkCnt < (totalHunks : Int)
    · rw [if_pos hlt] at h
      cases hat : hunkAt ld hunkCnt with
      | fuel => rw [hat] at h; simp at h
      | fault => rw [hat] at h; simp at h
      | ok rh =>
        rw [hat] at h
        cases hrd : lseg_read_long ld.md temp with
        | fuel => rw [hrd] at h; simp at h
        | fault => rw [hrd] at h; simp at h
        | ok x =>
          obtain ⟨v1, oh, md1⟩ := x
          rw [hrd] at h
          cases v1 with
          | false =>
            simp only at h
            injection h with h
            injection h with hv h
            injection h with hf hl
            subst hl
            rfl
          | true =>
            simp only at h
            cases hmf : readMemoryFlags temp (oh.getD temp) md1 with
            | fuel => rw [hmf] at h; simp at h
            | fault => rw [hmf] at h; simp at h
            | ok y =>
              obtain ⟨v2, memoryFlags, md2⟩ := y
              rw [hmf] at h
              cases v2 with
              | false =>
                simp only at h
                injection h with h
                injection h with hv h
                injection h with hf hl
                subst hl
                rfl
              | true =>
                simp only at h
                by_cases ha0 : alloc (ld.allocs.length + 1)
                    (((oh.getD temp &&& 1073741823) + 2) * 4 % 4294967296)
                    (memoryFlags ||| MEMF_CLEAR) = 0
                · rw [if_pos ha0] at h
                  injection h with h
                  injection h with hv h
                  injection h with hf hl
                  subst hl
                  rfl
                · rw [if_neg ha0] at h
                  by_cases hms : ((oh.getD temp &&& 1073741823) + 2) * 4 % 4294967296 < 8 ∨
                      4294967296 ≤ alloc (ld.allocs.length + 1)
                        (((oh.getD temp &&& 1073741823) + 2) * 4 % 4294967296)
                        (memoryFlags ||| MEMF_CLEAR) + 8
                  · rw [if_pos hms] at h
                    simp at h
                  · rw [if_neg hms] at h
                    have hh := ih _ _ _ _ _ _ _ h
                    exact hh
    · rw [if_neg hlt] at h
      injection h with h
      injection h with hv h
      injection h with hf hl
      subst hl
      rfl

theorem TableOK_zero (md : MountData) (n : Nat) :
    TableOK { md := md, tbl := fun _ => RelocHunk.zero, tlen := n, allocs := [], trace := [] } := by
  intro i
  exact ⟨fun h => absurd h (by simp), fun _ => rfl⟩

theorem fsBody_spec (fuel : Nat) (alloc : Nat → Nat → Nat → Nat) (temp fh lh : Nat)
    (md : MountData) (r : FsResult) (t : Nat × Nat)
    (h : fsBody fuel alloc temp fh lh md = .ok r) (ht : r.table = some t) :
    r.firstHunk = fh ∧ r.totalHunks = lh - fh + 1 ∧ TableOK r.loader ∧
      r.allocs.length ≤ r.totalHunks ∧
      (r.seg = 0 → r.frees = r.allocs ++ [t]) ∧
      (r.seg ≠ 0 → r.frees = [t] ∧ r.allocs.length = r.totalHunks) := by
  unfold fsBody at h
  by_cases hov : lh - fh + 1 > 2147483647
  · rw [if_pos hov] at h
    simp at h
  · rw [if_neg hov] at h
    simp only at h
    by_cases hta : alloc 0 ((lh - fh + 1) * 8 % 4294967296) MEMF_CLEAR = 0
    · rw [if_pos hta] at h
      injection h with h
      subst h
      simp [FsResult.early] at ht
    · rw [if_neg hta] at h
      cases hpre : preAlloc alloc temp (lh - fh + 1) 32770 0 0 0
          { md := md, tbl := fun _ => RelocHunk.zero,
            tlen := (lh - fh + 1) * 8 % 4294967296 / 8, allocs := [], trace := [] } with
      | fuel => rw [hpre] at h; simp at h
      | fault => rw [hpre] at h; simp at h
      | ok x =>
        obtain ⟨v, fph, ld1⟩ := x
        rw [hpre] at h
        obtain ⟨q1, q2, q3, q4, q5, q6⟩ := preAlloc_spec alloc temp _ _ _ _ _ _ _ _ _ hpre
          (TableOK_zero md _) rfl (by decide) (Nat.zero_le _) (fun hh => absurd rfl hh)
        cases v with
        | false =>
          simp only at h
          obtain ⟨f1, f2, f3, f4, f5, f6, f7, _, f9⟩ := fsFinish_spec _ _ _ _ _ _ _ _ h
          obtain ⟨g1, g2⟩ := f9 rfl
          rw [f1] at ht
          injection ht with ht
          subst ht
          refine ⟨f5, f6, ?_, by rw [f2, f6]; exact q4, ?_, fun hne => absurd g1 hne⟩
          · intro i
            have := q1 i
            show (i < r.allocs.length → _) ∧ (r.allocs.length ≤ i → _)
            simp only [FsResult.loader]
            rw [f2, f3]
            exact this
          · intro _
            rw [f2]
            exact g2 q1 q4
        | true =>
          simp only at h
          cases hll : loadLoop temp fh (lh - fh + 1) fuel 0 none ld1 with
          | fuel => rw [hll] at h; simp at h
          | fault => rw [hll] at h; simp at h
          | ok y =>
            obtain ⟨ret, ld2⟩ := y
            rw [hll] at h
            simp only at h
            obtain ⟨p1, p2, p3, _⟩ := loadLoop_post fh (lh - fh + 1) temp _ _ _ _ _ _ hll
            obtain ⟨f1, f2, f3, f4, f5, f6, f7, f8, f9⟩ := fsFinish_spec _ _ _ _ _ _ _ _ h
            rw [f1] at ht
            injection ht with ht
            subst ht
            have hlen2 : ld2.allocs.length ≤ lh - fh + 1 := by rw [p1]; exact q4
            have hall : ld2.allocs.length = lh - fh + 1 := by rw [p1]; exact q5 rfl
            refine ⟨f5, f6, ?_, by rw [f2, f6]; exact hlen2, ?_, ?_⟩
            · intro i
              have := p3 q1 i
              show (i < r.allocs.length → _) ∧ (r.allocs.length ≤ i → _)
              simp only [FsResult.loader]
              rw [f2, f3]
              exact this
            · intro hseg
              cases ret with
              | false =>
                rw [f2]
                exact (f9 rfl).2 (p3 q1) hlen2
              | true =>
                obtain ⟨g1, _⟩ := f8 rfl
                rw [hseg] at g1
                have hne : ld1.allocs ≠ [] := by
                  intro he
                  rw [he] at q5
                  have := q5 rfl
                  simp at this
                exact absurd g1.symm (q6 hne)
            · intro hseg
              cases ret with
              | false => exact absurd (f9 rfl).1 hseg
              | true => exact ⟨(f8 rfl).2, by rw [f2, f6]; exact hall⟩

theorem TraceGood_nil (fh th : Nat) : TraceGood fh th [] := by
  intro c idx h
  simp at h

theorem fsBody_trace (fuel : Nat) (alloc : Nat → Nat → Nat → Nat) (temp fh lh : Nat)
    (md : MountData) (r : FsResult) (h : fsBody fuel alloc temp fh lh md = .ok r) :
    r.trace = [] ∨ (r.firstHunk = fh ∧ r.totalHunks = lh - fh + 1 ∧
      (TraceGood fh (lh - fh + 1) r.trace ∨
        (TraceEnds fh (lh - fh + 1) r.trace ∧ r.seg = 0))) := by
  unfold fsBody at h
  by_cases hov : lh - fh + 1 > 2147483647
  · rw [if_pos hov] at h
    simp at h
  · rw [if_neg hov] at h
    simp only at h
    by_cases hta : alloc 0 ((lh - fh + 1) * 8 % 4294967296) MEMF_CLEAR = 0
    · rw [if_pos hta] at h
      injection h with h
      subst h
      exact Or.inl rfl
    · rw [if_neg hta] at h
      cases hpre : preAlloc alloc temp (lh - fh + 1) 32770 0 0 0
          { md := md, tbl := fun _ => RelocHunk.zero,
            tlen := (lh - fh + 1) * 8 % 4294967296 / 8, allocs := [], trace := [] } with
      | fuel => rw [hpre] at h; simp at h
      | fault => rw [hpre] at h; simp at h
      | ok x =>
        obtain ⟨v, fph, ld1⟩ := x
        rw [hpre] at h
        have q := preAlloc_trace alloc temp _ _ _ _ _ _ _ _ _ hpre
        have q2 : ld1.trace = [] := q
        cases v with
        | false =>
          simp only at h
          obtain ⟨_, _, _, f4, _⟩ := fsFinish_spec _ _ _ _ _ _ _ _ h
          exact Or.inl (f4.trans q2)
        | true =>
          simp only at h
          cases hll : loadLoop temp fh (lh - fh + 1) fuel 0 none ld1 with
          | fuel => rw [hll] at h; simp at h
          | fault => rw [hll] at h; simp at h
          | ok y =>
            obtain ⟨ret, ld2⟩ := y
            rw [hll] at h
            simp only at h
            obtain ⟨_, _, _, p4⟩ := loadLoop_post fh (lh - fh + 1) temp _ _ _ _ _ _ hll
            obtain ⟨_, _, _, f4, f5, f6, _, _, f9⟩ := fsFinish_spec _ _ _ _ _ _ _ _ h
            have hg := p4 (by rw [q2]; exact TraceGood_nil _ _)
            right
            refine ⟨f5, f6, ?_⟩
            rw [f4]
            cases ret with
            | true => exact Or.inl (hg.1 rfl)
            | false =>
              rcases hg.2 rfl with hgood | hends
              · exact Or.inl hgood
              · exact Or.inr ⟨hends, (f9 rfl).1⟩

theorem fsrelocate_cases (fuel : Nat) (alloc : Nat → Nat → Nat → Nat) (temp : Nat)
    (md : MountData) (r : FsResult) (h : fsrelocate fuel alloc temp md = .ok r) :
    (r.table = none ∧ r.trace = [] ∧ r.seg = 0) ∨
      ∃ fh lh md5, fh ≤ lh ∧ fsBody fuel alloc temp fh lh md5 = .ok r := by
  unfold fsrelocate at h
  cases h0 : lseg_read_long md temp with
  | fuel => rw [h0] at h; simp at h
  | fault => rw [h0] at h; simp at h
  | ok x0 =>
    obtain ⟨v0, od, md1⟩ := x0
    rw [h0] at h
    cases v0 with
    | false =>
      simp only at h
      injection h with h
      subst h
      exact Or.inl ⟨rfl, rfl, rfl⟩
    | true =>
      simp only at h
      by_cases hhd : od.getD temp ≠ HUNK_HEADER
      · rw [if_pos hhd] at h
        injection h with h
        subst h
        exact Or.inl ⟨rfl, rfl, rfl⟩
      · rw [if_neg hhd] at h
        cases h1 : lseg_read_long md1 temp with
        | fuel => rw [h1] at h; simp at h
        | fault => rw [h1] at h; simp at h
        | ok x1 =>
          obtain ⟨v1, o1, md2⟩ := x1
          rw [h1] at h
          simp only at h
          cases h2 : lseg_read_long md2 temp with
          | fuel => rw [h2] at h; simp at h
          | fault => rw [h2] at h; simp at h
          | ok x2 =>
            obtain ⟨v2, o2, md3⟩ := x2
            rw [h2] at h
            simp only at h
            cases h3 : lseg_read_long md3 temp with
            | fuel => rw [h3] at h; simp at h
            | fault => rw [h3] at h; simp at h
            | ok x3 =>
              obtain ⟨v3, o3, md4⟩ := x3
              rw [h3] at h
              simp only at h
              cases h4 : lseg_read_long md4 temp with
              | fuel => rw [h4] at h; simp at h
              | fault => rw [h4] at h; simp at h
              | ok x4 =>
                obtain ⟨v4, o4, md5⟩ := x4
                rw [h4] at h
                simp only at h
                by_cases hchk : toLONG (o3.getD 4294967295) < 0 ∨
                    toLONG (o4.getD 4294967295) < 0 ∨
                    toLONG (o3.getD 4294967295) > toLONG (o4.getD 4294967295)
                · rw [if_pos hchk] at h
                  injection h with h
                  subst h
                  exact Or.inl ⟨rfl, rfl, rfl⟩
                · rw [if_neg hchk] at h
                  exact Or.inr ⟨_, _, md5, by omega, h⟩

theorem fsrelocate_balance (fuel : Nat) (alloc : Nat → Nat → Nat → Nat) (temp : Nat)
    (md : MountData) (r : FsResult) (t : Nat × Nat)
    (h : fsrelocate fuel alloc temp md = .ok r) (ht : r.table = some t) :
    TableOK r.loader ∧ r.allocs.length ≤ r.totalHunks ∧
      (r.seg = 0 → r.frees = r.allocs ++ [t]) ∧
      (r.seg ≠ 0 → r.frees = [t] ∧ r.allocs.length = r.totalHunks) := by
  rcases fsrelocate_cases fuel alloc temp md r h with ⟨hn, _, _⟩ | ⟨fh, lh, md5, _, hb⟩
  · rw [hn] at ht
    exact absurd ht (by simp)
  · exact (fsBody_spec fuel alloc temp fh lh md5 r t hb ht).2.2

theorem TraceEnds_last (fh th : Nat) (tr pre post : List LoadEv) (c idx : Nat)
    (he : TraceEnds fh th tr) (ht : tr = pre ++ LoadEv.group c idx :: post)
    (hb : BadTarget fh th idx) : post = [] := by
  obtain ⟨pre2, c2, idx2, h2, hg, _⟩ := he
  rcases List.eq_nil_or_concat post with hp | ⟨p, l, hp⟩
  · exact hp
  · exfalso
    rw [hp, h2, List.concat_eq_append] at ht
    have e : pre ++ LoadEv.group c idx :: (p ++ [l]) = (pre ++ LoadEv.group c idx :: p) ++ [l] := by
      simp
    rw [e] at ht
    obtain ⟨h3, _⟩ := List.append_inj' ht rfl
    apply hg c idx _ hb
    rw [h3]
    simp

theorem fsrelocate_bad_target (fuel : Nat) (alloc : Nat → Nat → Nat → Nat) (temp : Nat)
    (md : MountData) (r : FsResult) (pre post : List LoadEv) (c idx : Nat)
    (h : fsrelocate fuel alloc temp md = .ok r)
    (ht : r.trace = pre ++ LoadEv.group c idx :: post)
    (hb : BadTarget r.firstHunk r.totalHunks idx) : r.seg = 0 ∧ post = [] := by
  have hmem : LoadEv.group c idx ∈ r.trace := by
    rw [ht]
    simp
  rcases fsrelocate_cases fuel alloc temp md r h with ⟨_, hn, _⟩ | ⟨fh, lh, md5, _, hbody⟩
  · rw [hn] at hmem
    simp at hmem
  · rcases fsBody_trace fuel alloc temp fh lh md5 r hbody with hn | ⟨e1, e2, hgood | ⟨hends, hseg⟩⟩
    · rw [hn] at hmem
      simp at hmem
    · rw [e1, e2] at hb
      exact absurd hb (hgood c idx hmem)
    · rw [e1, e2] at hb
      exact ⟨hseg, TraceEnds_last fh _ r.trace pre post c idx hends ht hb⟩

theorem summary_ok (x : Run FsResult) (s : FsSummary)
    (h : Run.map FsResult.summary x = .ok s) : ∃ r, x = .ok r ∧ r.summary = s := by
  cases x with
  | ok r =>
    simp only [Run.map] at h
    injection h with h
    exact ⟨r, rfl, h⟩
  | fuel => simp [Run.map] at h
  | fault => simp [Run.map] at h

set_option maxRecDepth 1000000 in
theorem imageA_run :
    Run.map FsResult.summary (fsrelocate 20 allocPages 0 (loadState (lsegDisk imageA) 1))
      = .ok { seg := 8196, firstHunk := 1, totalHunks := 2, table := some (4096, 16),
              allocs := [(8192, 12), (12288, 12)], frees := [(4096, 16)],
              trace := [LoadEv.group 1 2, LoadEv.fix 0 1 0] } := by
  decide

set_option maxRecDepth 1000000 in
theorem imageB_run :
    Run.map FsResult.summary (fsrelocate 20 allocPages 0 (loadState (lsegDisk imageB) 1))
      = .ok { seg := 0, firstHunk := 1, totalHunks := 2, table := some (4096, 16),
              allocs := [(8192, 12), (12288, 12)],
              frees := [(8192, 12), (12288, 12), (4096, 16)],
              trace := [LoadEv.group 1 3] } := by
  decide

set_option maxRecDepth 1000000 in
theorem lsegDisk_good (words : List Nat)
    (h1 : wordBE (diskBuf (lsegDisk words) (blockOffset 1)) 0 = IDNAME_LOADSEG)
    (h2 : (beWords (diskBuf (lsegDisk words) (blockOffset 1)) (512 / 4)).sum % 4294967296 = 0) :
    BlockGood (lsegDisk words) 512 3 1 IDNAME_LOADSEG :=
  ⟨⟨0, by decide, rfl, fun j hj => absurd hj (by omega)⟩, fun _ => h1, h2⟩

set_option maxRecDepth 1000000 in
theorem imageA_chain :
    LsegChain (lsegDisk imageA) 512 3 1 [1] 4294967295 :=
  ⟨rfl, by decide, lsegDisk_good imageA (by decide) (by decide),
    (by decide : lsegNext (lsegDisk imageA) 1 = 4294967295)⟩

theorem imageA_inv : LsegInv (loadState (lsegDisk imageA) 1) [1] 4294967295 :=
  ⟨Or.inl rfl, by decide, by decide, imageA_chain, Or.inl rfl⟩

theorem ldOne_ok : TableOK ldOne := by
  intro i
  by_cases h : i = 0
  · subst h
    exact ⟨fun _ => ⟨rfl, by decide, rfl, rfl, by decide, fun _ => Nat.zero_lt_succ _⟩,
      fun hh => absurd hh (by decide)⟩
  · refine ⟨fun hh => ?_, fun _ => ?_⟩
    · have : i < 1 := hh
      omega
    · show (if i = 0 then hunkOne else RelocHunk.zero).hunkData = 0
      rw [if_neg h]
      rfl

theorem fsScan_some (dostype version : Nat) (newOnly : Bool) :
    ∀ (l : List FileSysEntry) (i : Nat),
      (∃ e, e ∈ l ∧ e.fse_DosType = dostype ∧ e.fse_Version ≥ version) →
      ∃ ref, fsScan dostype version newOnly l i = some ref ∧ (newOnly = true → ref = FseRef.null) := by
  intro l
  induction l with
  | nil =>
    intro i h
    obtain ⟨e, he, _⟩ := h
    simp at he
  | cons x xs ih =>
    intro i h
    simp only [fsScan]
    by_cases hx : x.fse_DosType = dostype ∧ x.fse_Version ≥ version
    · rw [if_pos hx]
      refine ⟨_, rfl, fun hn => ?_⟩
      rw [hn]
      rfl
    · rw [if_neg hx]
      apply ih
      obtain ⟨e, he, hm⟩ := h
      rcases List.mem_cons.mp he with h1 | h1
      · rw [h1] at hm
        exact absurd hm hx
      · exact ⟨e, h1, hm⟩

theorem fsScan_none (dostype version : Nat) (newOnly : Bool) :
    ∀ (l : List FileSysEntry) (i : Nat),
      (¬ ∃ e, e ∈ l ∧ e.fse_DosType = dostype ∧ e.fse_Version ≥ version) →
      fsScan dostype version newOnly l i = none := by
  intro l
  induction l with
  | nil =>
    intro i _
    rfl
  | cons x xs ih =>
    intro i h
    simp only [fsScan]
    rw [if_neg (fun hx => h ⟨x, List.mem_cons_self _ _, hx⟩)]
    exact ih _ (fun ⟨e, he, hm⟩ => h ⟨e, List.mem_cons_of_mem _ he, hm⟩)

theorem fsScan_not_fresh (dostype version : Nat) (newOnly : Bool) (e : FileSysEntry) :
    ∀ (l : List FileSysEntry) (i : Nat),
      fsScan dostype version newOnly l i ≠ some (FseRef.fresh e) := by
  intro l
  induction l with
  | nil =>
    intro i
    simp [fsScan]
  | cons x xs ih =>
    intro i
    simp only [fsScan]
    split
    · intro hh
      injection hh with hh
      cases newOnly <;> simp at hh
    · exact ih _

theorem patchLoop_total (fshb : Buf) (len : Nat) :
    ∀ (n fuel k pf : Nat) (fields : List Nat), pf < 2 ^ n → n < fuel → k + n ≤ 9 →
      ∃ out, patchLoop fshb len fuel k pf fields = .ok out := by
  intro n
  induction n with
  | zero =>
    intro fuel k pf fields hpf hf _
    obtain ⟨f, rfl⟩ : ∃ f, fuel = f + 1 := ⟨fuel - 1, by omega⟩
    have : pf = 0 := by omega
    subst this
    exact ⟨fields, by simp [patchLoop]⟩
  | succ n ih =>
    intro fuel k pf fields hpf hf hk
    obtain ⟨f, rfl⟩ : ∃ f, fuel = f + 1 := ⟨fuel - 1, by omega⟩
    by_cases h0 : pf = 0
    · subst h0
      exact ⟨fields, by simp [patchLoop]⟩
    · rw [patchLoop, if_pos h0, if_pos (by omega)]
      apply ih
      · rw [Nat.shiftRight_eq_div_pow, Nat.pow_one]
        rw [Nat.pow_succ] at hpf
        omega
      · omega
      · omega

theorem FSHDProcess_reg (reg : Option (List FileSysEntry)) (okFsr okFse : Bool)
    (creator : List Nat) (fshb : Option Buf) (dostype version : Nat) (newOnly : Bool)
    (ref : FseRef) (reg2 : Option (List FileSysEntry))
    (h : FSHDProcess reg okFsr okFse creator fshb dostype version newOnly = .ok (ref, reg2)) :
    regEntries reg2 = regEntries reg ∧
      ∀ e, ref = FseRef.fresh e → ∃ hb, fshb = some hb ∧ e.fse_DosType = fhb_DosType hb ∧
        e.fse_Version = fhb_Version hb ∧ e.fse_PatchFlags = fhb_PatchFlags hb ∧
        e.ln_Name = creator := by
  unfold FSHDProcess at h
  have hopen : regEntries (openFsr reg okFsr) = regEntries reg := by
    cases reg with
    | some l => rfl
    | none =>
      cases okFsr <;> rfl
  generalize hfsr : openFsr reg okFsr = fsr at h hopen
  cases fsr with
  | none =>
    simp only at h
    injection h with h
    injection h with h1 h2
    subst h1; subst h2
    exact ⟨hopen, fun e he => by simp at he⟩
  | some l =>
    simp only at h
    cases hsc : fsScan dostype version newOnly l 0 with
    | some r =>
      rw [hsc] at h
      simp only at h
      injection h with h
      injection h with h1 h2
      subst h2
      refine ⟨hopen, fun e he => ?_⟩
      rw [← h1] at he
      rw [he] at hsc
      exact absurd hsc (fsScan_not_fresh _ _ _ _ _ _)
    | none =>
      rw [hsc] at h
      simp only at h
      cases fshb with
      | none =>
        simp only at h
        injection h with h
        injection h with h1 h2
        subst h1; subst h2
        exact ⟨hopen, fun e he => by simp at he⟩
      | some hb =>
        simp only at h
        cases newOnly with
        | false =>
          simp only [Bool.false_eq_true, if_false] at h
          injection h with h
          injection h with h1 h2
          subst h1; subst h2
          exact ⟨hopen, fun e he => by simp at he⟩
        | true =>
          simp only [if_true] at h
          cases okFse with
          | false =>
            simp only [Bool.false_eq_true, if_false] at h
            injection h with h
            injection h with h1 h2
            subst h1; subst h2
            exact ⟨hopen, fun e he => by simp at he⟩
          | true =>
            simp only [if_true] at h
            cases hp : patchLoop hb creator.length 33 0 (fhb_PatchFlags hb) (List.replicate 9 0) with
            | fuel => rw [hp] at h; simp at h
            | fault => rw [hp] at h; simp at h
            | ok fields =>
              rw [hp] at h
              simp only at h
              injection h with h
              injection h with h1 h2
              subst h1; subst h2
              refine ⟨hopen, fun e he => ?_⟩
              injection he with he
              subst he
              exact ⟨hb, rfl, rfl, rfl, rfl, rfl⟩

theorem loadLong_xfer (dev : Device) (off len : Nat) (buf : Buf) (k : Nat) (h : 4 * k + 3 < len) :
    loadLong (xfer dev off len buf) (4 * k) = wordBE (diskBuf dev off) k := by
  simp only [loadLong, xfer, wordBE, diskBuf]
  rw [if_pos (by omega), if_pos (by omega), if_pos (by omega), if_pos (by omega)]

set_option maxRecDepth 1000000 in
theorem diskTwoParts_chain : PartChain diskTwoParts 512 3 1 [1, 2] :=
  ⟨rfl, by decide,
    ⟨⟨0, by decide, rfl, fun j hj => absurd hj (by omega)⟩, fun _ => by decide, by decide⟩,
    (by decide : partNext diskTwoParts 1 = 2), by decide,
    ⟨⟨0, by decide, rfl, fun j hj => absurd hj (by omega)⟩, fun _ => by decide, by decide⟩,
    (by decide : partNext diskTwoParts 2 = 4294967295)⟩

theorem retryLoop_attempts (dev : Device) (off len max : Nat) :
    ∀ (rest i : Nat) (buf : Buf) (log : List Nat), i + rest = max →
      ∃ n, n ≤ rest ∧
        (retryLoop dev off len max rest i buf log).2.2 = List.replicate n off ++ log ∧
        (∀ j, j + 1 < n → dev.err (i + j) off ≠ 0 ∧ dev.err (i + j) off = dev.ERROR_NOT_READY) ∧
        ((1 ≤ n ∧ dev.err (i + (n - 1)) off = 0 ∧
            (retryLoop dev off len max rest i buf log).1 < max) ∨
         (1 ≤ n ∧ dev.err (i + (n - 1)) off ≠ 0 ∧
            dev.err (i + (n - 1)) off ≠ dev.ERROR_NOT_READY ∧
            (retryLoop dev off len max rest i buf log).1 = max) ∨
         (n = rest ∧
            (∀ j, j < rest → dev.err (i + j) off ≠ 0 ∧
              dev.err (i + j) off = dev.ERROR_NOT_READY) ∧
            (retryLoop dev off len max rest i buf log).1 = max)) := by
  intro rest
  induction rest with
  | zero =>
    intro i buf log h
    refine ⟨0, le_refl _, rfl, fun j hj => absurd hj (by omega), Or.inr (Or.inr ⟨rfl, ?_, ?_⟩)⟩
    · intro j hj
      exact absurd hj (by omega)
    · show i = max
      omega
  | succ r ih =>
    intro i buf log h
    rw [retryLoop]
    simp only [ DoIO]
    by_cases h0 : dev.err i off = 0
    · rw [if_pos h0]
      simp only
      rw [if_pos trivial]
      refine ⟨1, by omega, rfl, fun j hj => absurd hj (by omega), Or.inl ⟨le_refl _, h0, ?_⟩⟩
      show i < max
      omega
    · rw [if_neg h0]
      simp only
      rw [if_neg h0]
      by_cases hn : dev.err i off = dev.ERROR_NOT_READY
      · rw [if_neg (fun hh => hh hn)]
        obtain ⟨n, hle, hlog, hprev, hcase⟩ := ih (i + 1) buf (off :: log) (by omega)
        refine ⟨n + 1, by omega, ?_, ?_, ?_⟩
        · rw [hlog, List.replicate_succ']
          simp
        · intro j hj
          cases j with
          | zero => exact ⟨h0, hn⟩
          | succ j =>
            have := hprev j (by omega)
            rw [show i + (j + 1) = i + 1 + j by omega]
            exact this
        · rcases hcase with ⟨h1, h2, h3⟩ | ⟨h1, h2, h3, h4⟩ | ⟨h1, h2, h3⟩
          · refine Or.inl ⟨by omega, ?_, h3⟩
            rw [show i + (n + 1 - 1) = i + 1 + (n - 1) by omega]
            exact h2
          · refine Or.inr (Or.inl ⟨by omega, ?_, ?_, h4⟩)
            · rw [show i + (n + 1 - 1) = i + 1 + (n - 1) by omega]
              exact h2
            · rw [show i + (n + 1 - 1) = i + 1 + (n - 1) by omega]
              exact h3
          · refine Or.inr (Or.inr ⟨by omega, ?_, h3⟩)
            intro j hj
            cases j with
            | zero => exact ⟨h0, hn⟩
            | succ j =>
              have := h2 j (by omega)
              rw [show i + (j + 1) = i + 1 + j by omega]
              exact this
      · rw [if_pos hn]
        refine ⟨1, by omega, rfl, fun j hj => absurd hj (by omega),
          Or.inr (Or.inl ⟨le_refl _, h0, hn, rfl⟩)⟩

theorem scanLoop_skip (env : Env) (f r i : Nat) (w : Walk)
    (hbs : w.md.blocksize = 512 ∨ w.md.blocksize = 2048)
    (hno : ¬ RdbAt w.md.request w.md.blocksize (maxRetries w.md) i) :
    ∃ b L, scanLoop env f (r + 1) i w
        = scanLoop env f r (i + 1) { w with pbuf := b, md := { w.md with iolog := L } } ∧
      ∀ o, o ∈ L → o = blockOffset i ∨ o ∈ w.md.iolog := by
  by_cases hg : BlockGood w.md.request w.md.blocksize (maxRetries w.md) i 4294967295
  · obtain ⟨L, hr, hl⟩ := (readblock_cases w.pbuf i 4294967295 w.md hbs).1 hg
    have hid : ¬ loadLong (xfer w.md.request (blockOffset i) w.md.blocksize w.pbuf) 0
        = IDNAME_RIGIDDISK := by
      rw [loadLong_xfer _ _ _ _ 0 (by omega)]
      intro hh
      exact hno ⟨hg, hh⟩
    rw [scanLoop, hr]
    simp only
    rw [if_neg hid]
    exact ⟨_, L, rfl, hl⟩
  · obtain ⟨b, L, hr, hl⟩ := (readblock_cases w.pbuf i 4294967295 w.md hbs).2 hg
    rw [scanLoop, hr]
    exact ⟨b, L, rfl, hl⟩

theorem scanLoop_hit (env : Env) (f r i : Nat) (w : Walk)
    (hbs : w.md.blocksize = 512 ∨ w.md.blocksize = 2048)
    (hrdb : RdbAt w.md.request w.md.blocksize (maxRetries w.md) i) :
    ∃ L, scanLoop env f (r + 1) i w
        = ParseRDSK env f
            { w with pbuf := xfer w.md.request (blockOffset i) w.md.blocksize w.pbuf,
                     md := { w.md with iolog := L } } ∧
      ∀ o, o ∈ L → o = blockOffset i ∨ o ∈ w.md.iolog := by
  obtain ⟨L, hr, hl⟩ := (readblock_cases w.pbuf i 4294967295 w.md hbs).1 hrdb.1
  have hid : loadLong (xfer w.md.request (blockOffset i) w.md.blocksize w.pbuf) 0
      = IDNAME_RIGIDDISK := by
    rw [loadLong_xfer _ _ _ _ 0 (by omega)]
    exact hrdb.2
  rw [scanLoop, hr]
  simp only
  rw [if_pos hid]
  exact ⟨L, rfl, hl⟩

theorem scanLoop_none (env : Env) (f : Nat) (dev : Device) (bs : Nat) (ss : Bool)
    (hbs : bs = 512 ∨ bs = 2048) :
    ∀ (rest i : Nat) (w : Walk),
      w.md.request = dev → w.md.blocksize = bs → w.md.slowSpinup = ss →
      (∀ j, i ≤ j → j < i + rest → ¬ RdbAt dev bs (if ss = true then 15 else 3) j) →
      ∃ b L, scanLoop env f rest i w
          = .ok (-1, { w with pbuf := b, md := { w.md with iolog := L } }) ∧
        ∀ o, o ∈ L → o ∈ w.md.iolog ∨ ∃ j, i ≤ j ∧ j < i + rest ∧ o = blockOffset j := by
  intro rest
  induction rest with
  | zero =>
    intro i w _ _ _ _
    exact ⟨w.pbuf, w.md.iolog, rfl, fun o ho => Or.inl ho⟩
  | succ r ih =>
    intro i w h1 h2 h3 hno
    have hmr : maxRetries w.md = (if ss = true then 15 else 3) := by
      unfold maxRetries
      rw [h3]
    obtain ⟨b, L, hs, hl⟩ := scanLoop_skip env f r i w (by rw [h2]; exact hbs)
      (by rw [h1, h2, hmr]; exact hno i (le_refl _) (by omega))
    obtain ⟨b2, L2, hs2, hl2⟩ := ih (i + 1) { w with pbuf := b, md := { w.md with iolog := L } }
      h1 h2 h3 (fun j hj hj2 => hno j (by omega) (by omega))
    rw [hs, hs2]
    refine ⟨b2, L2, rfl, ?_⟩
    intro o ho
    rcases hl2 o ho with hh | ⟨j, g1, g2, g3⟩
    · rcases hl o hh with h4 | h4
      · exact Or.inr ⟨i, le_refl _, by omega, h4⟩
      · exact Or.inl h4
    · exact Or.inr ⟨j, by omega, by omega, g3⟩

theorem scanLoop_first (env : Env) (f i0 : Nat) (dev : Device) (bs : Nat) (ss : Bool)
    (hbs : bs = 512 ∨ bs = 2048)
    (hrdb : RdbAt dev bs (if ss = true then 15 else 3) i0) :
    ∀ (d i rest : Nat) (w : Walk), i + d = i0 → i0 < i + rest →
      w.md.request = dev → w.md.blocksize = bs → w.md.slowSpinup = ss →
      (∀ j, i ≤ j → j < i0 → ¬ RdbAt dev bs (if ss = true then 15 else 3) j) →
      ∃ buf L, scanLoop env f rest i w
          = ParseRDSK env f { w with pbuf := xfer dev (blockOffset i0) bs buf,
                                     md := { w.md with iolog := L } } ∧
        ∀ o, o ∈ L → o ∈ w.md.iolog ∨ ∃ j, i ≤ j ∧ j ≤ i0 ∧ o = blockOffset j := by
  intro d
  induction d with
  | zero =>
    intro i rest w hi hrest h1 h2 h3 _
    obtain ⟨r, rfl⟩ : ∃ r, rest = r + 1 := ⟨rest - 1, by omega⟩
    have hmr : maxRetries w.md = (if ss = true then 15 else 3) := by
      unfold maxRetries
      rw [h3]
    have hi2 : i = i0 := by omega
    subst hi2
    obtain ⟨L, hs, hl⟩ := scanLoop_hit env f r i w (by rw [h2]; exact hbs)
      (by rw [h1, h2, hmr]; exact hrdb)
    rw [hs, h1, h2]
    refine ⟨_, L, rfl, ?_⟩
    intro o ho
    rcases hl o ho with h4 | h4
    · exact Or.inr ⟨i, le_refl _, le_refl _, h4⟩
    · exact Or.inl h4
  | succ d ih =>
    intro i rest w hi hrest h1 h2 h3 hlow
    obtain ⟨r, rfl⟩ : ∃ r, rest = r + 1 := ⟨rest - 1, by omega⟩
    have hmr : maxRetries w.md = (if ss = true then 15 else 3) := by
      unfold maxRetries
      rw [h3]
    obtain ⟨b, L, hs, hl⟩ := scanLoop_skip env f r i w (by rw [h2]; exact hbs)
      (by rw [h1, h2, hmr]; exact hlow i (le_refl _) (by omega))
    obtain ⟨buf, L2, hq, hl2⟩ := ih (i + 1) r { w with pbuf := b, md := { w.md with iolog := L } }
      (by omega) (by omega) h1 h2 h3 (fun j hj => hlow j (by omega))
    rw [hs, hq]
    refine ⟨buf, L2, rfl, ?_⟩
    intro o ho
    rcases hl2 o ho with hh | ⟨j, g1, g2, g3⟩
    · rcases hl o hh with h4 | h4
      · exact Or.inr ⟨i, le_refl _, by omega, h4⟩
      · exact Or.inl h4
    · exact Or.inr ⟨j, by omega, g2, g3⟩

theorem blankDisk_no_rdb (bs maxr i : Nat) : ¬ RdbAt (blockDisk []) bs maxr i := by
  intro h
  have h2 := h.2
  simp [wordBE, diskBuf, blockDisk, IDNAME_RIGIDDISK] at h2

theorem sum_range_update (f g : Nat → Nat) (k0 : Nat) :
    ∀ n, k0 < n → (∀ j, j ≠ k0 → f j = g j) →
      ((List.range n).map f).sum + g k0 = ((List.range n).map g).sum + f k0 := by
  intro n
  induction n with
  | zero => intro h; exact absurd h (Nat.not_lt_zero _)
  | succ n ih =>
    intro hk hfg
    rw [List.range_succ, List.map_append, List.map_append, List.sum_append, List.sum_append]
    simp only [List.map_cons, List.map_nil, List.sum_cons, List.sum_nil, Nat.add_zero]
    by_cases hkn : k0 = n
    · subst hkn
      have : (List.range k0).map f = (List.range k0).map g := by
        apply List.map_congr_left
        intro j hj
        rw [List.mem_range] at hj
        exact hfg j (by omega)
      rw [this]
      omega
    · have h1 := ih (by omega) hfg
      have h2 := hfg n (fun h => hkn h.symm)
      omega

theorem diskBuf_poke (dev : Device) (off k v j : Nat) :
    diskBuf (pokeByte dev (off + k) v) off j
      = if j = k then v % 256 else diskBuf dev off j := by
  unfold diskBuf pokeByte
  simp only
  by_cases h : j = k
  · rw [if_pos h, if_pos (by omega)]
  · rw [if_neg h, if_neg (by omega)]

theorem wordBE_poke_other (dev : Device) (off k v j : Nat) (h : j ≠ k / 4) :
    wordBE (diskBuf (pokeByte dev (off + k) v) off) j = wordBE (diskBuf dev off) j := by
  unfold wordBE
  rw [diskBuf_poke, diskBuf_poke, diskBuf_poke, diskBuf_poke]
  rw [if_neg (by omega), if_neg (by omega), if_neg (by omega), if_neg (by omega)]

theorem wordBE_poke_same (dev : Device) (off k v : Nat)
    (hv : v % 256 ≠ dev.byte (off + k) % 256) :
    wordBE (diskBuf (pokeByte dev (off + k) v) off) (k / 4) ≠ wordBE (diskBuf dev off) (k / 4) := by
  unfold wordBE
  rw [diskBuf_poke, diskBuf_poke, diskBuf_poke, diskBuf_poke]
  have hv2 : v % 256 ≠ diskBuf dev off k := hv
  have h0 : diskBuf dev off (4 * (k / 4)) < 256 := Nat.mod_lt _ (by norm_num)
  have h1 : diskBuf dev off (4 * (k / 4) + 1) < 256 := Nat.mod_lt _ (by norm_num)
  have h2 : diskBuf dev off (4 * (k / 4) + 2) < 256 := Nat.mod_lt _ (by norm_num)
  have h3 : diskBuf dev off (4 * (k / 4) + 3) < 256 := Nat.mod_lt _ (by norm_num)
  have hlt : v % 256 < 256 := Nat.mod_lt _ (by norm_num)
  have hc : k % 4 = 0 ∨ k % 4 = 1 ∨ k % 4 = 2 ∨ k % 4 = 3 := by omega
  rcases hc with hc | hc | hc | hc
  · have e : 4 * (k / 4) = k := by omega
    rw [if_pos e, if_neg (by omega), if_neg (by omega), if_neg (by omega)]
    rw [e] at h0 ⊢
    omega
  · have e : 4 * (k / 4) + 1 = k := by omega
    rw [if_neg (by omega), if_pos e, if_neg (by omega), if_neg (by omega)]
    rw [e] at h1 ⊢
    omega
  · have e : 4 * (k / 4) + 2 = k := by omega
    rw [if_neg (by omega), if_neg (by omega), if_pos e, if_neg (by omega)]
    rw [e] at h2 ⊢
    omega
  · have e : 4 * (k / 4) + 3 = k := by omega
    rw [if_neg (by omega), if_neg (by omega), if_neg (by omega), if_pos e]
    rw [e] at h3 ⊢
    omega

theorem BlockGood_poke (dev : Device) (bs maxr b k v id id2 : Nat)
    (hbs : bs = 512 ∨ bs = 2048)
    (hgood : BlockGood dev bs maxr b id) (hk : k < bs)
    (hv : v % 256 ≠ dev.byte (blockOffset b + k) % 256) :
    ¬ BlockGood (pokeByte dev (blockOffset b + k) v) bs maxr b id2 := by
  intro hbad
  have s1 := hgood.2.2
  have s2 := hbad.2.2
  unfold beWords at s1 s2
  have hupd := sum_range_update
    (wordBE (diskBuf (pokeByte dev (blockOffset b + k) v) (blockOffset b)))
    (wordBE (diskBuf dev (blockOffset b))) (k / 4) (bs / 4) (by omega)
    (fun j hj => wordBE_poke_other dev (blockOffset b) k v j hj)
  have hne := wordBE_poke_same dev (blockOffset b) k v hv
  have l1 := wordBE_diskBuf_lt dev (blockOffset b) (k / 4)
  have l2 := wordBE_diskBuf_lt (pokeByte dev (blockOffset b + k) v) (blockOffset b) (k / 4)
  omega

theorem storeLongs_other (ws : List Nat) : ∀ (mem : Buf) (p i : Nat),
    (i < p ∨ p + 4 * ws.length ≤ i) → storeLongs mem p ws i = mem i := by
  induction ws with
  | nil => intro mem p i _; rfl
  | cons w ws ih =>
    intro mem p i h
    rw [List.length_cons] at h
    simp only [storeLongs]
    rw [ih _ _ _ (by omega)]
    exact storeLong_other _ _ _ _ (by omega)

theorem loadLong_congr (m1 m2 : Buf) (p : Nat)
    (h : ∀ j, p ≤ j → j < p + 4 → m1 j = m2 j) : loadLong m1 p = loadLong m2 p := by
  unfold loadLong
  rw [h p (le_refl _) (by omega), h (p + 1) (by omega) (by omega),
    h (p + 2) (by omega) (by omega), h (p + 3) (by omega) (by omega)]

theorem storeLongs_get (ws : List Nat) : ∀ (mem : Buf) (p j : Nat), j < ws.length →
    (∀ w, w ∈ ws → w < 4294967296) →
    loadLong (storeLongs mem p ws) (p + 4 * j) = ws.getD j 0 := by
  induction ws with
  | nil => intro mem p j h; exact absurd h (Nat.not_lt_zero _)
  | cons w ws ih =>
    intro mem p j hj hlt
    simp only [storeLongs]
    cases j with
    | zero =>
      have e : loadLong (storeLongs (storeLong mem p w) (p + 4) ws) (p + 4 * 0)
          = loadLong (storeLong mem p w) p := by
        apply loadLong_congr
        intro i h1 h2
        exact storeLongs_other ws _ _ _ (by omega)
      rw [e, storeLong_same _ _ _ (hlt w (List.mem_cons_self _ _))]
      rfl
    | succ j =>
      rw [List.length_cons] at hj
      have := ih (storeLong mem p w) (p + 4) j (by omega)
        (fun x hx => hlt x (List.mem_cons_of_mem _ hx))
      rw [show p + 4 * (j + 1) = p + 4 + 4 * j by omega, this]
      rfl

theorem relocOdd_other (mem : Buf) (p target j : Nat) (h : j < p ∨ p + 4 ≤ j) :
    relocOdd mem p target j = mem j := by
  unfold relocOdd setByte
  show (if j = p + 3 then _ else if j = p + 2 then _ else if j = p + 1 then _
    else if j = p then _ else mem j) = mem j
  rw [if_neg (by omega), if_neg (by omega), if_neg (by omega), if_neg (by omega)]

theorem relocOne_head (rh rh2 : RelocHunk) (target o : Nat)
    (h : relocOne rh target o = .ok (some rh2)) :
    (∀ j, j < 8 → rh2.mem j = rh.mem j) := by
  unfold relocOne at h
  split at h
  · simp at h
  · split at h
    · split at h
      · injection h with h; injection h with h; subst h
        intro j hj
        exact relocOdd_other _ _ _ _ (by omega)
      · injection h with h; injection h with h; subst h
        intro j hj
        exact storeLong_other _ _ _ _ (by omega)
    · simp at h

theorem StepKeeps_refl (cur : Nat) (ld : Loader) : StepKeeps cur ld ld :=
  ⟨fun _ _ => rfl, fun _ _ => rfl, rfl, rfl⟩

theorem StepKeeps_trans (cur : Nat) {a b c : Loader} (h1 : StepKeeps cur a b)
    (h2 : StepKeeps cur b c) : StepKeeps cur a c :=
  ⟨fun i hi => (h2.1 i hi).trans (h1.1 i hi), fun j hj => (h2.2.1 j hj).trans (h1.2.1 j hj),
    h2.2.2.1.trans h1.2.2.1, h2.2.2.2.trans h1.2.2.2⟩

theorem relocOffsets_keeps (short : Bool) (temp cur tgt target : Nat) :
    ∀ (relocCnt : Nat) (ld : Loader) (v : Bool) (ld2 : Loader),
      relocOffsets short temp cur tgt target relocCnt ld = .ok (v, ld2) →
      StepKeeps cur ld ld2 := by
  intro relocCnt
  induction relocCnt with
  | zero =>
    intro ld v ld2 h
    rw [relocOffsets] at h
    injection h with h; injection h with _ h; subst h
    exact StepKeeps_refl _ _
  | succ n ih =>
    intro ld v ld2 h
    rw [relocOffsets] at h
    split at h
    · injection h with h; injection h with _ h; subst h
      exact StepKeeps_refl _ _
    · try simp only at h
      split at h
      · injection h with h; injection h with _ h; subst h
        exact StepKeeps_refl _ _
      · rename_i rh hro
        have k := relocOne_keeps _ _ _ _ hro
        have hd := relocOne_head _ _ _ _ hro
        have h2 := ih _ _ _ h
        refine StepKeeps_trans cur ?_ h2
        refine ⟨fun i hi => ?_, fun j hj => ?_, ?_, ?_⟩
        · show setHunk ld.tbl cur rh i = ld.tbl i
          unfold setHunk
          rw [if_neg hi]
        · show (setHunk ld.tbl cur rh cur).mem j = _
          unfold setHunk
          rw [if_pos rfl]
          exact hd j hj
        · show (setHunk ld.tbl cur rh cur).hunkSize = _
          unfold setHunk
          rw [if_pos rfl]
          exact k.1
        · show (setHunk ld.tbl cur rh cur).hunkData = _
          unfold setHunk
          rw [if_pos rfl]
          exact k.2.1
      · exact Run.noConfusion h
      · exact Run.noConfusion h
    · exact Run.noConfusion h
    · exact Run.noConfusion h

theorem relocGroups_keeps (short : Bool) (temp firstHunk totalHunks cur : Nat) :
    ∀ (fuel : Nat) (ld : Loader) (v : Bool) (ld2 : Loader),
      relocGroups short temp firstHunk totalHunks cur fuel ld = .ok (v, ld2) →
      StepKeeps cur ld ld2 := by
  intro fuel
  induction fuel with
  | zero => intro ld v ld2 h; exact Run.noConfusion h
  | succ n ih =>
    intro ld v ld2 h
    rw [relocGroups] at h
    split at h
    · injection h with h; injection h with _ h; subst h
      exact StepKeeps_refl _ _
    · try simp only at h
      split at h
      · injection h with h; injection h with _ h; subst h
        exact StepKeeps_refl _ _
      · split at h
        · injection h with h; injection h with _ h; subst h
          exact StepKeeps_refl _ _
        · try simp only at h
          split at h
          · injection h with h; injection h with _ h; subst h
            exact StepKeeps_refl _ _
          · split at h
            · split at h
              · rename_i ho
                have h3 := relocOffsets_keeps _ _ _ _ _ _ _ _ _ ho
                exact StepKeeps_trans cur h3 (ih _ _ _ h)
              · rename_i ho
                have h3 := relocOffsets_keeps _ _ _ _ _ _ _ _ _ ho
                injection h with h; injection h with _ h; subst h
                exact h3
              · exact Run.noConfusion h
              · exact Run.noConfusion h
            · exact Run.noConfusion h
            · exact Run.noConfusion h
        · exact Run.noConfusion h
        · exact Run.noConfusion h
    · exact Run.noConfusion h
    · exact Run.noConfusion h

theorem loadHunk_keeps (temp hunkType cur : Nat) (ld : Loader) (v : Bool) (ld2 : Loader)
    (h : loadHunk temp hunkType cur ld = .ok (v, ld2)) : StepKeeps cur ld ld2 := by
  unfold loadHunk at h
  split at h
  · injection h with h; injection h with _ h; subst h
    exact StepKeeps_refl _ _
  · try simp only at h
    split at h
    · injection h with h; injection h with _ h; subst h
      exact StepKeeps_refl _ _
    · split at h
      · split at h
        · split at h
          · injection h with h; injection h with _ h; subst h
            refine ⟨fun i hi => ?_, fun j hj => ?_, ?_, ?_⟩
            · show setHunk ld.tbl cur _ i = ld.tbl i
              unfold setHunk
              rw [if_neg hi]
            · show (setHunk ld.tbl cur _ cur).mem j = _
              unfold setHunk
              rw [if_pos rfl]
              exact storeLongs_other _ _ _ _ (by omega)
            · show (setHunk ld.tbl cur _ cur).hunkSize = _
              unfold setHunk
              rw [if_pos rfl]
            · show (setHunk ld.tbl cur _ cur).hunkData = _
              unfold setHunk
              rw [if_pos rfl]
          · exact Run.noConfusion h
        · exact Run.noConfusion h
        · exact Run.noConfusion h
      · injection h with h; injection h with _ h; subst h
        exact StepKeeps_refl _ _
  · exact Run.noConfusion h
  · exact Run.noConfusion h

theorem StepKeeps_unloaded (cur k : Nat) (ld ld2 : Loader) (h : StepKeeps cur ld ld2)
    (hk : cur < k) (hu : Unloaded ld k) : Unloaded ld2 k := by
  intro i hi
  rw [h.1 i (by omega)]
  exact hu i hi

theorem StepKeeps_head (cur : Nat) (ld ld2 : Loader) (h : StepKeeps cur ld ld2) :
    HeadKeep ld ld2 := by
  intro i
  by_cases hi : i = cur
  · subst hi
    exact ⟨h.2.1, h.2.2.1, h.2.2.2⟩
  · rw [h.1 i hi]
    exact ⟨fun _ _ => rfl, rfl, rfl⟩

theorem Run_map_ok {α β : Type} (f : α → β) (x : Run α) (s : β)
    (h : Run.map f x = .ok s) : ∃ r, x = .ok r ∧ f r = s := by
  cases x with
  | ok r =>
    simp only [Run.map] at h
    injection h with h
    exact ⟨r, rfl, h⟩
  | fuel => simp [Run.map] at h
  | fault => simp [Run.map] at h

theorem preAlloc_unloaded (alloc : Nat → Nat → Nat → Nat) (temp totalHunks : Nat) :
    ∀ (fuel : Nat) (hunkCnt : Int) (prevChunk fph : Nat) (ld : Loader) (v : Bool) (f : Nat)
      (ld2 : Loader),
      preAlloc alloc temp totalHunks fuel hunkCnt prevChunk fph ld = .ok (v, f, ld2) →
      Unloaded ld 0 → Unloaded ld2 0 := by
  intro fuel
  induction fuel with
  | zero => intro hunkCnt prevChunk fph ld v f ld2 h; exact Run.noConfusion h
  | succ n ih =>
    intro hunkCnt prevChunk fph ld v f ld2 h hu
    rw [preAlloc] at h
    split at h
    · split at h
      · rename_i rh hat
        have hrh := (hunkAt_ok _ _ _ hat).2.2
        split at h
        · injection h with h; injection h with _ h; injection h with _ h; subst h
          exact hu
        · try simp only at h
          split at h
          · injection h with h; injection h with _ h; injection h with _ h; subst h
            exact hu
          · split at h
            · injection h with h; injection h with _ h; injection h with _ h; subst h
              intro i hi j hj
              show (setHunk ld.tbl hunkCnt.toNat _ i).mem j = 0
              unfold setHunk
              split
              · show rh.mem j = 0
                rw [hrh]
                exact hu _ (Nat.zero_le _) j hj
              · exact hu i hi j hj
            · split at h
              · exact Run.noConfusion h
              · refine ih _ _ _ _ _ _ _ h ?_
                intro i hi j hj
                show (setHunk ld.tbl hunkCnt.toNat _ i).mem j = 0
                unfold setHunk
                split
                · show storeLong (storeLong (fun _ => 0) 0 _) 4 _ j = 0
                  rw [storeLong_other _ _ _ _ (by omega), storeLong_other _ _ _ _ (by omega)]
                · exact hu i hi j hj
          · exact Run.noConfusion h
          · exact Run.noConfusion h
        · exact Run.noConfusion h
        · exact Run.noConfusion h
      · exact Run.noConfusion h
      · exact Run.noConfusion h
    · injection h with h; injection h with _ h; injection h with _ h; subst h
      exact hu

theorem loadHunk_cases (temp ty cur n : Nat) (ld : Loader) (md1 : MountData)
    (blocks : List Nat) (e : Nat)
    (hinv : LsegInv ld.md blocks e)
    (hcount : lseg_read_long ld.md temp = .ok (true, some n, md1))
    (hok : TableOK ld) (hcur : cur < ld.allocs.length) (hz : DataZero (ld.tbl cur)) :
    ∃ rest, LsegInv md1 rest e ∧
      (n > (ld.tbl cur).hunkSize →
        loadHunk temp ty cur ld = .ok (false, { ld with md := md1 })) ∧
      (n ≤ (ld.tbl cur).hunkSize → ty ≠ HUNK_BSS → n ≤ (lsegUnread md1 rest).length →
        ∃ ld2, loadHunk temp ty cur ld = .ok (true, ld2) ∧
          (∀ j, j < n →
            loadLong (ld2.tbl cur).mem (8 + 4 * j) = (lsegUnread md1 rest).getD j 0) ∧
          (∀ j, n ≤ j → loadLong (ld2.tbl cur).mem (8 + 4 * j) = 0)) ∧
      (n ≤ (ld.tbl cur).hunkSize → ty = HUNK_BSS →
        loadHunk temp ty cur ld = .ok (true, { ld with md := md1 })) := by
  obtain ⟨_, _, rest, hinv1, _, _⟩ := (lseg_units_spec temp ld.md blocks e hinv).2.2.1 n md1 hcount
  refine ⟨rest, hinv1, ?_, ?_, ?_⟩
  · intro hgt
    unfold loadHunk
    rw [hcount]
    simp only [Option.getD_some]
    rw [if_pos hgt]
  · intro hle hty hlen
    obtain ⟨hbs, hwf, _, hch, _⟩ := hinv1
    obtain ⟨md2, hr, _, _⟩ := (lseg_read_longs_spec md1 rest e n hbs hwf hch).1 hlen
    have hm := ((hok cur).1 hcur).2.2.2.1
    have hlt : ∀ w, w ∈ (lsegUnread md1 rest).take n → w < 4294967296 :=
      fun w hw => lsegUnread_lt md1 rest w (List.mem_of_mem_take hw)
    have hlen2 : ((lsegUnread md1 rest).take n).length = n := by
      rw [List.length_take]
      omega
    refine ⟨{ ld with md := md2,
                      tbl := setHunk ld.tbl cur
                        { ld.tbl cur with
                          mem := storeLongs (ld.tbl cur).mem 8 ((lsegUnread md1 rest).take n) } },
      ?_, ?_, ?_⟩
    · unfold loadHunk
      rw [hcount]
      simp only [Option.getD_some]
      rw [if_neg (by omega), if_pos hty, hr]
      simp only
      rw [if_pos (Or.inr (by rw [hlen2, hm]; omega))]
    · intro j hj
      show loadLong (setHunk ld.tbl cur _ cur).mem (8 + 4 * j) = _
      unfold setHunk
      rw [if_pos rfl]
      show loadLong (storeLongs (ld.tbl cur).mem 8 ((lsegUnread md1 rest).take n)) (8 + 4 * j) = _
      rw [storeLongs_get _ _ _ _ (by rw [hlen2]; exact hj) hlt]
      rw [List.getD_eq_getElem?_getD, List.getD_eq_getElem?_getD, List.getElem?_take_of_lt hj]
    · intro j hj
      show loadLong (setHunk ld.tbl cur _ cur).mem (8 + 4 * j) = _
      unfold setHunk
      rw [if_pos rfl]
      show loadLong (storeLongs (ld.tbl cur).mem 8 ((lsegUnread md1 rest).take n)) (8 + 4 * j) = _
      have e0 : loadLong (storeLongs (ld.tbl cur).mem 8 ((lsegUnread md1 rest).take n))
          (8 + 4 * j) = loadLong (ld.tbl cur).mem (8 + 4 * j) := by
        apply loadLong_congr
        intro i h1 h2
        exact storeLongs_other _ _ _ _ (by rw [hlen2]; omega)
      rw [e0]
      unfold loadLong
      rw [hz _ (by omega), hz _ (by omega), hz _ (by omega), hz _ (by omega)]
  · intro hle hty
    unfold loadHunk
    rw [hcount]
    simp only [Option.getD_some]
    rw [if_neg (by omega), if_neg (fun h => h hty)]

theorem loadLoop_load_fails (temp fh th fuel : Nat) (hunkCnt : Int) (rh : Option Nat)
    (ld ld2 : Loader) (ty : Nat) (mdT : MountData)
    (htok : lseg_read_long ld.md temp = .ok (true, some ty, mdT))
    (hty : ty = HUNK_CODE ∨ ty = HUNK_DATA ∨ ty = HUNK_BSS)
    (h0 : 0 ≤ hunkCnt) (hlt : hunkCnt < (th : Int)) (htl : hunkCnt.toNat < ld.tlen)
    (hl : loadHunk temp ty hunkCnt.toNat { ld with md := mdT } = .ok (false, ld2)) :
    loadLoop temp fh th (fuel + 1) hunkCnt rh ld = .ok (false, ld2) := by
  rw [loadLoop, if_pos (by omega), htok]
  simp only [Option.getD_some]
  rw [if_pos hty, if_neg (by omega)]
  have hat : hunkAt { ld with md := mdT } hunkCnt = .ok (ld.tbl hunkCnt.toNat) := by
    unfold hunkAt
    rw [if_neg (by omega), if_pos htl]
  rw [hat]
  simp only
  rw [hl]

set_option maxRecDepth 1000000 in
theorem ldCount_chain : LsegChain (lsegDisk [1, 305419896]) 512 3 1 [1] 4294967295 :=
  ⟨rfl, by decide, lsegDisk_good [1, 305419896] (by decide) (by decide),
    (by decide : lsegNext (lsegDisk [1, 305419896]) 1 = 4294967295)⟩

theorem ldCount_inv : LsegInv ldCount.md [1] 4294967295 :=
  ⟨Or.inl rfl, by decide, by decide, ldCount_chain, Or.inl rfl⟩

set_option maxRecDepth 1000000 in
theorem ldCount_read :
    ∃ md1, lseg_read_long ldCount.md 0 = .ok (true, some 1, md1) := by
  have h : Run.map (fun x => (x.1, x.2.1)) (lseg_read_long ldCount.md 0)
      = .ok (true, some 1) := by decide
  obtain ⟨⟨v, o, md1⟩, hr, hs⟩ := Run_map_ok _ _ _ h
  injection hs with h1 h2
  subst h1; subst h2
  exact ⟨md1, hr⟩

theorem ldCount_zero : DataZero (ldCount.tbl 0) := fun _ _ => rfl

theorem HeadKeep_refl (ld : Loader) : HeadKeep ld ld :=
  fun _ => ⟨fun _ _ => rfl, rfl, rfl⟩

theorem HeadKeep_trans {a b c : Loader} (h1 : HeadKeep a b) (h2 : HeadKeep b c) :
    HeadKeep a c :=
  fun i => ⟨fun j hj => ((h2 i).1 j hj).trans ((h1 i).1 j hj),
    (h2 i).2.1.trans (h1 i).2.1, (h2 i).2.2.trans (h1 i).2.2⟩

theorem loadLoop_head (temp firstHunk totalHunks : Nat) :
    ∀ (fuel : Nat) (hunkCnt : Int) (rh : Option Nat) (ld : Loader) (v : Bool) (ld2 : Loader),
      loadLoop temp firstHunk totalHunks fuel hunkCnt rh ld = .ok (v, ld2) →
      HeadKeep ld ld2 := by
  intro fuel
  induction fuel with
  | zero => intro hunkCnt rh ld v ld2 h; exact Run.noConfusion h
  | succ n ih =>
    intro hunkCnt rh ld v ld2 h
    rw [loadLoop] at h
    split at h
    · split at h
      · split at h
        · injection h with h; injection h with _ h; subst h
          exact HeadKeep_refl _
        · injection h with h; injection h with _ h; subst h
          exact HeadKeep_refl _
      · try simp only at h
        split at h
        · split at h
          · injection h with h; injection h with _ h; subst h
            exact HeadKeep_refl _
          · split at h
            · split at h
              · rename_i hl
                have h2 := StepKeeps_head _ _ _ (loadHunk_keeps _ _ _ _ _ _ hl)
                exact HeadKeep_trans h2 (ih _ _ _ _ _ h)
              · rename_i hl
                have h2 := StepKeeps_head _ _ _ (loadHunk_keeps _ _ _ _ _ _ hl)
                injection h with h; injection h with _ h; subst h
                exact h2
              · exact Run.noConfusion h
              · exact Run.noConfusion h
            · exact Run.noConfusion h
            · exact Run.noConfusion h
        · split at h
          · split at h
            · injection h with h; injection h with _ h; subst h
              exact HeadKeep_refl _
            · split at h
              · rename_i hg
                have h2 := StepKeeps_head _ _ _ (relocGroups_keeps _ _ _ _ _ _ _ _ _ hg)
                exact HeadKeep_trans h2 (ih _ _ _ _ _ h)
              · rename_i hg
                have h2 := StepKeeps_head _ _ _ (relocGroups_keeps _ _ _ _ _ _ _ _ _ hg)
                injection h with h; injection h with _ h; subst h
                exact h2
              · exact Run.noConfusion h
              · exact Run.noConfusion h
          · split at h
            · split at h
              · injection h with h; injection h with _ h; subst h
                exact HeadKeep_refl _
              · have h2 := ih _ _ _ _ _ h
                exact fun i => h2 i
            · injection h with h; injection h with _ h; subst h
              exact HeadKeep_refl _
      · exact Run.noConfusion h
      · exact Run.noConfusion h
    · injection h with h; injection h with _ h; subst h
      exact HeadKeep_refl _

theorem linkBefore_append (allocs : List (Nat × Nat)) (x : Nat × Nat) (i : Nat)
    (h : i ≤ allocs.length) : linkBefore (allocs ++ [x]) i = linkBefore allocs i := by
  unfold linkBefore
  by_cases h0 : i = 0
  · rw [if_pos h0, if_pos h0]
  · rw [if_neg h0, if_neg h0, List.getD_append _ _ _ _ (by omega)]

theorem MKBADDR_lt (x : Nat) (h : x < 4294967296) : MKBADDR x < 4294967296 := by
  unfold MKBADDR
  rw [Nat.shiftRight_eq_div_pow]
  exact lt_of_le_of_lt (Nat.div_le_self _ _) h

theorem header_longs (a b : Nat) (ha : a < 4294967296) (hb : b < 4294967296) :
    loadLong (storeLong (storeLong (fun _ => 0) 0 a) 4 b) 0 = a ∧
    loadLong (storeLong (storeLong (fun _ => 0) 0 a) 4 b) 4 = b := by
  constructor
  · have e : loadLong (storeLong (storeLong (fun _ => 0) 0 a) 4 b) 0
        = loadLong (storeLong (fun _ => 0) 0 a) 0 := by
      apply loadLong_congr
      intro j h1 h2
      exact storeLong_other _ _ _ _ (by omega)
    rw [e]
    exact storeLong_same _ _ _ ha
  · exact storeLong_same _ _ _ hb


theorem preAlloc_heads (alloc : Nat → Nat → Nat → Nat) (temp totalHunks : Nat) :
    ∀ (fuel : Nat) (hunkCnt : Int) (prevChunk fph : Nat) (ld : Loader) (v : Bool) (fph2 : Nat)
      (ld2 : Loader),
      preAlloc alloc temp totalHunks fuel hunkCnt prevChunk fph ld = .ok (v, fph2, ld2) →
      hunkCnt = (ld.allocs.length : Int) → hunkCnt ≤ 32767 →
      HeadersOK ld → prevChunk = linkBefore ld.allocs ld.allocs.length →
      prevChunk < 4294967296 →
      (ld.allocs ≠ [] → fph = (ld.allocs.getD 0 (0, 0)).1 + 4) → (ld.allocs = [] → fph = 0) →
      HeadersOK ld2 ∧ (ld2.allocs ≠ [] → fph2 = (ld2.allocs.getD 0 (0, 0)).1 + 4) := by
  intro fuel
  induction fuel with
  | zero => intro hunkCnt prevChunk fph ld v fph2 ld2 h; exact Run.noConfusion h
  | succ n ih =>
    intro hunkCnt prevChunk fph ld v fph2 ld2 h hcnt hw hh hprev hpl hf1 hf0
    rw [preAlloc] at h
    split at h
    · split at h
      · rename_i rh hat
        obtain ⟨h0, _, hrh⟩ := hunkAt_ok _ _ _ hat
        have hidx : hunkCnt.toNat = ld.allocs.length := by omega
        split at h
        · injection h with h; injection h with _ h; injection h with h1 h; subst h; subst h1
          exact ⟨hh, hf1⟩
        · try simp only at h
          split at h
          · injection h with h; injection h with _ h; injection h with h1 h; subst h; subst h1
            exact ⟨hh, hf1⟩
          · split at h
            · injection h with h; injection h with _ h; injection h with h1 h; subst h; subst h1
              refine ⟨?_, hf1⟩
              intro i hi
              have hi2 : i < ld.allocs.length := hi
              show loadLong (setHunk ld.tbl hunkCnt.toNat _ i).mem 0
                  = (setHunk ld.tbl hunkCnt.toNat _ i).hunkSize + 2 ∧
                loadLong (setHunk ld.tbl hunkCnt.toNat _ i).mem 4 = MKBADDR (linkBefore ld.allocs i)
              unfold setHunk
              rw [if_neg (by omega)]
              exact hh i hi2
            · split at h
              · exact Run.noConfusion h
              · rename_i _ oh md1 hrd1 _ mf md2 hmf ha0 hms
                by_cases hlt2 : hunkCnt < 32767
                · rw [toWORD_succ hunkCnt h0 hlt2] at h
                  rw [and_mask30] at h hms ha0
                  have hhs : oh.getD temp % 1073741824 < 1073741824 := Nat.mod_lt _ (by norm_num)
                  refine ih _ _ _ _ _ _ _ h ?_ ?_ ?_ ?_ ?_ ?_ ?_
                  · show hunkCnt + 1 = ((ld.allocs ++ [_]).length : Int)
                    rw [List.length_append, List.length_singleton]
                    omega
                  · omega
                  · intro i hi
                    have hi2 : i < (ld.allocs ++ [_]).length := hi
                    rw [List.length_append, List.length_singleton] at hi2
                    show loadLong (setHunk ld.tbl hunkCnt.toNat _ i).mem 0
                        = (setHunk ld.tbl hunkCnt.toNat _ i).hunkSize + 2 ∧
                      loadLong (setHunk ld.tbl hunkCnt.toNat _ i).mem 4
                        = MKBADDR (linkBefore (ld.allocs ++ [_]) i)
                    rw [linkBefore_append _ _ _ (by omega)]
                    unfold setHunk
                    by_cases hic : i = hunkCnt.toNat
                    · rw [if_pos hic]
                      simp only
                      have hl := header_longs ((oh.getD temp % 1073741824 + 2) % 4294967296)
                        (MKBADDR prevChunk) (Nat.mod_lt _ (by norm_num)) (MKBADDR_lt _ hpl)
                      rw [hl.1, hl.2, hic, hidx, hprev]
                      exact ⟨by omega, rfl⟩
                    · rw [if_neg hic]
                      exact hh i (by omega)
                  · show (_ + 4) % 4294967296 = linkBefore (ld.allocs ++ [_]) (ld.allocs ++ [_]).length
                    rw [List.length_append, List.length_singleton]
                    unfold linkBefore
                    rw [if_neg (by omega), Nat.add_sub_cancel,
                      List.getD_append_right _ _ _ _ (Nat.le_refl _), Nat.sub_self]
                    simp only [List.getD_cons_zero]
                    omega
                  · exact Nat.mod_lt _ (by norm_num)
                  · intro _
                    by_cases he : ld.allocs = []
                    · rw [hf0 he, if_pos rfl]
                      rw [he] at hms ⊢
                      simp only [List.nil_append, List.getD_cons_zero]
                      omega
                    · have hf := hf1 he
                      rw [if_neg (by omega), hf]
                      have hpos : 0 < ld.allocs.length := List.length_pos.mpr he
                      rw [List.getD_append _ _ _ _ hpos]
                  · intro he
                    exact absurd he (by simp)
                · have h32 : hunkCnt = 32767 := by omega
                  rw [h32, toWORD_wrap] at h
                  exact absurd h (preAlloc_neg _ _ _ _ _ _ _ _ (by decide) _)
          · exact Run.noConfusion h
          · exact Run.noConfusion h
        · exact Run.noConfusion h
        · exact Run.noConfusion h
      · exact Run.noConfusion h
      · exact Run.noConfusion h
    · injection h with h; injection h with _ h; injection h with h1 h; subst h; subst h1
      exact ⟨hh, hf1⟩


theorem fsBody_layout (fuel : Nat) (alloc : Nat → Nat → Nat → Nat) (temp fh lh : Nat)
    (md : MountData) (r : FsResult)
    (h : fsBody fuel alloc temp fh lh md = .ok r) (hseg : r.seg ≠ 0) :
    HeadersOK r.loader ∧ r.seg = (r.allocs.getD 0 (0, 0)).1 + 4 ∧ r.allocs ≠ [] := by
  unfold fsBody at h
  split at h
  · exact Run.noConfusion h
  · try simp only at h
    split at h
    · injection h with h
      subst h
      exact absurd rfl hseg
    · split at h
      · exact absurd (fsFinish_spec _ _ _ _ _ _ _ _ h).2.2.2.2.2.2.2.2 (fun hh => hseg (hh rfl).1)
      · rename_i fph ld1 hpre
        obtain ⟨_, _, _, _, q5, _⟩ := preAlloc_spec alloc temp _ _ _ _ _ _ _ _ _ hpre
          (TableOK_zero md _) rfl (by decide) (Nat.zero_le _) (fun hh => absurd rfl hh)
        obtain ⟨k1, k2⟩ := preAlloc_heads alloc temp _ _ _ _ _ _ _ _ _ hpre rfl (by decide)
          (fun i hi => absurd hi (Nat.not_lt_zero _)) rfl (by decide)
          (fun hh => absurd rfl hh) (fun _ => rfl)
        have hne : ld1.allocs ≠ [] := by
          intro he
          have := q5 rfl
          rw [he] at this
          simp at this
        split at h
        · rename_i ret ld2 hll
          obtain ⟨p1, _, _, _⟩ := loadLoop_post fh (lh - fh + 1) temp _ _ _ _ _ _ hll
          have hk := loadLoop_head _ _ _ _ _ _ _ _ _ hll
          obtain ⟨_, f2, f3, _, _, _, _, f8, f9⟩ := fsFinish_spec _ _ _ _ _ _ _ _ h
          cases ret with
          | false => exact absurd (f9 rfl).1 hseg
          | true =>
            refine ⟨?_, ?_, ?_⟩
            · intro i hi
              have hi2 : i < r.allocs.length := hi
              rw [f2, p1] at hi2
              show loadLong (r.tbl i).mem 0 = (r.tbl i).hunkSize + 2 ∧
                loadLong (r.tbl i).mem 4 = MKBADDR (linkBefore r.allocs i)
              rw [f3, f2, p1]
              obtain ⟨e1, e2, _⟩ := hk i
              have e0 : loadLong (ld2.tbl i).mem 0 = loadLong (ld1.tbl i).mem 0 :=
                loadLong_congr _ _ _ (fun j _ hj => e1 j (by omega))
              have e4 : loadLong (ld2.tbl i).mem 4 = loadLong (ld1.tbl i).mem 4 :=
                loadLong_congr _ _ _ (fun j _ hj => e1 j (by omega))
              rw [e0, e4, e2]
              exact k1 i hi2
            · rw [(f8 rfl).1, f2, p1]
              exact k2 hne
            · rw [f2, p1]
              exact hne
        · exact Run.noConfusion h
        · exact Run.noConfusion h
      · exact Run.noConfusion h
      · exact Run.noConfusion h

theorem fsrelocate_layout (fuel : Nat) (alloc : Nat → Nat → Nat → Nat) (temp : Nat)
    (md : MountData) (r : FsResult)
    (h : fsrelocate fuel alloc temp md = .ok r) (hseg : r.seg ≠ 0) :
    TableOK r.loader ∧ HeadersOK r.loader ∧ r.allocs.length = r.totalHunks ∧
      r.seg = (r.allocs.getD 0 (0, 0)).1 + 4 ∧ r.allocs ≠ [] := by
  rcases fsrelocate_cases fuel alloc temp md r h with ⟨_, _, h0⟩ | ⟨fh, lh, md5, _, hb⟩
  · exact absurd h0 hseg
  · obtain ⟨l1, l2, l3⟩ := fsBody_layout fuel alloc temp fh lh md5 r hb hseg
    have ht : ∃ t, r.table = some t := by
      cases hh : r.table with
      | some t => exact ⟨t, rfl⟩
      | none =>
        exfalso
        unfold fsBody at hb
        split at hb
        · exact Run.noConfusion hb
        · try simp only at hb
          split at hb
          · injection hb with hb
            subst hb
            exact hseg rfl
          · split at hb
            · have := (fsFinish_spec _ _ _ _ _ _ _ _ hb).1
              rw [hh] at this
              exact Option.noConfusion this
            · split at hb
              · have := (fsFinish_spec _ _ _ _ _ _ _ _ hb).1
                rw [hh] at this
                exact Option.noConfusion this
              · exact Run.noConfusion hb
              · exact Run.noConfusion hb
            · exact Run.noConfusion hb
            · exact Run.noConfusion hb
    obtain ⟨t, ht⟩ := ht
    obtain ⟨b1, _, _, b4⟩ := fsrelocate_balance fuel alloc temp md r t h ht
    exact ⟨b1, l1, (b4 hseg).2, l2, l3⟩

theorem patchLoop_fields (fshb : Buf) (len : Nat) :
    ∀ (n fuel k pf : Nat) (fields : List Nat), pf < 2 ^ n → n < fuel → k + n ≤ 9 →
      fields.length = 9 →
      ∃ out, patchLoop fshb len fuel k pf fields = .ok out ∧ out.length = 9 ∧
        ∀ i, i < 9 → out.getD i 0
          = if k ≤ i ∧ pf >>> (i - k) ≠ 0 then fhb_Field fshb i else fields.getD i 0 := by
  intro n
  induction n with
  | zero =>
    intro fuel k pf fields hpf hf _ hlen
    obtain ⟨f, rfl⟩ : ∃ f, fuel = f + 1 := ⟨fuel - 1, by omega⟩
    have : pf = 0 := by omega
    subst this
    refine ⟨fields, by simp [patchLoop], hlen, ?_⟩
    intro i _
    rw [Nat.zero_shiftRight, if_neg (fun h => h.2 rfl)]
  | succ n ih =>
    intro fuel k pf fields hpf hf hk hlen
    obtain ⟨f, rfl⟩ : ∃ f, fuel = f + 1 := ⟨fuel - 1, by omega⟩
    by_cases h0 : pf = 0
    · subst h0
      refine ⟨fields, by simp [patchLoop], hlen, ?_⟩
      intro i _
      rw [Nat.zero_shiftRight, if_neg (fun h => h.2 rfl)]
    · rw [patchLoop, if_pos h0, if_pos (by omega)]
      obtain ⟨out, ho, hl, hv⟩ := ih f (k + 1) (pf >>> 1) (fields.set k (fhb_Field fshb k))
        (by
          rw [Nat.shiftRight_eq_div_pow, Nat.pow_one]
          rw [Nat.pow_succ] at hpf
          omega)
        (by omega) (by omega) (by rw [List.length_set]; exact hlen)
      refine ⟨out, ho, hl, ?_⟩
      intro i hi
      rw [hv i hi]
      by_cases hik : i = k
      · subst hik
        rw [if_neg (fun h => absurd h.1 (by omega)), Nat.sub_self, Nat.shiftRight_zero,
          if_pos ⟨le_refl _, h0⟩]
        simp [List.getD_eq_getElem?_getD, hlen, hi]
      · have hset : (fields.set k (fhb_Field fshb k)).getD i 0 = fields.getD i 0 := by
          simp [List.getD_eq_getElem?_getD, List.getElem?_set_ne (Ne.symm hik)]
        rw [hset]
        by_cases hlt : k + 1 ≤ i
        · have hsh : pf >>> 1 >>> (i - (k + 1)) = pf >>> (i - k) := by
            rw [← Nat.shiftRight_add]
            congr 1
            omega
          rw [hsh]
          by_cases hz : pf >>> (i - k) ≠ 0
          · rw [if_pos ⟨hlt, hz⟩, if_pos ⟨by omega, hz⟩]
          · rw [if_neg (fun h => hz h.2), if_neg (fun h => hz h.2)]
        · rw [if_neg (fun h => hlt h.1), if_neg (fun h => absurd h.1 (by omega))]


theorem loadLoop_true_last_read (temp fh th : Nat) :
    ∀ (fuel : Nat) (hunkCnt : Int) (rh : Option Nat) (ld ld2 : Loader),
      hunkCnt ≤ (th : Int) →
      loadLoop temp fh th fuel hunkCnt rh ld = .ok (true, ld2) →
      ∃ md0 v o, lseg_read_long md0 temp = .ok (v, o, ld2.md) ∧
        (v = false ∨ o.getD temp = HUNK_END) := by
  intro fuel
  induction fuel with
  | zero =>
    intro hunkCnt rh ld ld2 _ h
    rw [loadLoop] at h
    exact Run.noConfusion h
  | succ f ih =>
    intro hunkCnt rh ld ld2 hle h
    rw [loadLoop, if_pos hle] at h
    split at h
    · rename_i o md1 hr
      split at h
      · injection h with h
        injection h with _ h
        subst h
        exact ⟨ld.md, false, o, hr, Or.inl rfl⟩
      · injection h with h
        injection h with h _
        exact Bool.noConfusion h
    · rename_i ot md1 hr
      simp only at h
      split at h
      · split at h
        · injection h with h
          injection h with h _
          exact Bool.noConfusion h
        · rename_i hlt
          split at h
          · rename_i rhv hat
            have h0 : 0 ≤ hunkCnt := by
              unfold hunkAt at hat
              by_contra hneg
              rw [if_pos (by omega)] at hat
              exact Run.noConfusion hat
            split at h
            · exact ih _ _ _ _ (by unfold toWORD; omega) h
            · injection h with h
              injection h with h _
              exact Bool.noConfusion h
            · exact Run.noConfusion h
            · exact Run.noConfusion h
          · exact Run.noConfusion h
          · exact Run.noConfusion h
      · split at h
        · split at h
          · injection h with h
            injection h with h _
            exact Bool.noConfusion h
          · split at h
            · exact ih _ _ _ _ hle h
            · injection h with h
              injection h with h _
              exact Bool.noConfusion h
            · exact Run.noConfusion h
            · exact Run.noConfusion h
        · split at h
          · rename_i hend
            split at h
            · injection h with h
              injection h with _ h
              subst h
              exact ⟨ld.md, true, ot, hr, Or.inr hend⟩
            · exact ih _ _ _ _ hle h
          · injection h with h
            injection h with h _
            exact Bool.noConfusion h
    · exact Run.noConfusion h
    · exact Run.noConfusion h


set_option maxRecDepth 1000000 in
theorem ldOne_read_fails : ∃ o md1, lseg_read_long ldOne.md 0 = .ok (false, o, md1) := by
  have h : Run.map (fun x => x.1) (lseg_read_long ldOne.md 0) = .ok false := by decide
  obtain ⟨⟨v, o, md1⟩, hr, hs⟩ := Run_map_ok _ _ _ h
  have hv : v = false := hs
  subst hv
  exact ⟨o, md1, hr⟩

theorem relocGroups_offsets_fail (short : Bool) (temp fh th cur fuel : Nat) (ld ld3 : Loader)
    (oc oh : Option Nat) (md1 md2 : MountData) (rhr : RelocHunk)
    (hc : lseg_read_long ld.md temp = .ok (true, oc, md1)) (hne : oc.getD temp ≠ 0)
    (hi : lseg_read_long md1 temp = .ok (true, oh, md2))
    (hin : ¬ (oh.getD temp + 4294967296 - fh) % 4294967296 ≥ th)
    (hat : hunkAt { ld with md := md2,
                            trace := ld.trace ++ [LoadEv.group (oc.getD temp) (oh.getD temp)] }
        (((oh.getD temp + 4294967296 - fh) % 4294967296 : Nat) : Int) = .ok rhr)
    (ho : relocOffsets short temp cur ((oh.getD temp + 4294967296 - fh) % 4294967296)
        rhr.hunkData (oc.getD temp)
        { ld with md := md2,
                  trace := ld.trace ++ [LoadEv.group (oc.getD temp) (oh.getD temp)] }
      = .ok (false, ld3)) :
    relocGroups short temp fh th cur (fuel + 1) ld = .ok (false, ld3) := by
  rw [relocGroups, hc]
  simp only
  rw [if_neg hne, hi]
  simp only
  rw [if_neg hin, hat]
  simp only
  rw [ho]

theorem loadLoop_groups_fail (temp fh th fuel : Nat) (hunkCnt : Int) (cur : Nat)
    (ld ld2 : Loader) (ot : Option Nat) (mdT : MountData)
    (htok : lseg_read_long ld.md temp = .ok (true, ot, mdT))
    (hty : ot.getD temp = HUNK_RELOC32 ∨ ot.getD temp = HUNK_RELOC32SHORT)
    (hle : hunkCnt ≤ (th : Int))
    (hg : relocGroups (decide (ot.getD temp = HUNK_RELOC32SHORT)) temp fh th cur fuel
        { ld with md := mdT } = .ok (false, ld2)) :
    loadLoop temp fh th (fuel + 1) hunkCnt (some cur) ld = .ok (false, ld2) := by
  have hn : ¬ (ot.getD temp = HUNK_CODE ∨ ot.getD temp = HUNK_DATA ∨ ot.getD temp = HUNK_BSS) := by
    intro h
    rcases hty with h1 | h1 <;> rcases h with h2 | h2 | h2 <;> rw [h1] at h2 <;>
      exact absurd h2 (by decide)
  rw [loadLoop, if_pos hle, htok]
  simp only
  rw [if_neg hn, if_pos hty]
  rw [hg]


theorem blkno64_eq (a o s : Nat) (hs : s ≤ 31) (ha : a < 4294967296) (ho : o < 4294967296) :
    (a <<< (32 - s)) % 18446744073709551616 ||| (o >>> s) = (a * 4294967296 + o) / 2 ^ s := by
  have hp : (4294967296 : Nat) = 2 ^ (32 - s) * 2 ^ s := by
    rw [← Nat.pow_add, show 32 - s + s = 32 by omega]
  have hpos : 0 < 2 ^ s := Nat.two_pow_pos s
  have hpos2 : 0 < 2 ^ (32 - s) := Nat.two_pow_pos _
  have hle : 2 ^ (32 - s) ≤ 4294967296 := by
    rw [hp]
    exact Nat.le_mul_of_pos_right _ hpos
  have hsm : a <<< (32 - s) < 18446744073709551616 := by
    rw [Nat.shiftLeft_eq]
    calc a * 2 ^ (32 - s) < 4294967296 * 2 ^ (32 - s) := Nat.mul_lt_mul_of_pos_right ha hpos2
      _ ≤ 4294967296 * 4294967296 := Nat.mul_le_mul_left _ hle
      _ = 18446744073709551616 := by norm_num
  have hlow : o >>> s < 2 ^ (32 - s) := by
    rw [Nat.shiftRight_eq_div_pow, Nat.div_lt_iff_lt_mul hpos, ← hp]
    exact ho
  rw [Nat.mod_eq_of_lt hsm, Nat.shiftLeft_eq, Nat.mul_comm a, ← Nat.mul_add_lt_is_or hlow,
    Nat.shiftRight_eq_div_pow]
  have e : a * 4294967296 + o = o + 2 ^ (32 - s) * a * 2 ^ s := by
    rw [hp, Nat.mul_comm (2 ^ (32 - s)) a, Nat.mul_assoc, Nat.add_comm]
  rw [e, Nat.add_mul_div_right _ _ hpos, Nat.add_comm]

theorem rw32_call (wr : Bool) (blkshift : Nat) (rc : Int) (io : IOExtTD)
    (hs : blkshift ≤ 31) (hlen : io.io_Length ≠ 0) :
    ∃ out call, rw32 wr blkshift rc io = .ok out ∧
      out.call = some call ∧ call.blkno = io.io_Offset / 2 ^ blkshift ∧ call.write = wr ∧
      call.length = io.io_Length := by
  unfold rw32
  rw [if_neg hlen, if_neg (by omega)]
  unfold rwContinue
  by_cases hrc : rc = 0
  · simp only [if_pos hrc]
    exact ⟨_, _, rfl, rfl, Nat.shiftRight_eq_div_pow _ _, rfl, rfl⟩
  · simp only [if_neg hrc]
    exact ⟨_, _, rfl, rfl, Nat.shiftRight_eq_div_pow _ _, rfl, rfl⟩

theorem rw64_call (wr : Bool) (blkshift : Nat) (rc : Int) (io : IOExtTD)
    (hs : blkshift ≤ 31) (hO : io.io_Offset < 4294967296) (hA : io.io_Actual < 4294967296)
    (hlen : io.io_Length ≠ 0) :
    ∃ out call, rw64 wr blkshift rc io = .ok out ∧
      out.call = some call ∧
      call.blkno = (io.io_Actual * 4294967296 + io.io_Offset) / 2 ^ blkshift ∧
      call.write = wr ∧ call.length = io.io_Length := by
  unfold rw64
  rw [if_neg hlen, if_neg (by omega)]
  unfold rwContinue
  by_cases hrc : rc = 0
  · simp only [if_pos hrc]
    exact ⟨_, _, rfl, rfl, blkno64_eq _ _ _ hs hA hO, rfl, rfl⟩
  · simp only [if_neg hrc]
    exact ⟨_, _, rfl, rfl, blkno64_eq _ _ _ hs hA hO, rfl, rfl⟩


theorem halves_ne_nil (l : List Nat) (h : halves l ≠ []) : l ≠ [] := by
  intro hl
  rw [hl] at h
  exact h rfl

theorem lseg_read_word_progress (md : MountData) (blocks : List Nat) (e : Nat)
    (hinv : LsegInv md blocks e) (hne : halfUnread md blocks ≠ []) :
    ∃ v md1, lseg_read_word md = .ok (true, some v, md1) := by
  unfold lseg_read_word
  by_cases hw : md.lseghasword = true
  · rw [if_pos hw]
    exact ⟨_, _, rfl⟩
  · rw [if_neg hw]
    have hl : lsegUnread md blocks ≠ [] := by
      apply halves_ne_nil
      unfold halfUnread at hne
      rw [if_neg hw, List.nil_append] at hne
      exact hne
    have hlen : 1 ≤ (lsegUnread md blocks).length := by
      cases hc : lsegUnread md blocks with
      | nil => exact absurd hc hl
      | cons a t => simp
    obtain ⟨md2, hr, _⟩ := (lseg_read_longs_spec md blocks e 1 hinv.1 hinv.2.1 hinv.2.2.2.1).1 hlen
    rw [hr]
    exact ⟨_, _, rfl⟩

theorem lseg_read_long_progress (temp : Nat) (md : MountData) (blocks : List Nat) (e : Nat)
    (hinv : LsegInv md blocks e) (hl : lsegUnread md blocks ≠ []) :
    ∃ v md1, lseg_read_long md temp = .ok (true, some v, md1) := by
  have hlen : 1 ≤ (lsegUnread md blocks).length := by
    cases hc : lsegUnread md blocks with
    | nil => exact absurd hc hl
    | cons a t => simp
  obtain ⟨md2, hr, _⟩ := (lseg_read_longs_spec md blocks e 1 hinv.1 hinv.2.1 hinv.2.2.2.1).1 hlen
  unfold lseg_read_long
  by_cases hw : md.lseghasword = true
  · rw [if_pos hw, hr]
    exact ⟨_, _, rfl⟩
  · rw [if_neg hw, hr]
    cases hc : lsegUnread md blocks with
    | nil => exact absurd hc hl
    | cons a t => exact ⟨a, md2, rfl⟩

theorem two_words_progress (temp : Nat) (md : MountData) (blocks : List Nat) (e : Nat)
    (hinv : LsegInv md blocks e) (hw : md.lseghasword = false)
    (hl : lsegUnread md blocks ≠ []) :
    ∃ a b md2, readUnits temp [UnitRead.word, UnitRead.word] md = .ok (some ([a, b], md2)) := by
  have hne : halfUnread md blocks ≠ [] := by
    unfold halfUnread
    rw [hw]
    cases hc : lsegUnread md blocks with
    | nil => exact absurd hc hl
    | cons a t => simp [halves]
  obtain ⟨v, md1, hr⟩ := lseg_read_word_progress md blocks e hinv hne
  obtain ⟨rest, _, _, h3, _⟩ := readUnit_step temp UnitRead.word md md1 blocks e v hinv hr
  obtain ⟨w, _, _, hw1, _⟩ := h3 hw rfl
  have hr2 : lseg_read_word md1
      = .ok (true, some md1.lsegwordbuf, { md1 with lseghasword := false }) := by
    unfold lseg_read_word
    rw [if_pos hw1]
  refine ⟨v, md1.lsegwordbuf, { md1 with lseghasword := false }, ?_⟩
  simp only [readUnits, readUnit, hr, hr2]


set_option maxRecDepth 1000000 in
theorem imageA_units :
    ∃ md2 md3 md4, readUnits 0 [UnitRead.word, UnitRead.word] (loadState (lsegDisk imageA) 1)
        = .ok (some ([0, 1011], md2)) ∧
      readUnits 0 [UnitRead.long, UnitRead.word, UnitRead.long] (loadState (lsegDisk imageA) 1)
        = .ok (some ([1011, 0, 0], md3)) ∧
      lseg_read_long (loadState (lsegDisk imageA) 1) 0 = .ok (true, some 1011, md4) := by
  have h1 : Run.map (fun o => o.map Prod.fst)
      (readUnits 0 [UnitRead.word, UnitRead.word] (loadState (lsegDisk imageA) 1))
      = .ok (some [0, 1011]) := by decide
  have h2 : Run.map (fun o => o.map Prod.fst)
      (readUnits 0 [UnitRead.long, UnitRead.word, UnitRead.long]
        (loadState (lsegDisk imageA) 1))
      = .ok (some [1011, 0, 0]) := by decide
  have h3 : Run.map (fun x => (x.1, x.2.1)) (lseg_read_long (loadState (lsegDisk imageA) 1) 0)
      = .ok (true, some 1011) := by decide
  obtain ⟨o1, e1, s1⟩ := Run_map_ok _ _ _ h1
  obtain ⟨o2, e2, s2⟩ := Run_map_ok _ _ _ h2
  obtain ⟨⟨v, o, md4⟩, e3, s3⟩ := Run_map_ok _ _ _ h3
  cases o1 with
  | none => simp at s1
  | some p1 =>
    cases o2 with
    | none => simp at s2
    | some p2 =>
      obtain ⟨vs1, md2⟩ := p1
      obtain ⟨vs2, md3⟩ := p2
      simp only [Option.map_some', Option.some.injEq] at s1 s2
      subst s1
      subst s2
      injection s3 with g1 g2
      have g1' : v = true := g1
      have g2' : o = some 1011 := g2
      subst g1'
      subst g2'
      exact ⟨md2, md3, md4, e1, e2, e3⟩


theorem loadLoop_true_reach (temp fh th : Nat) :
    ∀ (fuel : Nat) (hunkCnt : Int) (rh : Option Nat) (ld ld2 : Loader),
      hunkCnt ≤ (th : Int) →
      loadLoop temp fh th fuel hunkCnt rh ld = .ok (true, ld2) →
      ∃ hc rh1 ld1 v o, LoopReach temp fh th (hunkCnt, rh, ld) (hc, rh1, ld1) ∧
        hc = (th : Int) ∧ lseg_read_long ld1.md temp = .ok (v, o, ld2.md) ∧
        (v = false ∨ (v = true ∧ o.getD temp = HUNK_END)) ∧
        ld2 = { ld1 with md := ld2.md } := by
  intro fuel
  induction fuel with
  | zero =>
    intro hunkCnt rh ld ld2 _ h
    rw [loadLoop] at h
    exact Run.noConfusion h
  | succ f ih =>
    intro hunkCnt rh ld ld2 hle h
    rw [loadLoop, if_pos hle] at h
    cases hr : lseg_read_long ld.md temp with
    | fuel =>
      rw [hr] at h
      exact Run.noConfusion h
    | fault =>
      rw [hr] at h
      exact Run.noConfusion h
    | ok x =>
      obtain ⟨v, ot, mdT⟩ := x
      rw [hr] at h
      cases v with
      | false =>
        simp only at h
        by_cases hge : hunkCnt ≥ (th : Int)
        · rw [if_pos hge] at h
          injection h with h
          injection h with _ h
          subst h
          exact ⟨hunkCnt, rh, ld, false, ot, LoopReach.here _, by omega, hr, Or.inl rfl, rfl⟩
        · rw [if_neg hge] at h
          injection h with h
          injection h with h _
          exact Bool.noConfusion h
      | true =>
        simp only at h
        by_cases hty1 : ot.getD temp = HUNK_CODE ∨ ot.getD temp = HUNK_DATA ∨
            ot.getD temp = HUNK_BSS
        · rw [if_pos hty1] at h
          by_cases hge : hunkCnt ≥ (th : Int)
          · rw [if_pos hge] at h
            injection h with h
            injection h with h _
            exact Bool.noConfusion h
          · rw [if_neg hge] at h
            cases hat : hunkAt { ld with md := mdT } hunkCnt with
            | fuel =>
              rw [hat] at h
              exact Run.noConfusion h
            | fault =>
              rw [hat] at h
              exact Run.noConfusion h
            | ok rhv =>
              rw [hat] at h
              simp only at h
              have h0 : 0 ≤ hunkCnt := by
                unfold hunkAt at hat
                by_contra hneg
                rw [if_pos (by omega)] at hat
                exact Run.noConfusion hat
              cases hl : loadHunk temp (ot.getD temp) hunkCnt.toNat { ld with md := mdT } with
              | fuel =>
                rw [hl] at h
                exact Run.noConfusion h
              | fault =>
                rw [hl] at h
                exact Run.noConfusion h
              | ok y =>
                obtain ⟨v2, ld3⟩ := y
                rw [hl] at h
                cases v2 with
                | false =>
                  simp only at h
                  injection h with h
                  injection h with h _
                  exact Bool.noConfusion h
                | true =>
                  simp only at h
                  obtain ⟨hc, rh1, ld1, v, o, g1, g2, g3, g4, g5⟩ :=
                    ih _ _ _ _ (by unfold toWORD; omega) h
                  exact ⟨hc, rh1, ld1, v, o,
                    LoopReach.next _ _ _
                      (LoopStep.load hunkCnt rh ld ld3 ot mdT hr hty1 h0 (by omega) hl) g1,
                    g2, g3, g4, g5⟩
        · rw [if_neg hty1] at h
          by_cases hty2 : ot.getD temp = HUNK_RELOC32 ∨ ot.getD temp = HUNK_RELOC32SHORT
          · rw [if_pos hty2] at h
            cases rh with
            | none =>
              simp only at h
              injection h with h
              injection h with h _
              exact Bool.noConfusion h
            | some cur =>
              simp only at h
              cases hg : relocGroups (decide (ot.getD temp = HUNK_RELOC32SHORT)) temp fh th cur f
                  { ld with md := mdT } with
              | fuel =>
                rw [hg] at h
                exact Run.noConfusion h
              | fault =>
                rw [hg] at h
                exact Run.noConfusion h
              | ok y =>
                obtain ⟨v2, ld3⟩ := y
                rw [hg] at h
                cases v2 with
                | false =>
                  simp only at h
                  injection h with h
                  injection h with h _
                  exact Bool.noConfusion h
                | true =>
                  simp only at h
                  obtain ⟨hc, rh1, ld1, v, o, g1, g2, g3, g4, g5⟩ := ih _ _ _ _ hle h
                  exact ⟨hc, rh1, ld1, v, o,
                    LoopReach.next _ _ _
                      (LoopStep.reloc hunkCnt cur ld ld3 ot mdT f hr hty2 hg) g1,
                    g2, g3, g4, g5⟩
          · rw [if_neg hty2] at h
            by_cases hend : ot.getD temp = HUNK_END
            · rw [if_pos hend] at h
              by_cases hge : hunkCnt ≥ (th : Int)
              · rw [if_pos hge] at h
                injection h with h
                injection h with _ h
                subst h
                exact ⟨hunkCnt, rh, ld, true, ot, LoopReach.here _, by omega, hr,
                  Or.inr ⟨rfl, hend⟩, rfl⟩
              · rw [if_neg hge] at h
                obtain ⟨hc, rh1, ld1, v, o, g1, g2, g3, g4, g5⟩ := ih _ _ _ _ hle h
                exact ⟨hc, rh1, ld1, v, o,
                  LoopReach.next _ _ _
                    (LoopStep.skip hunkCnt rh ld ot mdT hr hend (by omega)) g1,
                  g2, g3, g4, g5⟩
            · rw [if_neg hend] at h
              injection h with h
              injection h with h _
              exact Bool.noConfusion h

theorem loadLoop_end_token (temp fh th fuel : Nat) (hunkCnt : Int) (rh : Option Nat)
    (ld : Loader) (ot : Option Nat) (mdT : MountData) (hle : hunkCnt ≤ (th : Int))
    (htok : lseg_read_long ld.md temp = .ok (true, ot, mdT))
    (hend : ot.getD temp = HUNK_END) :
    ((th : Int) ≤ hunkCnt →
      loadLoop temp fh th (fuel + 1) hunkCnt rh ld = .ok (true, { ld with md := mdT })) ∧
    (hunkCnt < (th : Int) →
      loadLoop temp fh th (fuel + 1) hunkCnt rh ld
        = loadLoop temp fh th fuel hunkCnt rh { ld with md := mdT }) := by
  have hn1 : ¬ (ot.getD temp = HUNK_CODE ∨ ot.getD temp = HUNK_DATA ∨
      ot.getD temp = HUNK_BSS) := by
    intro h
    rcases h with h2 | h2 | h2 <;> rw [hend] at h2 <;> exact absurd h2 (by decide)
  have hn2 : ¬ (ot.getD temp = HUNK_RELOC32 ∨ ot.getD temp = HUNK_RELOC32SHORT) := by
    intro h
    rcases h with h2 | h2 <;> rw [hend] at h2 <;> exact absurd h2 (by decide)
  refine ⟨fun hge => ?_, fun hlt => ?_⟩
  · rw [loadLoop, if_pos hle, htok]
    simp only
    rw [if_neg hn1, if_neg hn2, if_pos hend, if_pos hge]
  · rw [loadLoop, if_pos hle, htok]
    simp only
    rw [if_neg hn1, if_neg hn2, if_pos hend, if_neg (by omega)]

set_option maxRecDepth 1000000 in
/-- C5 (counterexample): the header `hdrFlagsHigh` has `fhb_PatchFlags` 512.  With an
empty registry, both allocations succeeding and the empty creator string, the entry is
allocated with `sizeof(struct FileSysEntry) + 1` bytes and the patch loop runs ten
rounds: its tenth store lies behind the nine fields of the entry and leaves the
allocation, so the call does not return a fresh entry.  With a creator string of three
characters the same store falls into the bytes reserved for that string, and the call
returns. -/
theorem FSHDProcess_stores_past_entry :
    fhb_PatchFlags hdrFlagsHigh = 512 ∧ fhb_DosType hdrFlagsHigh = 1145304067 ∧
    FSHDProcess (some []) true true [] (some hdrFlagsHigh) 1145304067 1 true = Run.fault ∧
    FSHDProcess (some []) true true [97, 98, 99] (some hdrFlagsHigh) 1145304067 1 true
      = .ok (FseRef.fresh
          { ln_Name := [97, 98, 99], fse_DosType := 1145304067, fse_Version := 1,
            fse_PatchFlags := 512, fields := [0, 0, 0, 0, 0, 0, 0, 0, 0] }, some []) := by
  decide

/-- C5 (amended): `FSHDProcess` called with a header and `newOnly = TRUE`.  If some
registry entry has the requested dostype and a version not below the requested one, it
returns NULL.
Otherwise, when the resource exists or can be allocated, the entry allocation succeeds
and the patch flags of the header select fields of the entry only (no bit above bit 8),
it returns a new entry that is in no list.  Whenever it returns, the entries of the
registry are the ones before the call, and a new entry carries the dostype, the version
and the patch flags of the header. -/
theorem FSHDProcess_newOnly_prepares (reg : Option (List FileSysEntry)) (okFsr okFse : Bool)
    (creator : List Nat) (hb : Buf) (dostype version : Nat) :
    ((∃ e, e ∈ regEntries reg ∧ e.fse_DosType = dostype ∧ e.fse_Version ≥ version) →
      ∃ reg2, FSHDProcess reg okFsr okFse creator (some hb) dostype version true
          = .ok (FseRef.null, reg2)) ∧
    ((¬ ∃ e, e ∈ regEntries reg ∧ e.fse_DosType = dostype ∧ e.fse_Version ≥ version) →
      (reg ≠ none ∨ okFsr = true) → okFse = true → fhb_PatchFlags hb < 512 →
      ∃ e reg2, FSHDProcess reg okFsr okFse creator (some hb) dostype version true
          = .ok (FseRef.fresh e, reg2)) ∧
    (∀ ref reg2, FSHDProcess reg okFsr okFse creator (some hb) dostype version true
        = .ok (ref, reg2) →
      regEntries reg2 = regEntries reg ∧
        ∀ e, ref = FseRef.fresh e → e.fse_DosType = fhb_DosType hb ∧
          e.fse_Version = fhb_Version hb ∧ e.fse_PatchFlags = fhb_PatchFlags hb) := by
  refine ⟨?_, ?_, ?_⟩
  · intro hex
    obtain ⟨l, hl⟩ : ∃ l, reg = some l := by
      cases reg with
      | some l => exact ⟨l, rfl⟩
      | none =>
        obtain ⟨e, he, _⟩ := hex
        exact absurd he (List.not_mem_nil e)
    subst hl
    obtain ⟨ref, hs, hn⟩ := fsScan_some dostype version true l 0 hex
    have hr := hn rfl
    subst hr
    unfold FSHDProcess
    show ∃ reg2, (match fsScan dostype version true l 0 with
      | some ref => Run.ok (ref, some l)
      | none => _) = Run.ok (FseRef.null, reg2)
    rw [hs]
    exact ⟨_, rfl⟩
  · intro hno hfsr hfse hpf
    obtain ⟨l, hl, hle⟩ : ∃ l, openFsr reg okFsr = some l ∧ l = regEntries reg := by
      cases reg with
      | some l => exact ⟨l, rfl, rfl⟩
      | none =>
        cases hfsr with
        | inl h => exact absurd rfl h
        | inr h =>
          subst h
          exact ⟨[], rfl, rfl⟩
    have hs := fsScan_none dostype version true l 0 (by rw [hle]; exact hno)
    obtain ⟨out, ho⟩ := patchLoop_total hb creator.length 9 33 0 (fhb_PatchFlags hb)
      (List.replicate 9 0) hpf (by decide) (by decide)
    unfold FSHDProcess
    rw [hl]
    simp only
    rw [hs]
    simp only
    rw [if_pos trivial, if_pos hfse, ho]
    exact ⟨_, _, rfl⟩
  · intro ref reg2 h
    obtain ⟨h1, h2⟩ := FSHDProcess_reg reg okFsr okFse creator (some hb) dostype version true
      ref reg2 h
    refine ⟨h1, fun e he => ?_⟩
    obtain ⟨hb2, hh, g1, g2, g3, _⟩ := h2 e he
    injection hh with hh
    subst hh
    exact ⟨g1, g2, g3⟩

/-- C5 (witness): with an empty registry and a zero header the call returns a new entry. -/
theorem FSHDProcess_newOnly_prepares_witness :
    ∃ e reg2, FSHDProcess (some []) true true [] (some (fun _ => 0)) 0 0 true
      = .ok (FseRef.fresh e, reg2) :=
  (FSHDProcess_newOnly_prepares (some []) true true [] (fun _ => 0) 0 0).2.1
    (fun ⟨e, he, _⟩ => absurd he (List.not_mem_nil e)) (Or.inr rfl) rfl (by decide)

/-- C6: `FSHDAdd` on an entry `fse`.  If `fse_SegList` is non-zero and the resource exists
with entry list `l`, the list afterwards is `fse` followed by `l`, nothing is freed, and
a lookup of the dostype of `fse` (`FSHDProcess` with `newOnly = FALSE`, for any version
up to that of `fse`, 0 included) returns entry number 0 of the list, which is `fse`.  If
`fse_SegList` is zero the registry is unchanged and the entry is passed to `FreeMem`. -/
theorem FSHDAdd_commits_or_frees (reg : Option (List FileSysEntry)) (fse : FileSysEntry) :
    (fse.fse_SegList ≠ 0 → ∀ l, reg = some l →
      FSHDAdd reg fse = (some (fse :: l), none) ∧
      (fse :: l).get? 0 = some fse ∧
      ∀ okFsr okFse creator fshb version, version ≤ fse.fse_Version →
        FSHDProcess (FSHDAdd reg fse).1 okFsr okFse creator fshb fse.fse_DosType version false
          = .ok (FseRef.linked 0, some (fse :: l))) ∧
    (fse.fse_SegList = 0 → FSHDAdd reg fse = (reg, some 62)) := by
  refine ⟨?_, ?_⟩
  · intro hs l hl
    subst hl
    have ha : FSHDAdd (some l) fse = (some (fse :: l), none) := by
      unfold FSHDAdd
      rw [if_pos hs]
    refine ⟨ha, rfl, ?_⟩
    intro okFsr okFse creator fshb version hv
    rw [ha]
    unfold FSHDProcess
    show (match fsScan fse.fse_DosType version false (fse :: l) 0 with
      | some ref => Run.ok (ref, some (fse :: l))
      | none => _) = _
    have hscan : fsScan fse.fse_DosType version false (fse :: l) 0 = some (FseRef.linked 0) := by
      rw [fsScan, if_pos ⟨rfl, hv⟩]
      rfl
    rw [hscan]
  · intro hz
    unfold FSHDAdd
    rw [if_neg (fun h => h hz)]

/-- C6 (witness): committing a loaded entry to an empty registry. -/
theorem FSHDAdd_commits_or_frees_witness :
    FSHDAdd (some []) fseLoaded = (some [fseLoaded], none) :=
  ((FSHDAdd_commits_or_frees (some []) fseLoaded).1 (by decide) [] rfl).1

/-- C2: when `fsrelocate` returns after the scratch table was allocated, every hunk
buffer obtained has byte size `(hunkSize + 2) * 4`; if the result is NULL the `FreeMem`
calls are exactly the hunk buffers, each once with the base address and byte size it was
allocated with, followed by the scratch table; if the result is non-NULL the only
`FreeMem` call is the one of the scratch table. -/
theorem fsrelocate_frees_what_it_allocated (fuel : Nat) (alloc : Nat → Nat → Nat → Nat)
    (temp : Nat) (md : MountData) (r : FsResult) (t : Nat × Nat)
    (h : fsrelocate fuel alloc temp md = .ok r) (ht : r.table = some t) :
    (∀ i, i < r.allocs.length →
      (r.allocs.getD i (0, 0)).2 = ((r.tbl i).hunkSize + 2) * 4 ∧
      (r.tbl i).hunkSize < 1073741824) ∧
    (r.seg = 0 → r.frees = r.allocs ++ [t]) ∧
    (r.seg ≠ 0 → r.frees = [t]) := by
  obtain ⟨hok, _, h0, h1⟩ := fsrelocate_balance fuel alloc temp md r t h ht
  refine ⟨fun i hi => ?_, h0, fun hne => (h1 hne).1⟩
  obtain ⟨_, _, t3, _, t5, _⟩ := (hok i).1 hi
  exact ⟨t3, by
    have : ((r.tbl i).hunkSize + 2) * 4 < 4294967296 := t5
    omega⟩

theorem fsrelocate_frees_what_it_allocated_witness :
    ∃ r, fsrelocate 20 allocPages 0 (loadState (lsegDisk imageB) 1) = .ok r ∧
      r.table = some (4096, 16) ∧
      ((∀ i, i < r.allocs.length →
        (r.allocs.getD i (0, 0)).2 = ((r.tbl i).hunkSize + 2) * 4 ∧
        (r.tbl i).hunkSize < 1073741824) ∧
      (r.seg = 0 → r.frees = r.allocs ++ [(4096, 16)]) ∧
      (r.seg ≠ 0 → r.frees = [(4096, 16)])) := by
  obtain ⟨r, hr, hs⟩ := summary_ok _ _ imageB_run
  have ht : r.table = some (4096, 16) := congrArg FsSummary.table hs
  exact ⟨r, hr, ht, fsrelocate_frees_what_it_allocated 20 allocPages 0 _ r (4096, 16) hr ht⟩

/-- C4 (as stated, refuted): in the load file `imageA` the hunks are numbered 1 and 2,
so `totalHunks` is 2; its relocation group names the index 2, which is not below
`totalHunks`, yet `fsrelocate` returns a non-NULL pointer and has applied the fix-up
of that group. -/
theorem fsrelocate_accepts_index_not_below_totalHunks :
    ∃ r, fsrelocate 20 allocPages 0 (loadState (lsegDisk imageA) 1) = .ok r ∧
      LoadEv.group 1 2 ∈ r.trace ∧ 2 ≥ r.totalHunks ∧ r.seg ≠ 0 ∧
      LoadEv.fix 0 1 0 ∈ r.trace := by
  obtain ⟨r, hr, hs⟩ := summary_ok _ _ imageA_run
  have h1 : r.trace = [LoadEv.group 1 2, LoadEv.fix 0 1 0] := congrArg FsSummary.trace hs
  have h2 : r.totalHunks = 2 := congrArg FsSummary.totalHunks hs
  have h3 : r.seg = 8196 := congrArg FsSummary.seg hs
  refine ⟨r, hr, ?_, ?_, ?_, ?_⟩
  · rw [h1]
    decide
  · rw [h2]
  · rw [h3]
    decide
  · rw [h1]
    decide

/-- C4 (amended): when a relocation group read by `fsrelocate` names a target-hunk index
`idx` that fails the range check of the code, `(idx - firstHunk) mod 2^32 >= totalHunks`
(the index lies outside `firstHunk .. lastHunk`), the result is NULL and the group is the
last entry of the trace: no fix-up of that group, nor any later one, is applied. -/
theorem fsrelocate_rejects_target_out_of_range (fuel : Nat) (alloc : Nat → Nat → Nat → Nat)
    (temp : Nat) (md : MountData) (r : FsResult) (pre post : List LoadEv) (c idx : Nat)
    (h : fsrelocate fuel alloc temp md = .ok r)
    (ht : r.trace = pre ++ LoadEv.group c idx :: post)
    (hb : BadTarget r.firstHunk r.totalHunks idx) : r.seg = 0 ∧ post = [] :=
  fsrelocate_bad_target fuel alloc temp md r pre post c idx h ht hb

theorem fsrelocate_rejects_target_out_of_range_witness :
    ∃ r, fsrelocate 20 allocPages 0 (loadState (lsegDisk imageB) 1) = .ok r ∧
      r.trace = [] ++ LoadEv.group 1 3 :: [] ∧ BadTarget r.firstHunk r.totalHunks 3 ∧
      (r.seg = 0 ∧ ([] : List LoadEv) = []) := by
  obtain ⟨r, hr, hs⟩ := summary_ok _ _ imageB_run
  have h1 : r.trace = [] ++ LoadEv.group 1 3 :: [] := congrArg FsSummary.trace hs
  have h2 : r.totalHunks = 2 := congrArg FsSummary.totalHunks hs
  have h3 : r.firstHunk = 1 := congrArg FsSummary.firstHunk hs
  have hb : BadTarget r.firstHunk r.totalHunks 3 := by
    rw [h2, h3]
    show (3 + 4294967296 - 1) % 4294967296 ≥ 2
    decide
  exact ⟨r, hr, h1, hb,
    fsrelocate_rejects_target_out_of_range 20 allocPages 0 _ r [] [] 1 3 hr h1 hb⟩

/-- C7: let `blocks` be the chain of accepted LSEG blocks ahead of the reader, ending at
`e`, and `lsegUnread md blocks` the longs not handed out yet (buffered longs, then the
123 data longs of each block in chain order).  If at least `n` of them remain,
`lseg_read_longs md n` returns TRUE and stores exactly the next `n`; the state afterwards
stands before the rest of the stream, and every block it read is one of the first blocks
of the chain, of which fewer than 123 longs beyond the request were not needed (none is
read when the buffer covers the request).  If fewer than `n` remain and the chain stops
at `e` (sentinel or a block that is not accepted), it returns FALSE. -/
theorem lseg_read_longs_stream (md : MountData) (blocks : List Nat) (e n : Nat)
    (hbs : md.blocksize = 512 ∨ md.blocksize = 2048)
    (hwf : md.lsegoffset + md.lseglongs ≤ 123)
    (hch : LsegChain md.request md.blocksize (maxRetries md) md.lsegblock blocks e) :
    (n ≤ (lsegUnread md blocks).length →
      ∃ md2, lseg_read_longs md n = .ok (true, (lsegUnread md blocks).take n, md2) ∧
        md2.lseghasword = false ∧
        LsegPost { md with lseghasword := false } md2 blocks e n) ∧
    ((lsegUnread md blocks).length < n →
      ChainEnds md.request md.blocksize (maxRetries md) e →
      ∃ md2, lseg_read_longs md n = .ok (false, lsegUnread md blocks, md2)) :=
  lseg_read_longs_spec md blocks e n hbs hwf hch

theorem lseg_read_longs_stream_witness :
    ((loadState (lsegDisk imageA) 1).blocksize = 512 ∨
        (loadState (lsegDisk imageA) 1).blocksize = 2048) ∧
      (loadState (lsegDisk imageA) 1).lsegoffset + (loadState (lsegDisk imageA) 1).lseglongs
        ≤ 123 ∧
      LsegChain (loadState (lsegDisk imageA) 1).request (loadState (lsegDisk imageA) 1).blocksize
        (maxRetries (loadState (lsegDisk imageA) 1)) (loadState (lsegDisk imageA) 1).lsegblock
        [1] 4294967295 ∧
      ((3 ≤ (lsegUnread (loadState (lsegDisk imageA) 1) [1]).length →
        ∃ md2, lseg_read_longs (loadState (lsegDisk imageA) 1) 3
            = .ok (true, (lsegUnread (loadState (lsegDisk imageA) 1) [1]).take 3, md2) ∧
          md2.lseghasword = false ∧
          LsegPost { loadState (lsegDisk imageA) 1 with lseghasword := false } md2 [1]
            4294967295 3) ∧
      ((lsegUnread (loadState (lsegDisk imageA) 1) [1]).length < 3 →
        ChainEnds (loadState (lsegDisk imageA) 1).request
          (loadState (lsegDisk imageA) 1).blocksize
          (maxRetries (loadState (lsegDisk imageA) 1)) 4294967295 →
        ∃ md2, lseg_read_longs (loadState (lsegDisk imageA) 1) 3
          = .ok (false, lsegUnread (loadState (lsegDisk imageA) 1) [1], md2))) :=
  ⟨Or.inl rfl, by decide, imageA_chain,
    lseg_read_longs_stream (loadState (lsegDisk imageA) 1) [1] 4294967295 3 (Or.inl rfl)
      (by decide) imageA_chain⟩

/-- C8: for a reader standing before a complete chain, with the unread half-word
stream `halfUnread` (the buffered half-word, then high and low half of every unread
long): the values of any sequence of successful `lseg_read_word` and `lseg_read_long`
calls are the next half-words in order, each `lseg_read_word` giving one and each
`lseg_read_long` two, joined as `(first << 16) | second`; and two `lseg_read_word`
calls from a long-aligned state give the high and then the low half of the next long
and consume exactly that long.  The calls do succeed: `lseg_read_word` returns TRUE
whenever a half-word is left, `lseg_read_long` whenever a long is left in the stream,
and from a long-aligned state with a long left both of two `lseg_read_word` calls. -/
theorem lseg_units_read_consecutive_halves (temp : Nat) (md : MountData) (blocks : List Nat)
    (e : Nat) (hinv : LsegInv md blocks e) :
    (∀ ops vals md2, readUnits temp ops md = .ok (some (vals, md2)) →
      ∃ rest, LsegInv md2 rest e ∧
        halfUnread md blocks = unitHalves ops vals ++ halfUnread md2 rest) ∧
    (∀ v md1, lseg_read_word md = .ok (true, some v, md1) →
      ∃ rest, LsegInv md1 rest e ∧ halfUnread md blocks = v :: halfUnread md1 rest) ∧
    (∀ v md1, lseg_read_long md temp = .ok (true, some v, md1) →
      ∃ h1 h2 rest, LsegInv md1 rest e ∧
        halfUnread md blocks = h1 :: h2 :: halfUnread md1 rest ∧ v = (h1 <<< 16) ||| h2) ∧
    (md.lseghasword = false → ∀ a b md2,
      readUnits temp [UnitRead.word, UnitRead.word] md = .ok (some ([a, b], md2)) →
      ∃ w rest, LsegInv md2 rest e ∧ lsegUnread md blocks = w :: lsegUnread md2 rest ∧
        a = w / 65536 ∧ b = w % 65536 ∧ md2.lseghasword = false) ∧
    (halfUnread md blocks ≠ [] → ∃ v md1, lseg_read_word md = .ok (true, some v, md1)) ∧
    (lsegUnread md blocks ≠ [] → ∃ v md1, lseg_read_long md temp = .ok (true, some v, md1)) ∧
    (md.lseghasword = false → lsegUnread md blocks ≠ [] →
      ∃ a b md2,
        readUnits temp [UnitRead.word, UnitRead.word] md = .ok (some ([a, b], md2))) :=
  have h := lseg_units_spec temp md blocks e hinv
  ⟨h.1, h.2.1, h.2.2.1, h.2.2.2, lseg_read_word_progress md blocks e hinv,
    lseg_read_long_progress temp md blocks e hinv,
    two_words_progress temp md blocks e hinv⟩

/-- C8 (witness): the reader before the LSEG block of `imageA`, whose first long is 1011.
Two `lseg_read_word` calls return 0 and 1011, the halves of that long, and consume it;
the calls `lseg_read_long`, `lseg_read_word`, `lseg_read_long` return 1011, 0 and 0, and
the half-words they stand for head the stream in that order; a single `lseg_read_long`
returns 1011. -/
theorem lseg_units_read_consecutive_halves_witness :
    (∃ md2 w rest,
      readUnits 0 [UnitRead.word, UnitRead.word] (loadState (lsegDisk imageA) 1)
        = .ok (some ([0, 1011], md2)) ∧
      LsegInv md2 rest 4294967295 ∧
      lsegUnread (loadState (lsegDisk imageA) 1) [1] = w :: lsegUnread md2 rest ∧
      0 = w / 65536 ∧ 1011 = w % 65536 ∧ md2.lseghasword = false) ∧
    (∃ md3 rest,
      readUnits 0 [UnitRead.long, UnitRead.word, UnitRead.long] (loadState (lsegDisk imageA) 1)
        = .ok (some ([1011, 0, 0], md3)) ∧
      LsegInv md3 rest 4294967295 ∧
      halfUnread (loadState (lsegDisk imageA) 1) [1]
        = unitHalves [UnitRead.long, UnitRead.word, UnitRead.long] [1011, 0, 0]
            ++ halfUnread md3 rest) ∧
    (∃ md4 h1 h2 rest,
      lseg_read_long (loadState (lsegDisk imageA) 1) 0 = .ok (true, some 1011, md4) ∧
      LsegInv md4 rest 4294967295 ∧
      halfUnread (loadState (lsegDisk imageA) 1) [1] = h1 :: h2 :: halfUnread md4 rest ∧
      1011 = (h1 <<< 16) ||| h2) := by
  obtain ⟨md2, md3, md4, e1, e2, e3⟩ := imageA_units
  have h := lseg_units_read_consecutive_halves 0 (loadState (lsegDisk imageA) 1) [1]
    4294967295 imageA_inv
  obtain ⟨w, rest, g1, g2, g3, g4, g5⟩ := h.2.2.2.1 rfl 0 1011 md2 e1
  obtain ⟨rest3, k1, k2⟩ := h.1 _ _ md3 e2
  obtain ⟨h1, h2, rest4, m1, m2, m3⟩ := h.2.2.1 1011 md4 e3
  exact ⟨⟨md2, w, rest, e1, g1, g2, g3, g4, g5⟩, ⟨md3, rest3, e2, k1, k2⟩,
    ⟨md4, h1, h2, rest4, e3, m1, m2, m3⟩⟩

/-- C11: in a `readblock` call the number of `DoIO` read attempts is at most
`max_retries`, which is 3, or 15 with `slowSpinup`; every attempt reads the same offset;
an attempt is followed by another only if it returned `ERROR_NOT_READY`; the first
attempt that returns another error makes `readblock` return FALSE with no further
attempt; and if every attempt of the budget returns `ERROR_NOT_READY`, `readblock`
returns FALSE after exactly `max_retries` attempts. -/
theorem readblock_retry_budget (buf : Buf) (block id : Nat) (md : MountData) :
    maxRetries md = (if md.slowSpinup = true then 15 else 3) ∧
    readAttempts buf block md ≤ maxRetries md ∧
    (∀ v b md2, readblock buf block id md = .ok (v, b, md2) →
      md2.iolog = List.replicate (readAttempts buf block md) (blockOffset block) ++ md.iolog) ∧
    (∀ j, j + 1 < readAttempts buf block md →
      md.request.err j (blockOffset block) ≠ 0 ∧
      md.request.err j (blockOffset block) = md.request.ERROR_NOT_READY) ∧
    (∀ j, j < maxRetries md →
      (∀ j2, j2 < j → md.request.err j2 (blockOffset block) ≠ 0 ∧
        md.request.err j2 (blockOffset block) = md.request.ERROR_NOT_READY) →
      md.request.err j (blockOffset block) ≠ 0 →
      md.request.err j (blockOffset block) ≠ md.request.ERROR_NOT_READY →
      readAttempts buf block md = j + 1 ∧
      ∃ b md2, readblock buf block id md = .ok (false, b, md2)) ∧
    ((∀ j, j < maxRetries md → md.request.err j (blockOffset block) ≠ 0 ∧
        md.request.err j (blockOffset block) = md.request.ERROR_NOT_READY) →
      readAttempts buf block md = maxRetries md ∧
      ∃ b md2, readblock buf block id md = .ok (false, b, md2)) := by
  obtain ⟨n, hle, hlog, hprev, hcase⟩ := retryLoop_attempts md.request (blockOffset block)
    md.blocksize (maxRetries md) (maxRetries md) 0 buf md.iolog (Nat.zero_add _)
  have hn : readAttempts buf block md = n := by
    unfold readAttempts
    rw [hlog, List.length_append, List.length_replicate]
    omega
  have hfalse : (retryLoop md.request (blockOffset block) md.blocksize (maxRetries md)
      (maxRetries md) 0 buf md.iolog).1 = maxRetries md →
      ∃ b md2, readblock buf block id md = .ok (false, b, md2) := by
    intro h
    unfold readblock
    simp only
    rw [if_pos h]
    exact ⟨_, _, rfl⟩
  have hprev0 : ∀ j, j + 1 < n → md.request.err j (blockOffset block) ≠ 0 ∧
      md.request.err j (blockOffset block) = md.request.ERROR_NOT_READY := by
    intro j hj
    have := hprev j hj
    rw [Nat.zero_add] at this
    exact this
  rw [hn]
  refine ⟨rfl, hle, ?_, hprev0, ?_, ?_⟩
  · intro v b md2 h
    rw [← hlog]
    unfold readblock at h
    simp only at h
    split at h
    · injection h with h; injection h with _ h; injection h with _ h; subst h; rfl
    · split at h
      · injection h with h; injection h with _ h; injection h with _ h; subst h; rfl
      · split at h
        · injection h with h; injection h with _ h; injection h with _ h; subst h; rfl
        · injection h with h; injection h with _ h; injection h with _ h; subst h; rfl
        · exact Run.noConfusion h
        · exact Run.noConfusion h
  · intro j hj hbefore h0 hnr
    rcases hcase with ⟨h1, h2, _⟩ | ⟨h1, h2, h3, h4⟩ | ⟨h1, h2, h3⟩
    · rw [Nat.zero_add] at h2
      exfalso
      rcases Nat.lt_trichotomy (n - 1) j with hlt | heq | hgt
      · exact (hbefore _ hlt).1 h2
      · rw [heq] at h2
        exact h0 h2
      · exact hnr (hprev0 j (by omega)).2
    · rw [Nat.zero_add] at h2 h3
      rcases Nat.lt_trichotomy (n - 1) j with hlt | heq | hgt
      · exact absurd (hbefore _ hlt).2 h3
      · exact ⟨by omega, hfalse h4⟩
      · exact absurd (hprev0 j (by omega)).2 hnr
    · have := h2 j (by omega)
      rw [Nat.zero_add] at this
      exact absurd this.2 hnr
  · intro hall
    rcases hcase with ⟨h1, h2, _⟩ | ⟨h1, h2, h3, h4⟩ | ⟨h1, h2, h3⟩
    · rw [Nat.zero_add] at h2
      exact absurd h2 (hall _ (by omega)).1
    · rw [Nat.zero_add] at h3
      exact absurd (hall _ (by omega)).2 h3
    · exact ⟨h1, hfalse h3⟩

/-- C11 (witness): on a drive that is never ready a call without `slowSpinup` makes
exactly three attempts and returns FALSE. -/
theorem readblock_retry_budget_witness :
    readAttempts (fun _ => 0) 0 (MountData.fresh devNotReady false 512) = 3 ∧
      ∃ b md2, readblock (fun _ => 0) 0 IDNAME_PARTITION (MountData.fresh devNotReady false 512)
        = .ok (false, b, md2) :=
  (readblock_retry_budget (fun _ => 0) 0 IDNAME_PARTITION
    (MountData.fresh devNotReady false 512)).2.2.2.2.2
    (fun _ _ => ⟨Int.one_ne_zero, rfl⟩)

/-- C12: for block size 512 or 2048.  If none of the blocks below `RDB_LOCATION_LIMIT` is
accepted by `readblock` (transfer and zero checksum) with the RDSK signature, `ScanRDSK`
returns -1.  Otherwise, with `i0` the lowest such block, `ScanRDSK` is `ParseRDSK` run on
the buffer that holds block `i0`, and every read issued before that parse addresses a
block numbered `i0` or lower (or was in the log before the call). -/
theorem ScanRDSK_parses_lowest_rdb (env : Env) (f : Nat) (w : Walk)
    (hbs : w.md.blocksize = 512 ∨ w.md.blocksize = 2048) :
    ((∀ i, i < RDB_LOCATION_LIMIT →
        ¬ RdbAt w.md.request w.md.blocksize (maxRetries w.md) i) →
      ∃ w1, ScanRDSK env f w = .ok (-1, w1)) ∧
    (∀ i0, i0 < RDB_LOCATION_LIMIT →
      RdbAt w.md.request w.md.blocksize (maxRetries w.md) i0 →
      (∀ j, j < i0 → ¬ RdbAt w.md.request w.md.blocksize (maxRetries w.md) j) →
      ∃ buf L, ScanRDSK env f w
          = ParseRDSK env f
              { w with pbuf := xfer w.md.request (blockOffset i0) w.md.blocksize buf,
                       md := { w.md with iolog := L } } ∧
        ∀ o, o ∈ L → o ∈ w.md.iolog ∨ ∃ j, j ≤ i0 ∧ o = blockOffset j) := by
  have hmr : maxRetries w.md = (if w.md.slowSpinup = true then 15 else 3) := rfl
  refine ⟨?_, ?_⟩
  · intro hno
    obtain ⟨b, L, hs, _⟩ := scanLoop_none env f w.md.request w.md.blocksize w.md.slowSpinup hbs
      RDB_LOCATION_LIMIT 0 w rfl rfl rfl
      (fun j _ hj => by
        rw [← hmr]
        exact hno j (by omega))
    exact ⟨_, hs⟩
  · intro i0 hi0 hrdb hlow
    have hi1 : i0 < 16 := hi0
    obtain ⟨buf, L, hs, hl⟩ := scanLoop_first env f i0 w.md.request w.md.blocksize
      w.md.slowSpinup hbs (by rw [← hmr]; exact hrdb) i0 0 RDB_LOCATION_LIMIT w (by omega)
      (by show i0 < 0 + 16; omega) rfl rfl rfl
      (fun j _ hj => by
        rw [← hmr]
        exact hlow j hj)
    refine ⟨buf, L, hs, ?_⟩
    intro o ho
    rcases hl o ho with h | ⟨j, _, h2, h3⟩
    · exact Or.inl h
    · exact Or.inr ⟨j, h2, h3⟩

/-- C12 (witness): on a blank disk the scan returns -1. -/
theorem ScanRDSK_parses_lowest_rdb_witness :
    ∃ w1, ScanRDSK envAllOK 0 (walkStart (blockDisk [])) = .ok (-1, w1) :=
  (ScanRDSK_parses_lowest_rdb envAllOK 0 (walkStart (blockDisk [])) (Or.inl rfl)).1
    (fun i _ => blankDisk_no_rdb _ _ i)

/-- C13: let block `b` of the medium `dev` be a PART block that `readblock` accepts (block
size 512 or 2048), and let the unit read be `dev` with one byte of that block replaced
by a different value.  Then `readblock` rejects the block under every identifier;
`ParsePART` on it returns the sentinel 0xffffffff with the count `md->ret` and the list of
mounted partitions as they were; and the walk of `ParseRDSK` arriving at `b` ends there
with the same count. -/
theorem ParsePART_rejects_corrupted_block (env : Env) (f b fsb k v : Nat) (w : Walk)
    (dev : Device)
    (hbs : w.md.blocksize = 512 ∨ w.md.blocksize = 2048)
    (hdev : w.md.request = pokeByte dev (blockOffset b + k) v)
    (hgood : BlockGood dev w.md.blocksize (maxRetries w.md) b IDNAME_PARTITION)
    (hk : k < w.md.blocksize)
    (hv : v % 256 ≠ dev.byte (blockOffset b + k) % 256) :
    (∀ id, ¬ BlockGood w.md.request w.md.blocksize (maxRetries w.md) b id) ∧
    (∃ w1, ParsePART env f b fsb w = .ok (4294967295, w1) ∧
      w1.md.ret = w.md.ret ∧ w1.sys = w.sys) ∧
    (∃ w1, partLoop env fsb (f + 2) b w = .ok w1 ∧
      w1.md.ret = w.md.ret ∧ w1.sys = w.sys) := by
  have hbad : ∀ id, ¬ BlockGood w.md.request w.md.blocksize (maxRetries w.md) b id := by
    intro id
    rw [hdev]
    exact BlockGood_poke dev _ _ b k v IDNAME_PARTITION id hbs hgood hk hv
  obtain ⟨buf1, L, hr, _⟩ := (readblock_cases w.pbuf b IDNAME_PARTITION w.md hbs).2
    (hbad IDNAME_PARTITION)
  have hp : ParsePART env f b fsb w
      = .ok (4294967295, { w with pbuf := buf1, md := { w.md with iolog := L } }) := by
    unfold ParsePART
    rw [hr]
  have hp1 : ParsePART env (f + 1) b fsb w
      = .ok (4294967295, { w with pbuf := buf1, md := { w.md with iolog := L } }) := by
    unfold ParsePART
    rw [hr]
  refine ⟨hbad, ⟨_, hp, rfl, rfl⟩, ?_⟩
  by_cases hb : b = 4294967295
  · rw [partLoop, if_pos hb]
    exact ⟨w, rfl, rfl, rfl⟩
  · rw [partLoop, if_neg hb, hp1]
    simp only
    rw [partLoop, if_pos rfl]
    exact ⟨_, rfl, rfl, rfl⟩

set_option maxRecDepth 1000000 in
/-- C13 (witness): the disk `diskTwoParts` with the first byte of the drive name of its
PART block 1 (byte address 549) set to 0. -/
theorem ParsePART_rejects_corrupted_block_witness :
    ∃ w1, ParsePART envAllOK 1 1 4294967295 (walkStart (pokeByte diskTwoParts (512 + 37) 0))
        = .ok (4294967295, w1) ∧
      w1.md.ret = 0 ∧ w1.sys = (walkStart (pokeByte diskTwoParts (512 + 37) 0)).sys :=
  (ParsePART_rejects_corrupted_block envAllOK 1 1 4294967295 37 0
    (walkStart (pokeByte diskTwoParts (512 + 37) 0)) diskTwoParts (Or.inl rfl) rfl
    diskTwoParts_chain.2.2.1 (by decide) (by decide)).2.1

set_option maxRecDepth 1000000 in
/-- C14 (the code at the failing input): on `diskBadImage` the filesystem header of the
partition's dostype is found and the load of its image fails.  `ParseFSHD` hands back
the address of the provisional entry that `FSHDAdd` has just freed; the registry holds
no entry; and `ParsePART` mounts the partition (the scan returns 1) with that pointer
as the entry whose patch flags and fields it applies to the device node. -/
theorem ParseFSHD_hands_back_freed_entry :
    Run.map (fun r => (r.1, r.2.2.2))
        (ParseFSHD envAllOK 0 1146049281 3 (fun _ => 0) 2
          (MountData.fresh diskBadImage false 512) none)
      = .ok (FseRef.freed fseFailed, some []) ∧
    Run.map (fun r => (r.1, r.2.sys.mounted, r.2.sys.reg))
        (ScanRDSK envAllOK 4 (walkStart diskBadImage))
      = .ok (1, [FseRef.freed fseFailed], some []) := by
  decide

/-- C15: the case CODE, DATA or BSS of the load pass for hunk number `cur`, when the
word count `n` has been read from a reader standing before a complete chain, the table
agrees with the buffers and the data area of the hunk is still zero.  If `n` exceeds
the declared size, `loadHunk` gives `goto end` with `ret = 0`, the load loop returns
that, and `fsrelocate` then returns NULL.  Otherwise, for CODE and DATA with `n` longs
left in the stream, long `j` of the data area is long `j` of the unread stream for
`j < n` and every later long is zero; for BSS the table is left as it is.  The data
area is zero when its token arrives: the pre-allocation pass leaves every data area
zero, and a load or a relocation table for hunk `c` changes no hunk other than `c`. -/
theorem loadHunk_loads_declared_words (temp ty cur n : Nat) (ld : Loader) (md1 : MountData)
    (blocks : List Nat) (e : Nat)
    (hinv : LsegInv ld.md blocks e)
    (hcount : lseg_read_long ld.md temp = .ok (true, some n, md1))
    (hok : TableOK ld) (hcur : cur < ld.allocs.length) (hz : DataZero (ld.tbl cur)) :
    (∃ rest, LsegInv md1 rest e ∧
      (n > (ld.tbl cur).hunkSize →
        loadHunk temp ty cur ld = .ok (false, { ld with md := md1 })) ∧
      (n ≤ (ld.tbl cur).hunkSize → ty ≠ HUNK_BSS → n ≤ (lsegUnread md1 rest).length →
        ∃ ld2, loadHunk temp ty cur ld = .ok (true, ld2) ∧
          (∀ j, j < n →
            loadLong (ld2.tbl cur).mem (8 + 4 * j) = (lsegUnread md1 rest).getD j 0) ∧
          (∀ j, n ≤ j → loadLong (ld2.tbl cur).mem (8 + 4 * j) = 0)) ∧
      (n ≤ (ld.tbl cur).hunkSize → ty = HUNK_BSS →
        loadHunk temp ty cur ld = .ok (true, { ld with md := md1 }))) ∧
    (∀ (fh th fuel : Nat) (hunkCnt : Int) rh (l l2 : Loader) t mdT,
      lseg_read_long l.md temp = .ok (true, some t, mdT) →
      (t = HUNK_CODE ∨ t = HUNK_DATA ∨ t = HUNK_BSS) →
      0 ≤ hunkCnt → hunkCnt < (th : Int) → hunkCnt.toNat < l.tlen →
      loadHunk temp t hunkCnt.toNat { l with md := mdT } = .ok (false, l2) →
      loadLoop temp fh th (fuel + 1) hunkCnt rh l = .ok (false, l2)) ∧
    (∀ fh th ta ts fph l r, fsFinish fh th ta ts false fph l = .ok r → r.seg = 0) ∧
    (∀ alloc th fuel hunkCnt prevChunk fph l v f l2,
      preAlloc alloc temp th fuel hunkCnt prevChunk fph l = .ok (v, f, l2) →
      Unloaded l 0 → Unloaded l2 0) ∧
    (∀ t c l v l2, loadHunk temp t c l = .ok (v, l2) →
      ∀ k, c < k → Unloaded l k → Unloaded l2 k) ∧
    (∀ short fh th c fuel l v l2, relocGroups short temp fh th c fuel l = .ok (v, l2) →
      ∀ k, c < k → Unloaded l k → Unloaded l2 k) :=
  ⟨loadHunk_cases temp ty cur n ld md1 blocks e hinv hcount hok hcur hz,
    fun fh th fuel hunkCnt rh l l2 t mdT h1 h2 h3 h4 h5 h6 =>
      loadLoop_load_fails temp fh th fuel hunkCnt rh l l2 t mdT h1 h2 h3 h4 h5 h6,
    fun fh th ta ts fph l r h => (fsFinish_spec fh th ta ts false fph l r h).2.2.2.2.2.2.2.2 rfl
      |>.1,
    fun alloc th fuel hunkCnt prevChunk fph l v f l2 h hu =>
      preAlloc_unloaded alloc temp th fuel hunkCnt prevChunk fph l v f l2 h hu,
    fun t c l v l2 h k hk hu =>
      StepKeeps_unloaded c k l l2 (loadHunk_keeps temp t c l v l2 h) hk hu,
    fun short fh th c fuel l v l2 h k hk hu =>
      StepKeeps_unloaded c k l l2 (relocGroups_keeps short temp fh th c fuel l v l2 h) hk hu⟩

/-- C15 (witness): hunk 0 of `ldCount` (one long) receives the long 0x12345678 that
follows the count 1. -/
theorem loadHunk_loads_declared_words_witness :
    ∃ md1 rest, lseg_read_long ldCount.md 0 = .ok (true, some 1, md1) ∧
      LsegInv md1 rest 4294967295 ∧
      (1 ≤ (ldCount.tbl 0).hunkSize → HUNK_CODE ≠ HUNK_BSS →
        1 ≤ (lsegUnread md1 rest).length →
        ∃ ld2, loadHunk 0 HUNK_CODE 0 ldCount = .ok (true, ld2) ∧
          (∀ j, j < 1 →
            loadLong (ld2.tbl 0).mem (8 + 4 * j) = (lsegUnread md1 rest).getD j 0) ∧
          (∀ j, 1 ≤ j → loadLong (ld2.tbl 0).mem (8 + 4 * j) = 0)) := by
  obtain ⟨md1, hr⟩ := ldCount_read
  obtain ⟨rest, h1, _, h3, _⟩ := (loadHunk_loads_declared_words 0 HUNK_CODE 0 1 ldCount md1 [1]
    4294967295 ldCount_inv hr ldOne_ok (by decide) ldCount_zero).1
  exact ⟨md1, rest, hr, h1, h3⟩

/-- C16: when `fsrelocate` returns a non-NULL pointer, it has obtained a buffer for each
of the `totalHunks` hunks; buffer `k` has `declared size + 2` longs (the size stored in
the table, flag bits stripped), its long 0 holds `declared size + 2`, its long 1 holds 0
for `k = 0` and else the BPTR (address shifted right by 2) of the link field of buffer
`k - 1` (its base plus 4), the data pointer of the table is the base plus 8, and the
pointer returned is the base of buffer 0 plus 4. -/
theorem fsrelocate_success_layout (fuel : Nat) (alloc : Nat → Nat → Nat → Nat) (temp : Nat)
    (md : MountData) (r : FsResult)
    (h : fsrelocate fuel alloc temp md = .ok r) (hseg : r.seg ≠ 0) :
    r.allocs.length = r.totalHunks ∧ 0 < r.totalHunks ∧
    (∀ k, k < r.totalHunks →
      (r.allocs.getD k (0, 0)).2 = ((r.tbl k).hunkSize + 2) * 4 ∧
      loadLong (r.tbl k).mem 0 = (r.tbl k).hunkSize + 2 ∧
      (k = 0 → loadLong (r.tbl k).mem 4 = 0) ∧
      (0 < k → loadLong (r.tbl k).mem 4 = ((r.allocs.getD (k - 1) (0, 0)).1 + 4) >>> 2) ∧
      (r.tbl k).hunkData = (r.allocs.getD k (0, 0)).1 + 8) ∧
    r.seg = (r.allocs.getD 0 (0, 0)).1 + 4 := by
  obtain ⟨hok, hh, hlen, hs, hne⟩ := fsrelocate_layout fuel alloc temp md r h hseg
  have hpos : 0 < r.allocs.length := List.length_pos.mpr hne
  refine ⟨hlen, by omega, ?_, hs⟩
  intro k hk
  have hk2 : k < r.allocs.length := by omega
  obtain ⟨t1, _, t3, _, _, _⟩ := (hok k).1 hk2
  obtain ⟨w0, w1⟩ := hh k hk2
  refine ⟨t3, w0, ?_, ?_, t1⟩
  · intro h0
    have w2 : loadLong (r.tbl k).mem 4 = MKBADDR (linkBefore r.allocs k) := w1
    rw [w2]
    unfold linkBefore
    rw [if_pos h0]
    rfl
  · intro h0
    have w2 : loadLong (r.tbl k).mem 4 = MKBADDR (linkBefore r.allocs k) := w1
    rw [w2]
    unfold linkBefore
    rw [if_neg (by omega)]
    rfl

/-- C16 (witness): the load of `imageA` succeeds with two hunk buffers. -/
theorem fsrelocate_success_layout_witness :
    ∃ r, fsrelocate 20 allocPages 0 (loadState (lsegDisk imageA) 1) = .ok r ∧ r.seg ≠ 0 ∧
      r.allocs.length = r.totalHunks ∧ 0 < r.totalHunks ∧
      (∀ k, k < r.totalHunks →
        (r.allocs.getD k (0, 0)).2 = ((r.tbl k).hunkSize + 2) * 4 ∧
        loadLong (r.tbl k).mem 0 = (r.tbl k).hunkSize + 2 ∧
        (k = 0 → loadLong (r.tbl k).mem 4 = 0) ∧
        (0 < k → loadLong (r.tbl k).mem 4 = ((r.allocs.getD (k - 1) (0, 0)).1 + 4) >>> 2) ∧
        (r.tbl k).hunkData = (r.allocs.getD k (0, 0)).1 + 8) ∧
      r.seg = (r.allocs.getD 0 (0, 0)).1 + 4 := by
  obtain ⟨r, hr, hs⟩ := summary_ok _ _ imageA_run
  have h3 : r.seg = 8196 := congrArg FsSummary.seg hs
  have hne : r.seg ≠ 0 := by
    rw [h3]
    decide
  exact ⟨r, hr, hne, fsrelocate_success_layout 20 allocPages 0 _ r hr hne⟩

/-- C18 (the code at the failing input): the one-character names "[" and "\x7b" differ
and are not the two cases of a letter, yet `CompareBSTRNoCase` returns TRUE for them:
`ToUpper`, whose test `c >= 'a' || c <= 'z'` holds for every byte, sets bit 5 of both (it
maps "[" to "\x7b", and the letter A to a). -/
theorem CompareBSTRNoCase_equates_non_letters :
    CompareBSTRNoCase (nameBuf [91]) 0 [1, 123] = true ∧ ToUpper 91 = 123 ∧
      ToUpper 123 = 123 ∧ ToUpper 65 = 97 := by
  decide

set_option maxRecDepth 1000000 in
/-- C20 (the code at the failing input): on the bus `hostTwoDisks`, without LUN scanning,
the scan of unit 0 returns 1 and mounts one partition; unit 1 opens, `ret` is set back
to -1 and its scan finds no RDB; the units 2 to 7 do not open.  `MountDrive` returns -1
although one partition was mounted during the call (`md->ret` is 1 at the end). -/
theorem MountDrive_returns_last_unit_result :
    Run.map (fun r => (r.1, r.2.sys.mounted.length))
        (scanUnit envAllOK hostTwoDisks 4 0 (driveStart msPlain none).w) = .ok (1, 1) ∧
    Run.map (fun d => (d.ret, d.w.sys.mounted.length, d.w.md.ret, d.tried))
        (MountDrive envAllOK hostTwoDisks msPlain 4 none)
      = .ok (-1, 1, 1, [0, 1, 2, 3, 4, 5, 6, 7]) := by
  decide

set_option maxRecDepth 1000000 in
/-- C21 (the code at the failing input): scanned first, the disk `diskNoParts` (a valid
RDB, no partition) gives 0.  On the bus `hostSecondEmpty` the scan of unit 0 mounts one
partition and returns 1; the scan of unit 1, the disk `diskNoParts`, then returns 1 as
well although it mounts nothing: the list of mounted partitions has the same length
before and after, and `md->ret` still holds the count of unit 0. -/
theorem ScanRDSK_count_carries_over_units :
    Run.map (fun r => (r.1, r.2.sys.mounted.length))
        (ScanRDSK envAllOK 4 (walkStart diskNoParts)) = .ok (0, 0) ∧
    Run.map (fun r => (r.1, r.2.sys.mounted.length, r.2.md.ret))
        (scanUnit envAllOK hostSecondEmpty 4 0 (driveStart msPlain none).w) = .ok (1, 1, 1) ∧
    Run.map (fun r => (r.1, r.2.sys.mounted.length, r.2.md.ret))
        (Run.bind (scanUnit envAllOK hostSecondEmpty 4 0 (driveStart msPlain none).w)
          (fun r => scanUnit envAllOK hostSecondEmpty 4 1 r.2)) = .ok (1, 1, 1) ∧
    Run.map (fun d => (d.ret, d.w.sys.mounted.length, d.tried))
        (MountDrive envAllOK hostSecondEmpty msPlain 4 none)
      = .ok (1, 1, [0, 1, 2, 3, 4, 5, 6, 7]) := by
  decide

set_option maxRecDepth 1000000 in
/-- C22 (the code at the failing input): LUN scanning enabled, `ignore_last` not set.
On the bus `hostLastDev` the RDB of unit 0 carries `RDBFF_LAST`, and the scan of unit 0
sets `md->wasLastDev`.  `MountDrive` then passes unit 10 (LUN 1 of target 0) to
`OpenDevice`, which fails, goes on to target 1, opens unit 1 and mounts its partition,
and tries every remaining target. -/
theorem MountDrive_opens_units_after_last_device :
    envAllOK.ignore_last = false ∧
    Run.map (fun r => (r.1, r.2.md.wasLastDev, r.2.md.wasLastLun))
        (scanUnit envAllOK hostLastDev 4 0 (driveStart msLuns none).w)
      = .ok (0, true, false) ∧
    Run.map (fun d => (d.ret, d.w.sys.mounted.length, d.tried))
        (MountDrive envAllOK hostLastDev msLuns 4 none)
      = .ok (1, 1, [0, 10, 1, 11, 2, 3, 4, 5, 6, 7]) := by
  decide

set_option maxRecDepth 1000000 in
/-- C23 (the code at the failing input): LUN scanning enabled.  On the bus `hostAllLuns`
target 0 opens on every LUN; after LUN 7 the test `lun++ < 8` still holds, so
`MountDrive` passes unit number 80 (LUN 8 of target 0) to `OpenDevice`.  No target from
0 to 7 and LUN from 0 to 7 give the unit number 80. -/
theorem MountDrive_opens_lun_eight :
    Run.map (fun d => d.tried) (MountDrive envAllOK hostAllLuns msLuns 4 none)
      = .ok [0, 10, 20, 30, 40, 50, 60, 70, 80, 1, 2, 3, 4, 5, 6, 7] ∧
    ¬ ∃ target lun, target < 8 ∧ lun < 8 ∧ target + 10 * lun = 80 := by
  refine ⟨by decide, ?_⟩
  rintro ⟨target, lun, ht, hl, h⟩
  omega

set_option maxRecDepth 1000000 in
/-- C26 (the code at the failing input): for a hunk of declared size 0 the bound
`(rh->hunkSize - 1) * sizeof(ULONG)` is 0xFFFFFFFC, so `relocOne` does not refuse the
offset 0 and goes on to the write, which lies behind the 8 bytes allocated for the hunk:
the load of `imageZeroHunk` runs into that write instead of failing.  For a hunk of one
long the offset 0 is accepted and the offset 1 refused. -/
theorem fsrelocate_writes_outside_zero_size_hunk :
    ((hunkZero.hunkSize + 4294967295) % 4294967296 * 4) % 4294967296 = 4294967292 ∧
    Run.map (fun o => o.isSome) (relocOne hunkZero 8200 0) = .fault ∧
    Run.map FsResult.summary (fsrelocate 20 allocPages 0 (loadState (lsegDisk imageZeroHunk) 1))
      = .fault ∧
    Run.map (fun o => o.isSome) (relocOne hunkOne 8200 0) = .ok true ∧
    Run.map (fun o => o.isSome) (relocOne hunkOne 8200 1) = .ok false := by
  decide

set_option maxRecDepth 1000000 in
/-- C27 (the code at the failing input): the lookup `FSHDProcess(NULL, dostype, 0,
FALSE, md)` returns the first entry of the requested dostype when there is one.  When
the registry holds no such entry, also when it is empty or has just been created, the
pointer returned is not NULL but the scan pointer left at the tail node of the list
header; only a resource that cannot be created gives NULL.  On `diskTwoParts`, which
has no filesystem header, the partition is mounted with that pointer. -/
theorem FSHDProcess_lookup_returns_list_tail :
    FSHDProcess (some [fseLoaded, fseOther 2, fseOther 3]) true true [] none 1145304067 0 false
      = .ok (FseRef.linked 1, some [fseLoaded, fseOther 2, fseOther 3]) ∧
    FSHDProcess (some [fseLoaded, fseOther 2]) true true [] none 1145304068 0 false
      = .ok (FseRef.tail, some [fseLoaded, fseOther 2]) ∧
    FSHDProcess (some []) true true [] none 1145304067 0 false = .ok (FseRef.tail, some []) ∧
    FSHDProcess none true true [] none 1145304067 0 false = .ok (FseRef.tail, some []) ∧
    FSHDProcess none false true [] none 1145304067 0 false = .ok (FseRef.null, none) ∧
    Run.map (fun r => (r.1, r.2.sys.mounted, r.2.sys.reg))
        (ScanRDSK envAllOK 4 (walkStart diskTwoParts)) = .ok (1, [FseRef.tail], some []) := by
  decide

set_option maxRecDepth 1000000 in
/-- C24 (counterexample): the header `hdrFlagsFour` has `fhb_PatchFlags` 4, bit 2 alone,
and the field longs 17, 18, 19, 20.  The entry `FSHDProcess` fabricates from it holds 17
and 18 in the fields number 0 and 1, whose bits are clear; field number 3 is zero. -/
theorem FSHDProcess_copies_unflagged_fields :
    fhb_PatchFlags hdrFlagsFour = 4 ∧
    (List.range 4).map (fhb_Field hdrFlagsFour) = [17, 18, 19, 20] ∧
    FSHDProcess (some []) true true [] (some hdrFlagsFour) 1145304067 1 true
      = .ok (FseRef.fresh
          { ln_Name := [], fse_DosType := 1145304067, fse_Version := 1, fse_PatchFlags := 4,
            fields := [17, 18, 19, 0, 0, 0, 0, 0, 0] }, some []) := by
  decide

/-- C24 (amended): `FSHDProcess` called with a header and `newOnly = TRUE`, when no
registry entry of the dostype has the version or a higher one, the resource exists or
can be allocated, the entry allocation succeeds and the patch flags are below 2^9.  The
call returns a new entry in which, for every `i` below 9, field number `i` (counted from
`fse_Type`) equals the header's field number `i` when some bit of `fhb_PatchFlags` at
position `i` or higher is set, and is zero otherwise.  In particular a field whose own
bit is set equals the header's field. -/
theorem FSHDProcess_copies_fields_up_to_top_flag (reg : Option (List FileSysEntry))
    (okFsr okFse : Bool) (creator : List Nat) (hb : Buf) (dostype version : Nat)
    (hno : ¬ ∃ e, e ∈ regEntries reg ∧ e.fse_DosType = dostype ∧ e.fse_Version ≥ version)
    (hfsr : reg ≠ none ∨ okFsr = true) (hfse : okFse = true)
    (hpf : fhb_PatchFlags hb < 512) :
    ∃ e reg2, FSHDProcess reg okFsr okFse creator (some hb) dostype version true
        = .ok (FseRef.fresh e, reg2) ∧
      ∀ i, i < 9 →
        e.fields.getD i 0 = (if fhb_PatchFlags hb >>> i ≠ 0 then fhb_Field hb i else 0) ∧
        ((fhb_PatchFlags hb >>> i) % 2 = 1 → e.fields.getD i 0 = fhb_Field hb i) := by
  obtain ⟨l, hl, hle⟩ : ∃ l, openFsr reg okFsr = some l ∧ l = regEntries reg := by
    cases reg with
    | some l => exact ⟨l, rfl, rfl⟩
    | none =>
      cases hfsr with
      | inl h => exact absurd rfl h
      | inr h =>
        subst h
        exact ⟨[], rfl, rfl⟩
  have hs := fsScan_none dostype version true l 0 (by rw [hle]; exact hno)
  obtain ⟨out, ho, _, hv⟩ := patchLoop_fields hb creator.length 9 33 0 (fhb_PatchFlags hb)
    (List.replicate 9 0) hpf (by decide) (by decide) rfl
  have hfield : ∀ i, i < 9 →
      out.getD i 0 = (if fhb_PatchFlags hb >>> i ≠ 0 then fhb_Field hb i else 0) := by
    intro i hi
    rw [hv i hi, Nat.sub_zero]
    have hz : (List.replicate 9 0).getD i 0 = 0 := by
      interval_cases i <;> rfl
    rw [hz]
    by_cases h : fhb_PatchFlags hb >>> i ≠ 0
    · rw [if_pos ⟨Nat.zero_le _, h⟩, if_pos h]
    · rw [if_neg (fun hh => h hh.2), if_neg h]
  unfold FSHDProcess
  rw [hl]
  simp only
  rw [hs]
  simp only
  rw [if_pos trivial, if_pos hfse, ho]
  refine ⟨_, _, rfl, ?_⟩
  intro i hi
  refine ⟨hfield i hi, fun hbit => ?_⟩
  show out.getD i 0 = fhb_Field hb i
  rw [hfield i hi, if_pos (by omega)]

/-- C24 (witness): the header `hdrFlagsFour` against an empty registry. -/
theorem FSHDProcess_copies_fields_up_to_top_flag_witness :
    ∃ e reg2, FSHDProcess (some []) true true [] (some hdrFlagsFour) 1145304067 1 true
        = .ok (FseRef.fresh e, reg2) ∧
      ∀ i, i < 9 →
        e.fields.getD i 0
          = (if fhb_PatchFlags hdrFlagsFour >>> i ≠ 0 then fhb_Field hdrFlagsFour i else 0) ∧
        ((fhb_PatchFlags hdrFlagsFour >>> i) % 2 = 1 →
          e.fields.getD i 0 = fhb_Field hdrFlagsFour i) :=
  FSHDProcess_copies_fields_up_to_top_flag (some []) true true [] hdrFlagsFour 1145304067 1
    (fun ⟨e, he, _⟩ => absurd he (List.not_mem_nil e)) (Or.inl (by decide)) rfl (by decide)

set_option maxRecDepth 1000000 in
/-- C25 (counterexample): the load file `imageNoEnd` fills its LSEG block to the last
long with the data of its only hunk and holds no END token.  The token read after the
data fails, and `fsrelocate` returns the loaded segment (a non-NULL pointer, nothing
freed but the scratch table). -/
theorem fsrelocate_succeeds_without_end_token :
    imageNoEnd.length = 123 ∧ HUNK_END ∉ imageNoEnd ∧
    Run.map FsResult.summary (fsrelocate 20 allocPages 0 (loadState (lsegDisk imageNoEnd) 1))
      = .ok { seg := 8196, firstHunk := 0, totalHunks := 1, table := some (4096, 8),
              allocs := [(8192, 468)], frees := [(4096, 8)], trace := [] } := by
  decide

/-- C25 (amended): the load pass of `fsrelocate`, in a state with `hunkCnt` hunks
started (`hunkCnt <= totalHunks`).  A failed token read ends the pass with failure when
`hunkCnt < totalHunks` and with success ("normal end") when `hunkCnt = totalHunks`.  A
failed read of the word count or of the data of a CODE or DATA hunk, of the count or the
hunk index of a relocation group, or of a relocation offset makes the step return
failure; the group loop passes a failure of the offset loop on, and the pass returns
failure when a load step or a relocation table does.  An END token ends the pass with
success when all hunks have been started and is skipped before.  The pass returns
success only in this way: completed rounds lead from the start to a state with
`hunkCnt = totalHunks` in which the token read fails or delivers END, and the result is
that state with the reader as the read left it.  With failure at the label `end`,
`fsrelocate` returns NULL. -/
theorem loadLoop_aborts_on_failed_read (temp fh th fuel : Nat) (hunkCnt : Int)
    (rh : Option Nat) (ld : Loader) (hle : hunkCnt ≤ (th : Int)) :
    (∀ o md1, lseg_read_long ld.md temp = .ok (false, o, md1) →
      loadLoop temp fh th (fuel + 1) hunkCnt rh ld
        = .ok (decide ((th : Int) ≤ hunkCnt), { ld with md := md1 })) ∧
    (∀ ty cur o md1, lseg_read_long ld.md temp = .ok (false, o, md1) →
      loadHunk temp ty cur ld = .ok (false, { ld with md := md1 })) ∧
    (∀ ty cur os md1 out md2 r, lseg_read_long ld.md temp = .ok (true, os, md1) →
      ty ≠ HUNK_BSS → lseg_read_longs md1 (os.getD temp) = .ok (false, out, md2) →
      loadHunk temp ty cur ld = .ok r → r.1 = false) ∧
    (∀ short cur o md1, lseg_read_long ld.md temp = .ok (false, o, md1) →
      relocGroups short temp fh th cur (fuel + 1) ld = .ok (false, { ld with md := md1 })) ∧
    (∀ short cur oc md1 o md2, lseg_read_long ld.md temp = .ok (true, oc, md1) →
      oc.getD temp ≠ 0 → lseg_read_long md1 temp = .ok (false, o, md2) →
      relocGroups short temp fh th cur (fuel + 1) ld = .ok (false, { ld with md := md2 })) ∧
    (∀ (short : Bool) cur tgt target cnt o md1,
      (if short = true then lseg_read_word ld.md else lseg_read_long ld.md temp)
        = .ok (false, o, md1) →
      relocOffsets short temp cur tgt target (cnt + 1) ld
        = .ok (false, { ld with md := md1 })) ∧
    (∀ short cur oc md1 oh md2 rhr ld3, lseg_read_long ld.md temp = .ok (true, oc, md1) →
      oc.getD temp ≠ 0 → lseg_read_long md1 temp = .ok (true, oh, md2) →
      ¬ (oh.getD temp + 4294967296 - fh) % 4294967296 ≥ th →
      hunkAt { ld with md := md2,
                       trace := ld.trace ++ [LoadEv.group (oc.getD temp) (oh.getD temp)] }
          (((oh.getD temp + 4294967296 - fh) % 4294967296 : Nat) : Int) = .ok rhr →
      relocOffsets short temp cur ((oh.getD temp + 4294967296 - fh) % 4294967296)
          rhr.hunkData (oc.getD temp)
          { ld with md := md2,
                    trace := ld.trace ++ [LoadEv.group (oc.getD temp) (oh.getD temp)] }
        = .ok (false, ld3) →
      relocGroups short temp fh th cur (fuel + 1) ld = .ok (false, ld3)) ∧
    (∀ ty mdT ld2, lseg_read_long ld.md temp = .ok (true, some ty, mdT) →
      (ty = HUNK_CODE ∨ ty = HUNK_DATA ∨ ty = HUNK_BSS) →
      0 ≤ hunkCnt → hunkCnt < (th : Int) → hunkCnt.toNat < ld.tlen →
      loadHunk temp ty hunkCnt.toNat { ld with md := mdT } = .ok (false, ld2) →
      loadLoop temp fh th (fuel + 1) hunkCnt rh ld = .ok (false, ld2)) ∧
    (∀ cur ot mdT ld2, lseg_read_long ld.md temp = .ok (true, ot, mdT) →
      (ot.getD temp = HUNK_RELOC32 ∨ ot.getD temp = HUNK_RELOC32SHORT) →
      relocGroups (decide (ot.getD temp = HUNK_RELOC32SHORT)) temp fh th cur fuel
          { ld with md := mdT } = .ok (false, ld2) →
      loadLoop temp fh th (fuel + 1) hunkCnt (some cur) ld = .ok (false, ld2)) ∧
    (∀ ot mdT, lseg_read_long ld.md temp = .ok (true, ot, mdT) →
      ot.getD temp = HUNK_END →
      ((th : Int) ≤ hunkCnt →
        loadLoop temp fh th (fuel + 1) hunkCnt rh ld = .ok (true, { ld with md := mdT })) ∧
      (hunkCnt < (th : Int) →
        loadLoop temp fh th (fuel + 1) hunkCnt rh ld
          = loadLoop temp fh th fuel hunkCnt rh { ld with md := mdT })) ∧
    (∀ ld2, loadLoop temp fh th fuel hunkCnt rh ld = .ok (true, ld2) →
      ∃ hc rh1 ld1 v o, LoopReach temp fh th (hunkCnt, rh, ld) (hc, rh1, ld1) ∧
        hc = (th : Int) ∧ lseg_read_long ld1.md temp = .ok (v, o, ld2.md) ∧
        (v = false ∨ (v = true ∧ o.getD temp = HUNK_END)) ∧
        ld2 = { ld1 with md := ld2.md }) ∧
    (∀ ta ts fph r, fsFinish fh th ta ts false fph ld = .ok r → r.seg = 0) := by
  refine ⟨?_, ?_, ?_, ?_, ?_, ?_, ?_, ?_, ?_, ?_, ?_, ?_⟩
  · intro o md1 hr
    rw [loadLoop, if_pos hle, hr]
    simp only
    by_cases hge : (th : Int) ≤ hunkCnt
    · rw [if_pos hge, decide_eq_true hge]
    · rw [if_neg hge, decide_eq_false hge]
  · intro ty cur o md1 hr
    unfold loadHunk
    rw [hr]
  · intro ty cur os md1 out md2 r hr hty hd h
    unfold loadHunk at h
    rw [hr] at h
    simp only at h
    split at h
    · injection h with h
      rw [← h]
    · rw [hd] at h
      simp only at h
      split at h
      · injection h with h
        rw [← h]
      · exact Run.noConfusion h
  · intro short cur o md1 hr
    rw [relocGroups, hr]
  · intro short cur oc md1 o md2 hc hne hi
    rw [relocGroups, hc]
    simp only
    rw [if_neg hne, hi]
  · intro short cur tgt target cnt o md1 hr
    rw [relocOffsets]
    cases short with
    | true =>
      rw [if_pos rfl] at hr
      simp only [if_true]
      rw [hr]
    | false =>
      rw [if_neg (by decide)] at hr
      simp only [Bool.false_eq_true, if_false]
      rw [hr]
  · intro short cur oc md1 oh md2 rhr ld3 hc hne hi hin hat ho
    exact relocGroups_offsets_fail short temp fh th cur fuel ld ld3 oc oh md1 md2 rhr hc hne hi
      hin hat ho
  · intro ty mdT ld2 htok hty h0 hlt htl hl
    exact loadLoop_load_fails temp fh th fuel hunkCnt rh ld ld2 ty mdT htok hty h0 hlt htl hl
  · intro cur ot mdT ld2 htok hty hg
    exact loadLoop_groups_fail temp fh th fuel hunkCnt cur ld ld2 ot mdT htok hty hle hg
  · intro ot mdT htok hend
    exact loadLoop_end_token temp fh th fuel hunkCnt rh ld ot mdT hle htok hend
  · intro ld2 h
    exact loadLoop_true_reach temp fh th fuel hunkCnt rh ld ld2 hle h
  · intro ta ts fph r h
    exact ((fsFinish_spec fh th ta ts false fph ld r h).2.2.2.2.2.2.2.2 rfl).1

/-- C25 (witness): in the state `ldOne`, whose reader stands before a block that does
not read, with no hunk started out of one, the failed token read ends the pass with
failure. -/
theorem loadLoop_aborts_on_failed_read_witness :
    ∃ md1, loadLoop 0 0 1 1 0 none ldOne = .ok (false, { ldOne with md := md1 }) := by
  obtain ⟨o, md1, hr⟩ := ldOne_read_fails
  exact ⟨md1, (loadLoop_aborts_on_failed_read 0 0 1 0 0 none ldOne (by decide)).1 o md1 hr⟩

/-- C28: `cmd_do_iorequest` on a read, write or format request with a non-zero length,
for a block shift from 0 to 31 and `ULONG` values of `io_Offset` and `io_Actual`.  It
calls `sd_readwrite` once; the block number passed is
`floor((io_Actual * 2^32 + io_Offset) / 2^blkshift)` for the 64-bit commands and
`floor(io_Offset / 2^blkshift)` for the 32-bit ones, the direction is that of the
command, and with `io_Actual = 0` the block number is `floor(io_Offset / 2^blkshift)`
for every command. -/
theorem cmd_do_iorequest_block_number (blkshift : Nat) (rc : Int) (iotd : IOExtTD)
    (hs : blkshift ≤ 31) (hO : iotd.io_Offset < 4294967296)
    (hA : iotd.io_Actual < 4294967296) (hlen : iotd.io_Length ≠ 0) :
    ∃ out call, cmd_do_iorequest blkshift rc iotd = .ok out ∧ out.call = some call ∧
      call.blkno = (if iotd.io_Command.wide = true
        then (iotd.io_Actual * 4294967296 + iotd.io_Offset) / 2 ^ blkshift
        else iotd.io_Offset / 2 ^ blkshift) ∧
      call.write = iotd.io_Command.writes ∧ call.length = iotd.io_Length ∧
      (iotd.io_Actual = 0 → call.blkno = iotd.io_Offset / 2 ^ blkshift) := by
  have hz : iotd.io_Actual = 0 →
      (iotd.io_Actual * 4294967296 + iotd.io_Offset) / 2 ^ blkshift
        = iotd.io_Offset / 2 ^ blkshift := by
    intro h0
    rw [h0, Nat.zero_mul, Nat.zero_add]
  obtain ⟨cmd, O, A, len, err⟩ := iotd
  have n32 : ∀ wr, ∃ out call,
      rw32 wr blkshift rc
          { io_Command := cmd, io_Offset := O, io_Actual := A, io_Length := len, io_Error := 0 }
        = .ok out ∧
      out.call = some call ∧ call.blkno = O / 2 ^ blkshift ∧ call.write = wr ∧
      call.length = len :=
    fun wr => rw32_call wr blkshift rc _ hs hlen
  have n64 : ∀ wr, ∃ out call,
      rw64 wr blkshift rc
          { io_Command := cmd, io_Offset := O, io_Actual := A, io_Length := len, io_Error := 0 }
        = .ok out ∧
      out.call = some call ∧ call.blkno = (A * 4294967296 + O) / 2 ^ blkshift ∧
      call.write = wr ∧ call.length = len :=
    fun wr => rw64_call wr blkshift rc _ hs hO hA hlen
  cases cmd
  case ETD_READ =>
    obtain ⟨out, call, h1, h2, h3, h4, h5⟩ := n32 false
    exact ⟨out, call, h1, h2, h3, h4, h5, fun _ => h3⟩
  case CMD_READ =>
    obtain ⟨out, call, h1, h2, h3, h4, h5⟩ := n32 false
    exact ⟨out, call, h1, h2, h3, h4, h5, fun _ => h3⟩
  case ETD_WRITE =>
    obtain ⟨out, call, h1, h2, h3, h4, h5⟩ := n32 true
    exact ⟨out, call, h1, h2, h3, h4, h5, fun _ => h3⟩
  case CMD_WRITE =>
    obtain ⟨out, call, h1, h2, h3, h4, h5⟩ := n32 true
    exact ⟨out, call, h1, h2, h3, h4, h5, fun _ => h3⟩
  case ETD_FORMAT =>
    obtain ⟨out, call, h1, h2, h3, h4, h5⟩ := n32 true
    exact ⟨out, call, h1, h2, h3, h4, h5, fun _ => h3⟩
  case TD_FORMAT =>
    obtain ⟨out, call, h1, h2, h3, h4, h5⟩ := n32 true
    exact ⟨out, call, h1, h2, h3, h4, h5, fun _ => h3⟩
  case NSCMD_TD_READ64 =>
    obtain ⟨out, call, h1, h2, h3, h4, h5⟩ := n64 false
    exact ⟨out, call, h1, h2, h3, h4, h5, fun h0 => h3.trans (hz h0)⟩
  case TD_READ64 =>
    obtain ⟨out, call, h1, h2, h3, h4, h5⟩ := n64 false
    exact ⟨out, call, h1, h2, h3, h4, h5, fun h0 => h3.trans (hz h0)⟩
  case NSCMD_TD_FORMAT64 =>
    obtain ⟨out, call, h1, h2, h3, h4, h5⟩ := n64 true
    exact ⟨out, call, h1, h2, h3, h4, h5, fun h0 => h3.trans (hz h0)⟩
  case NSCMD_TD_WRITE64 =>
    obtain ⟨out, call, h1, h2, h3, h4, h5⟩ := n64 true
    exact ⟨out, call, h1, h2, h3, h4, h5, fun h0 => h3.trans (hz h0)⟩
  case TD_FORMAT64 =>
    obtain ⟨out, call, h1, h2, h3, h4, h5⟩ := n64 true
    exact ⟨out, call, h1, h2, h3, h4, h5, fun h0 => h3.trans (hz h0)⟩
  case TD_WRITE64 =>
    obtain ⟨out, call, h1, h2, h3, h4, h5⟩ := n64 true
    exact ⟨out, call, h1, h2, h3, h4, h5, fun h0 => h3.trans (hz h0)⟩

/-- C28 (witness): the request `reqRead64`, 512 bytes at byte offset 2^32 + 512 with
512-byte blocks, reads from block 8388609. -/
theorem cmd_do_iorequest_block_number_witness :
    ∃ out call, cmd_do_iorequest 9 0 reqRead64 = .ok out ∧ out.call = some call ∧
      call.blkno = (if reqRead64.io_Command.wide = true
        then (reqRead64.io_Actual * 4294967296 + reqRead64.io_Offset) / 2 ^ 9
        else reqRead64.io_Offset / 2 ^ 9) ∧
      call.write = reqRead64.io_Command.writes ∧ call.length = reqRead64.io_Length ∧
      (reqRead64.io_Actual = 0 → call.blkno = reqRead64.io_Offset / 2 ^ 9) :=
  cmd_do_iorequest_block_number 9 0 reqRead64 (by decide) (by decide) (by decide) (by decide)

end Mounter
